import Mathlib

/-!
# Sales ingestion pipeline (`main.go`): parse, persist, aggregate

A shallow embedding of `parseCSV`, `insertSalesData`, `aggregateData`,
`getSalesData` and the ingestion sequence of `main`, together with the
library functions they call (`strconv.Atoi`, `strconv.ParseFloat`,
`time.Parse`, `csv.Reader.Read`) and the SQL statements they send.

Conventions of the embedding:

* a Go `string` is a Lean `String`, a Go `int` an `Int` within `-2^63 .. 2^63-1`
  (the conversions enforce the range), a `float64` a `Float64` datum with
  IEEE-754 rounding, a `time.Time` its wall-clock reading and location;
* a CSV file is the sequence of records that `encoding/csv` tokenises its text
  into; the reader's own state (`FieldsPerRecord`) is threaded explicitly;
* a function that returns `(value, error)` returns its value with an
  `Option Error`; a run-time panic of an index expression is an outcome of its
  own;
* the store is the table `sales_data` (if created) with the sequence of its
  `SERIAL` column and the uniqueness of its `PRIMARY KEY`; the `INT` columns
  hold 32-bit integers and the `TEXT` column refuses a text with the character
  NUL; `GROUP BY` with `SUM` shares the rows among processes,
  visits them and returns the groups in an order of the store's choosing (a
  `Plan`), adds with the store's `float8pl` and fails on overflow.
-/

set_option autoImplicit false

namespace SalesApp

deriving instance DecidableEq for Except

/-! ## Errors -/

/-- The two sentinel causes of a `*strconv.NumError`. -/
inductive NumErrKind
  | ErrSyntax
  | ErrRange
  deriving DecidableEq, Repr

/-- Error values that the functions of `main.go` can return, each constructor
with the data of the Go error value that the embedding tracks. -/
inductive Error
  /-- The sentinel `io.EOF`. -/
  | EOF
  /-- A `*strconv.NumError{Func, Num, Err}`. -/
  | NumError (Func Num : String) (Err : NumErrKind)
  /-- A `*time.ParseError` for the given layout and value (its `LayoutElem`,
  `ValueElem` and `Message` are functions of these two and are not tracked). -/
  | TimeParseError (Layout Value : String)
  /-- A `*csv.ParseError` whose `Err` is `csv.ErrFieldCount`, raised for the
  record with the given 1-based position in the file. -/
  | ErrFieldCount (record : Nat)
  /-- A `*fs.PathError` of `os.Open`. -/
  | PathError (Op Path : String)
  /-- A `*pq.Error` with the given SQLSTATE code. -/
  | PqError (Code : String)
  deriving DecidableEq, Repr

/-! ## `strconv.Atoi` -/

/-- ASCII decimal digit test (`'0' <= c && c <= '9'`). -/
def isDigit (c : Char) : Bool := decide (48 ≤ c.toNat) && decide (c.toNat ≤ 57)

/-- Value of an ASCII decimal digit (`c - '0'`). -/
def digitVal (c : Char) : Nat := c.toNat - 48

/-- The helper `strconv.syntaxError(fn, str)`. -/
def syntaxError (fn str : String) : Error := .NumError fn str .ErrSyntax

/-- The helper `strconv.rangeError(fn, str)`. -/
def rangeError (fn str : String) : Error := .NumError fn str .ErrRange

/-- The digit loop of the fast path of `strconv.Atoi`:
`for _, ch := range []byte(s) { ch -= '0'; if ch > 9 { return 0, syntaxError }; n = n*10 + int(ch) }`.
`none` stands for the syntax-error return. -/
def atoiLoop : List Char → Nat → Option Nat
  | [], n => some n
  | ch :: rest, n => if isDigit ch then atoiLoop rest (n * 10 + digitVal ch) else none

/-- The largest `uint64`. -/
def maxUint64 : Nat := 2 ^ 64 - 1

/-- The digit loop of `strconv.ParseUint(s, 10, 64)`; `cutoff = maxUint64/10 + 1`.
The loop returns at the first offending byte: a syntax error for a byte that is
not a decimal digit, a range error as soon as the accumulator overflows. -/
def parseUintLoop (s0 : String) : List Char → Nat → Except Error Nat
  | [], n => .ok n
  | c :: rest, n =>
    if isDigit c then
      if n ≥ maxUint64 / 10 + 1 then .error (rangeError "ParseUint" s0)
      else
        let n1 := n * 10 + digitVal c
        if n1 > maxUint64 then .error (rangeError "ParseUint" s0)
        else parseUintLoop s0 rest n1
    else .error (syntaxError "ParseUint" s0)

/-- Model of `strconv.ParseUint(s, 10, 64)`. -/
def strconv_ParseUint (s : List Char) : Except Error Nat :=
  match s with
  | [] => .error (syntaxError "ParseUint" "")
  | _ => parseUintLoop (String.mk s) s 0

/-- Model of `strconv.ParseInt(s, 10, 0)` on a 64-bit platform. -/
def strconv_ParseInt (s : String) : Except Error Int :=
  match s.data with
  | [] => .error (syntaxError "ParseInt" "")
  | c :: rest =>
    let neg := c == '-'
    let digits := if c == '+' || c == '-' then rest else c :: rest
    match strconv_ParseUint digits with
    | .error (.NumError _ _ .ErrRange) =>
      -- `un = maxUint64`, which is beyond either cutoff
      .error (rangeError "ParseInt" s)
    | .error _ => .error (syntaxError "ParseInt" s)
    | .ok un =>
      if !neg && un ≥ 2 ^ 63 then .error (rangeError "ParseInt" s)
      else if neg && un > 2 ^ 63 then .error (rangeError "ParseInt" s)
      else .ok (if neg then -(un : Int) else (un : Int))

/-- Model of `strconv.Atoi(s)` with a 64-bit `int`: the fast path for inputs of
1 to 18 bytes, `ParseInt(s, 10, 0)` with the function name rewritten otherwise. -/
def strconv_Atoi (s : String) : Except Error Int :=
  let sLen := s.utf8ByteSize
  if 0 < sLen ∧ sLen < 19 then
    match s.data with
    | [] => .error (syntaxError "Atoi" s)
    | c :: rest =>
      let digits := if c == '-' || c == '+' then rest else c :: rest
      if digits.length < 1 then .error (syntaxError "Atoi" s)
      else
        match atoiLoop digits 0 with
        | none => .error (syntaxError "Atoi" s)
        | some n => .ok (if c == '-' then -(n : Int) else (n : Int))
  else
    match strconv_ParseInt s with
    | .error (.NumError _ num err) => .error (.NumError "Atoi" num err)
    | r => r

/-! ## `time.Parse` with the layout `time.RFC3339` -/

/-- The location of a `time.Time`: `time.UTC`, or a zone at a fixed number of
seconds east of UTC (for a parsed numeric offset Go picks `time.Local` when its
offset agrees and `time.FixedZone("", offset)` otherwise; both are rendered as
`Fixed`). -/
inductive Location
  | UTC
  | Fixed (offset : Int)
  deriving DecidableEq, Repr

/-- A `time.Time`, represented by the wall-clock reading in its location. -/
structure Time where
  year : Nat
  month : Nat
  day : Nat
  hour : Nat
  min : Nat
  sec : Nat
  nsec : Nat
  loc : Location
  deriving DecidableEq, Repr

/-- The constant `time.RFC3339`. -/
def RFC3339 : String := "2006-01-02T15:04:05Z07:00"

/-- The helper `time.isLeap`. -/
def isLeap (year : Nat) : Bool := year % 4 == 0 && (year % 100 != 0 || year % 400 == 0)

/-- The helper `time.daysIn`. -/
def daysIn (m year : Nat) : Nat :=
  if m = 2 then (if isLeap year then 29 else 28)
  else if m = 4 ∨ m = 6 ∨ m = 9 ∨ m = 11 then 30
  else 31

/-- The helper `time.getnum`: one or two leading digits, two when `fixed`. -/
def getnum (s : List Char) (fixed : Bool) : Option (Nat × List Char) :=
  match s with
  | [] => none
  | c0 :: rest0 =>
    if !isDigit c0 then none
    else
      match rest0 with
      | [] => if fixed then none else some (digitVal c0, rest0)
      | c1 :: rest1 =>
        if !isDigit c1 then (if fixed then none else some (digitVal c0, rest0))
        else some (digitVal c0 * 10 + digitVal c1, rest1)

/-- The helper `time.skip` for a one-byte literal of the layout. -/
def skip (value : List Char) (lit : Char) : Option (List Char) :=
  match value with
  | c :: rest => if c = lit then some rest else none
  | [] => none

/-- Value of a run of decimal digits, most significant first. -/
def digitsVal (ds : List Char) : Nat := ds.foldl (fun n c => n * 10 + digitVal c) 0

/-- The layout elements `2006-01-02T` of `time.parse`: a four-digit year, a
two-digit month in `1..12`, a two-digit day (validated at the end), each
followed by its literal.  Returns year, month, day and the unread text. -/
def parseDate (value : List Char) : Option (Nat × Nat × Nat × List Char) :=
  match value with
  | y0 :: y1 :: y2 :: y3 :: value =>
    if !(isDigit y0 && isDigit y1 && isDigit y2 && isDigit y3) then none
    else
      let year := digitsVal [y0, y1, y2, y3]
      match skip value '-' with
      | none => none
      | some value =>
      match getnum value true with
      | none => none
      | some (month, value) =>
      if month = 0 ∨ 12 < month then none
      else
      match skip value '-' with
      | none => none
      | some value =>
      match getnum value true with
      | none => none
      | some (day, value) =>
      match skip value 'T' with
      | none => none
      | some value => some (year, month, day, value)
  | _ => none

/-- The helper `time.parseNanoseconds` applied to the digits that follow the
separator: at most nine digits count, scaled to nanoseconds. -/
def parseNanoseconds (ds : List Char) : Nat :=
  digitsVal (ds.take 9) * 10 ^ (9 - (ds.take 9).length)

/-- The special case of the seconds element of `time.parse`: a fractional
second in the value that the layout does not mention, which is a period or a
comma followed by one or more digits.  Returns the nanoseconds and the unread
text. -/
def parseFraction (value : List Char) : Nat × List Char :=
  match value with
  | p :: d :: rest =>
    if (p = '.' ∨ p = ',') ∧ isDigit d then
      (parseNanoseconds ((d :: rest).takeWhile isDigit), (d :: rest).dropWhile isDigit)
    else (0, value)
  | _ => (0, value)

/-- The layout element `Z07:00`: a literal `Z` for UTC, or sign, two-digit
hour (at most 24), colon and two-digit minute (at most 60). -/
def parseZone (value : List Char) : Option (Location × List Char) :=
  match value with
  | 'Z' :: value => some (.UTC, value)
  | sign :: h0 :: h1 :: c :: m0 :: m1 :: value =>
    if c ≠ ':' then none
    else
      match getnum [h0, h1] true, getnum [m0, m1] true with
      | some (hr, _), some (mm, _) =>
        if hr > 24 ∨ mm > 60 then none
        else
          let zoneOffset : Int := ((hr * 60 + mm) * 60 : Nat)
          if sign = '+' then some (.Fixed zoneOffset, value)
          else if sign = '-' then some (.Fixed (-zoneOffset), value)
          else none
      | _, _ => none
  | _ => none

/-- The layout elements `15:04:05Z07:00` of `time.parse` and the final check
that no text is left: hour of one or two digits below 24, two-digit minute and
second below 60, an optional fractional second introduced by a period or a
comma, the zone.  -/
def parseClock (value : List Char) : Option (Nat × Nat × Nat × Nat × Location) :=
  match getnum value false with
  | none => none
  | some (hour, value) =>
  if 24 ≤ hour then none
  else
  match skip value ':' with
  | none => none
  | some value =>
  match getnum value true with
  | none => none
  | some (min, value) =>
  if 60 ≤ min then none
  else
  match skip value ':' with
  | none => none
  | some value =>
  match getnum value true with
  | none => none
  | some (sec, value) =>
  if 60 ≤ sec then none
  else
    let (nsec, value) := parseFraction value
    match parseZone value with
    | some (loc, []) => some (hour, min, sec, nsec, loc)
    | _ => none

/-- Model of `time.Parse(time.RFC3339, value)`. -/
def time_Parse (value : String) : Except Error Time :=
  match parseDate value.data with
  | none => .error (.TimeParseError RFC3339 value)
  | some (year, month, day, rest) =>
    match parseClock rest with
    | none => .error (.TimeParseError RFC3339 value)
    | some (hour, min, sec, nsec, loc) =>
      if day < 1 ∨ day > daysIn month year then .error (.TimeParseError RFC3339 value)
      else .ok ⟨year, month, day, hour, min, sec, nsec, loc⟩

/-! ## `float64` and `strconv.ParseFloat` -/

/-- An IEEE-754 binary64 datum.  A finite datum is `(-1)^neg * mant * 2^exp`
in canonical form: `-1074 ≤ exp ≤ 971`, `mant < 2^53`, and `2^52 ≤ mant` unless
`exp = -1074` (zero and the subnormals). -/
inductive Float64
  | finite (neg : Bool) (mant : Nat) (exp : Int)
  | inf (neg : Bool)
  | nan
  deriving DecidableEq, Repr

/-- Bit length of a natural number by repeated halving, `fuel` bounding the
number of halvings. -/
def bitLen : Nat → Nat → Nat
  | 0, _ => 0
  | fuel + 1, n => if n = 0 then 0 else bitLen fuel (n / 2) + 1

/-- The integer `⌊log₂ (num / den)⌋` for positive `num` and `den`. -/
def floorLog2 (num den : Nat) : Int :=
  let k : Int := (bitLen num num : Int) - (bitLen den den : Int)
  if 0 ≤ k then (if den * 2 ^ k.toNat ≤ num then k else k - 1)
  else (if den ≤ num * 2 ^ (-k).toNat then k else k - 1)

/-- IEEE-754 round-to-nearest, ties-to-even, of the exact value
`(-1)^neg * num / den` (`den > 0`) to binary64; values beyond the largest
finite datum round to an infinity. -/
def roundFloat64 (neg : Bool) (num den : Nat) : Float64 :=
  if num = 0 then .finite neg 0 (-1074)
  else
    let e : Int := max (floorLog2 num den - 52) (-1074)
    let n := if 0 ≤ e then num else num * 2 ^ (-e).toNat
    let d := if 0 ≤ e then den * 2 ^ e.toNat else den
    let q := n / d
    let r := n % d
    let m := if d < 2 * r ∨ (2 * r = d ∧ q % 2 = 1) then q + 1 else q
    let m1 := if m = 2 ^ 53 then 2 ^ 52 else m
    let e1 := if m = 2 ^ 53 then e + 1 else e
    if 971 < e1 then .inf neg else .finite neg m1 e1

/-- IEEE-754 binary64 addition (round-to-nearest, ties-to-even), the `+` of Go
on `float64` and of the store on `FLOAT` columns. -/
def Float64.add : Float64 → Float64 → Float64
  | .nan, _ => .nan
  | _, .nan => .nan
  | .inf a, .inf b => if a = b then .inf a else .nan
  | .inf a, .finite _ _ _ => .inf a
  | .finite _ _ _, .inf b => .inf b
  | .finite n1 m1 e1, .finite n2 m2 e2 =>
    let e := min e1 e2
    let a : Int := (if n1 then -1 else 1) * ((m1 * 2 ^ (e1 - e).toNat : Nat) : Int)
    let b : Int := (if n2 then -1 else 1) * ((m2 * 2 ^ (e2 - e).toNat : Nat) : Int)
    let s := a + b
    if s = 0 then .finite (n1 && n2) 0 (-1074)
    else if 0 ≤ e then roundFloat64 (decide (s < 0)) (s.natAbs * 2 ^ e.toNat) 1
    else roundFloat64 (decide (s < 0)) s.natAbs (2 ^ (-e).toNat)

/-- The helper `strconv.lower(c) == l` for an ASCII lower-case letter `l`. -/
def lowerIs (c l : Char) : Bool := c.toNat = l.toNat || c.toNat + 32 = l.toNat

/-- Hexadecimal letter digit test (`'a' <= lower(c) && lower(c) <= 'f'`). -/
def isHexLetter (c : Char) : Bool :=
  (decide (97 ≤ c.toNat) && decide (c.toNat ≤ 102)) || (decide (65 ≤ c.toNat) && decide (c.toNat ≤ 70))

/-- Value of a hexadecimal letter digit (`lower(c) - 'a' + 10`). -/
def hexLetterVal (c : Char) : Nat := if 97 ≤ c.toNat then c.toNat - 97 + 10 else c.toNat - 65 + 10

/-- The helper `strconv.commonPrefixLenIgnoreCase(s, pre)` for a lower-case `pre`. -/
def commonPrefixLenIgnoreCase : List Char → List Char → Nat
  | c :: s, p :: pre =>
    let c1 := if 65 ≤ c.toNat ∧ c.toNat ≤ 90 then Char.ofNat (c.toNat + 32) else c
    if c1 = p then commonPrefixLenIgnoreCase s pre + 1 else 0
  | _, _ => 0

/-- The helper `strconv.special`: the infinities and NaN, with the number of
bytes consumed. -/
def special (s : List Char) : Option (Float64 × Nat) :=
  let inf (neg : Bool) (nsign : Nat) (s : List Char) : Option (Float64 × Nat) :=
    let n := commonPrefixLenIgnoreCase s "infinity".data
    let n := if 3 < n ∧ n < 8 then 3 else n
    if n = 3 ∨ n = 8 then some (.inf neg, nsign + n) else none
  match s with
  | [] => none
  | c :: rest =>
    if c = '+' ∨ c = '-' then inf (c = '-') 1 rest
    else if c = 'i' ∨ c = 'I' then inf false 0 s
    else if c = 'n' ∨ c = 'N' then
      (if commonPrefixLenIgnoreCase s "nan".data = 3 then some (.nan, 3) else none)
    else none

/-- The state of the mantissa loop of `strconv.readFloat`.  The mantissa is
kept exactly (Go keeps 19 digits and a truncation flag, and falls back to the
full digit string whenever the dropped digits could change the rounding). -/
structure MantState where
  mant : Nat
  nd : Nat
  dp : Int
  sawdot : Bool
  sawdigits : Bool
  underscores : Bool
  deriving DecidableEq, Repr

/-- The mantissa loop of `strconv.readFloat`; returns the state and the unread
text. -/
def readMantissa (hex : Bool) : List Char → MantState → MantState × List Char
  | [], st => (st, [])
  | c :: rest, st =>
    if c = '_' then readMantissa hex rest { st with underscores := true }
    else if c = '.' then
      if st.sawdot then (st, c :: rest)
      else readMantissa hex rest { st with sawdot := true, dp := st.nd }
    else if isDigit c then
      if c = '0' ∧ st.nd = 0 then
        readMantissa hex rest { st with sawdigits := true, dp := st.dp - 1 }
      else
        readMantissa hex rest
          { st with sawdigits := true, nd := st.nd + 1,
                    mant := st.mant * (if hex then 16 else 10) + digitVal c }
    else if hex && isHexLetter c then
      readMantissa hex rest
        { st with sawdigits := true, nd := st.nd + 1, mant := st.mant * 16 + hexLetterVal c }
    else (st, c :: rest)

/-- The exponent digit loop of `strconv.readFloat`:
`for ; i < len(s) && ('0' <= s[i] && s[i] <= '9' || s[i] == '_'); i++`, the
exponent no longer growing once it has reached 10000. -/
def readExpDigits : List Char → Nat → Bool → Nat × Bool × List Char
  | [], e, us => (e, us, [])
  | c :: rest, e, us =>
    if c = '_' then readExpDigits rest e true
    else if isDigit c then readExpDigits rest (if e < 10000 then e * 10 + digitVal c else e) us
    else (e, us, c :: rest)

/-- The helper `strconv.underscoreOK`, after the optional sign and base prefix:
`saw` is the class of the last byte seen (`'0'`, `'_'`, `'!'` or `'^'`). -/
def underscoreLoop (hex : Bool) : List Char → Char → Bool
  | [], saw => saw ≠ '_'
  | c :: rest, saw =>
    if isDigit c || (hex && isHexLetter c) then underscoreLoop hex rest '0'
    else if c = '_' then (if saw ≠ '0' then false else underscoreLoop hex rest '_')
    else if saw = '_' then false
    else underscoreLoop hex rest '!'

/-- The helper `strconv.underscoreOK`. -/
def underscoreOK (s : List Char) : Bool :=
  let s := match s with
    | c :: rest => if c = '-' ∨ c = '+' then rest else s
    | [] => s
  match s with
  | '0' :: c :: rest =>
    if lowerIs c 'b' || lowerIs c 'o' || lowerIs c 'x' then underscoreLoop (lowerIs c 'x') rest '0'
    else underscoreLoop false s '^'
  | _ => underscoreLoop false s '^'

/-- The helper `strconv.readFloat` followed by the conversion of `atof64`, for
an input that has to be consumed entirely: sign, exact mantissa `mant` and the
exponent `x` of the base (`10`, or `2` for a hexadecimal mantissa), the text
denoting `(-1)^neg * mant * base^x`. -/
def readFloat (s : List Char) : Option (Bool × Nat × Bool × Int) :=
  match s with
  | [] => none
  | c :: rest =>
    let neg := c = '-'
    let body := if c = '+' ∨ c = '-' then rest else s
    let hex : Bool :=
      match body with
      | '0' :: x :: _ :: _ => lowerIs x 'x'
      | _ => false
    let (st, rest) := readMantissa hex (if hex then body.drop 2 else body) ⟨0, 0, 0, false, false, false⟩
    if !st.sawdigits then none
    else
      let dp : Int := if st.sawdot then st.dp else st.nd
      let dp : Int := if hex then dp * 4 else dp
      let ndMant : Int := if hex then st.nd * 4 else st.nd
      let finish (dp : Int) (underscores : Bool) (rest : List Char) : Option (Bool × Nat × Bool × Int) :=
        if !rest.isEmpty then none
        else if underscores && !underscoreOK s then none
        else some (neg, st.mant, hex, if st.mant = 0 then 0 else dp - ndMant)
      match rest with
      | c :: rest1 =>
        if lowerIs c (if hex then 'p' else 'e') then
          match rest1 with
          | [] => none
          | sg :: rest2 =>
            let esign : Int := if sg = '-' then -1 else 1
            let ds := if sg = '+' ∨ sg = '-' then rest2 else rest1
            match ds with
            | [] => none
            | d :: _ =>
              if !isDigit d then none
              else
                let (e, us, rest3) := readExpDigits ds 0 st.underscores
                finish (dp + e * esign) us rest3
        else if hex then none
        else finish dp st.underscores rest
      | [] => if hex then none else finish dp st.underscores []

/-- Model of `strconv.ParseFloat(s, 64)`: the special values, or the binary64
nearest to the decimal or hexadecimal literal `s` (ties to even); a syntax
error for text that is not such a literal, a range error for a literal beyond
the largest finite binary64. -/
def strconv_ParseFloat (s : String) : Except Error Float64 :=
  match special s.data with
  | some (f, n) => if n = s.utf8ByteSize then .ok f else .error (syntaxError "ParseFloat" s)
  | none =>
    match readFloat s.data with
    | none => .error (syntaxError "ParseFloat" s)
    | some (neg, mant, hex, x) =>
      let b : Nat := if hex then 2 else 10
      let f := if 0 ≤ x then roundFloat64 neg (mant * b ^ x.toNat) 1
               else roundFloat64 neg mant (b ^ (-x).toNat)
      match f with
      | .inf _ => .error (rangeError "ParseFloat" s)
      | _ => .ok f

/-! ## Data model (`main.go`, lines 19-31) -/

/-- The Go struct `SalesData`. -/
structure SalesData where
  ID : Int
  Date : Time
  Amount : Float64
  ProductID : Int
  Region : String
  deriving DecidableEq, Repr

/-- The Go struct `AggregatedData`. -/
structure AggregatedData where
  ProductID : Int
  TotalSales : Float64
  Region : String
  deriving DecidableEq, Repr

/-! ## `encoding/csv` and the file system -/

/-- A CSV file, given by the records (each a list of fields) that
`encoding/csv` tokenises its text into. -/
abbrev File := List (List String)

/-- The files that `os.Open` can open, by path. -/
abbrev FileSystem := String → Option File

/-- Model of `os.Open`. -/
def os_Open (fs : FileSystem) (filePath : String) : Except Error File :=
  match fs filePath with
  | some file => .ok file
  | none => .error (.PathError "open" filePath)

/-- The state of a `csv.Reader` besides its position in the file: the field
`FieldsPerRecord` and the number of records read so far. -/
structure Reader where
  FieldsPerRecord : Int
  numRead : Nat
  deriving DecidableEq, Repr

/-- Model of `csv.NewReader`: `FieldsPerRecord` is left at its zero value. -/
def csv_NewReader : Reader := ⟨0, 0⟩

/-- Model of `(*csv.Reader).Read` when the file still holds the record `line`
(at the end of the file `Read` returns `io.EOF`): with a positive
`FieldsPerRecord` a record of another length is a `csv.ErrFieldCount` error,
with `FieldsPerRecord = 0` the first record read fixes it. -/
def Reader.Read (r : Reader) (line : List String) : Except Error (List String) × Reader :=
  let r1 : Reader := { r with numRead := r.numRead + 1 }
  if 0 < r.FieldsPerRecord then
    if (line.length : Int) ≠ r.FieldsPerRecord then (.error (.ErrFieldCount r1.numRead), r1)
    else (.ok line, r1)
  else if r.FieldsPerRecord = 0 then (.ok line, { r1 with FieldsPerRecord := line.length })
  else (.ok line, r1)

/-! ## `parseCSV` (`main.go`, lines 57-112) -/

/-- How a call ends: it returns its results, or the Go runtime aborts it with
`index out of range [index] with length length`. -/
inductive Outcome (α : Type)
  | returned (val : α) (err : Option Error)
  | panicked (index length : Nat)
  deriving DecidableEq, Repr

/-- The `for` loop of `parseCSV` (lines 73-109) over the records still in the
file, with the reader state and the slice `salesData` built so far. -/
def parseCSV.loop (reader : Reader) : File → List SalesData → Outcome (List SalesData)
  | [], salesData => .returned salesData none
  | line :: rest, salesData =>
    match reader.Read line with
    | (.error err, _) => .returned [] (some err)
    | (.ok record, reader) =>
      match record[0]? with
      | none => .panicked 0 record.length
      | some f0 =>
      match strconv_Atoi f0 with
      | .error err => .returned [] (some err)
      | .ok id =>
      match record[1]? with
      | none => .panicked 1 record.length
      | some f1 =>
      match time_Parse (f1 ++ "T00:00:00Z") with
      | .error err => .returned [] (some err)
      | .ok date =>
      match record[2]? with
      | none => .panicked 2 record.length
      | some f2 =>
      match strconv_ParseFloat f2 with
      | .error err => .returned [] (some err)
      | .ok amount =>
      match record[3]? with
      | none => .panicked 3 record.length
      | some f3 =>
      match strconv_Atoi f3 with
      | .error err => .returned [] (some err)
      | .ok productID =>
      match record[4]? with
      | none => .panicked 4 record.length
      | some f4 =>
        parseCSV.loop reader rest
          (salesData ++ [{ ID := id, Date := date, Amount := amount,
                           ProductID := productID, Region := f4 }])

/-- The function `parseCSV`: open the file, read and drop the header record,
then run the loop. -/
def parseCSV (fs : FileSystem) (filePath : String) : Outcome (List SalesData) :=
  match os_Open fs filePath with
  | .error err => .returned [] (some err)
  | .ok file =>
    match file with
    | [] => .returned [] (some .EOF)
    | header :: rest =>
      match csv_NewReader.Read header with
      | (.error err, _) => .returned [] (some err)
      | (.ok _, reader) => parseCSV.loop reader rest []

/-! ## The store (`main.go`, lines 44-55 and the SQL of lines 114-170) -/

/-- A row of the table `sales_data`. -/
structure Row where
  id : Int
  date : Time
  amount : Float64
  product_id : Int
  region : String
  deriving DecidableEq, Repr

/-- The table `sales_data` with the sequence behind its `SERIAL` column: `seq`
is the value the sequence returned last (`0` for a fresh sequence). -/
structure Table where
  rows : List Row
  seq : Nat
  deriving DecidableEq, Repr

/-- The database: the table `sales_data`, if it has been created. -/
structure DB where
  sales_data : Option Table
  deriving DecidableEq, Repr

/-- The sales records persisted in the store. -/
def DB.records (db : DB) : List Row :=
  match db.sales_data with
  | some t => t.rows
  | none => []

/-- The largest value of the SQL type `INT` (also the largest `SERIAL`). -/
def maxInt4 : Int := 2147483647

/-- The function `createTable`: `CREATE TABLE IF NOT EXISTS sales_data (...)`. -/
def createTable (db : DB) : DB :=
  match db.sales_data with
  | some _ => db
  | none => { sales_data := some ⟨[], 0⟩ }

/-- The texts that the store accepts as a value of the type `TEXT`: those
without the character NUL. -/
def storableText (s : String) : Bool := !s.data.contains (Char.ofNat 0)

/-- The function `insertSalesData`:
`INSERT INTO sales_data (date, amount, product_id, region) VALUES ($1, $2, $3, $4)`
with `sale.Date, sale.Amount, sale.ProductID, sale.Region`.  The column `id` is
not in the column list, so it takes its default, the next value of the
sequence.  The statement fails when the table is missing (SQLSTATE 42P01),
when `$3` is outside the range of `INT` (22003), when `$4` holds the character
NUL (22021), when the sequence is exhausted (2200H) and when a stored row
already has the generated id, which the `PRIMARY KEY` forbids (23505); in the
last case the sequence has advanced all the same, a value taken from a sequence
never being given back. -/
def insertSalesData (db : DB) (sale : SalesData) : DB × Option Error :=
  match db.sales_data with
  | none => (db, some (.PqError "42P01"))
  | some t =>
    if sale.ProductID < -(maxInt4 + 1) ∨ maxInt4 < sale.ProductID then
      (db, some (.PqError "22003"))
    else if storableText sale.Region = false then (db, some (.PqError "22021"))
    else if maxInt4 ≤ (t.seq : Int) then (db, some (.PqError "2200H"))
    else if ∃ r ∈ t.rows, r.id = ((t.seq + 1 : Nat) : Int) then
      ({ sales_data := some ⟨t.rows, t.seq + 1⟩ }, some (.PqError "23505"))
    else
      let row : Row :=
        { id := (t.seq + 1 : Nat), date := sale.Date, amount := sale.Amount,
          product_id := sale.ProductID, region := sale.Region }
      ({ sales_data := some ⟨t.rows ++ [row], t.seq + 1⟩ }, none)

/-- The test `isinf` of the store. -/
def Float64.isInf : Float64 → Bool
  | .inf _ => true
  | _ => false

/-- The addition `float8pl` of the store, the transition function of
`SUM` over a `FLOAT` column: the IEEE-754 sum, and the error
`value out of range: overflow` (22003) when the sum is infinite although
neither operand is. -/
def float8pl (val1 val2 : Float64) : Except Error Float64 :=
  let result := val1.add val2
  if result.isInf && !val1.isInf && !val2.isInf then .error (.PqError "22003")
  else .ok result

/-- The columns `product_id, amount, region` of a stored row, the input of
the grouping: a group of that one row. -/
def Row.entry (r : Row) : AggregatedData :=
  { ProductID := r.product_id, TotalSales := r.amount, Region := r.region }

/-- One step of the grouping of `GROUP BY product_id, region` with
`SUM(amount)`: the entry joins the group of its `(product_id, region)` pair,
its sum added to the running sum by `float8pl`, or opens a new group whose sum
is its own. -/
def groupStep : List AggregatedData → AggregatedData → Except Error (List AggregatedData)
  | [], p => .ok [p]
  | g :: gs, p =>
    if g.ProductID = p.ProductID ∧ g.Region = p.Region then
      match float8pl g.TotalSales p.TotalSales with
      | .error err => .error err
      | .ok total => .ok ({ g with TotalSales := total } :: gs)
    else
      match groupStep gs p with
      | .error err => .error err
      | .ok gs1 => .ok (g :: gs1)

/-- The grouping of the entries in the order given, from the groups `gs` built
so far; the first overflow ends the query. -/
def groupBySum : List AggregatedData → List AggregatedData → Except Error (List AggregatedData)
  | gs, [] => .ok gs
  | gs, p :: rest =>
    match groupStep gs p with
    | .error err => .error err
    | .ok gs1 => groupBySum gs1 rest

/-- The partial aggregation: every process groups and sums the rows it
visits, in the order in which it visits them. -/
def partialGroups : List (List Row) → Except Error (List (List AggregatedData))
  | [] => .ok []
  | chunk :: chunks =>
    match groupBySum [] (chunk.map Row.entry) with
    | .error err => .error err
    | .ok gs =>
      match partialGroups chunks with
      | .error err => .error err
      | .ok parts => .ok (gs :: parts)

/-- The choices that SQL leaves to the store when it evaluates the query of
`aggregateData`: how it shares the rows of the table among the processes that
aggregate them (one list of rows per process, in the order in which the process
visits them; a single list when the query is not run in parallel), and the
order in which it returns the groups. -/
structure Plan where
  scan : List Row → List (List Row)
  emit : List AggregatedData → List AggregatedData

/-- The plan rearranges, and neither drops nor repeats, rows and groups. -/
def Plan.valid (plan : Plan) : Prop :=
  (∀ rows, (plan.scan rows).flatten.Perm rows) ∧ (∀ gs, (plan.emit gs).Perm gs)

/-- The plan of one process that visits the rows in stored order and returns
the groups in the order of their first row. -/
def Plan.stored : Plan := ⟨fun rows => [rows], fun gs => gs⟩

/-- The function `aggregateData`: run the query
`SELECT product_id, SUM(amount) as total_sales, region FROM sales_data GROUP BY product_id, region`
under the plan of the store and scan every result row into an
`AggregatedData`.  The partial groups of the processes are combined, group by
group, with the same `float8pl` (the combine function of `SUM` over `FLOAT`);
an error of the query is returned with no entries. -/
def aggregateData (plan : Plan) (db : DB) : List AggregatedData × Option Error :=
  match db.sales_data with
  | none => ([], some (.PqError "42P01"))
  | some t =>
    match partialGroups (plan.scan t.rows) with
    | .error err => ([], some err)
    | .ok parts =>
      match groupBySum [] parts.flatten with
      | .error err => ([], some err)
      | .ok gs => (plan.emit gs, none)

/-- The query and scan loop of the handler `getSalesData`:
`SELECT id, date, amount, product_id, region FROM sales_data`, every row scanned
into a `SalesData`. -/
def getSalesData (db : DB) : List SalesData × Option Error :=
  match db.sales_data with
  | none => ([], some (.PqError "42P01"))
  | some t =>
    (t.rows.map fun r =>
      { ID := r.id, Date := r.date, Amount := r.amount, ProductID := r.product_id,
        Region := r.region }, none)

/-! ## The ingestion sequence of `main` (`main.go`, lines 192-222) -/

/-- How the ingestion sequence of `main` ends. -/
inductive MainOutcome
  /-- The call `log.Fatalf(msg, err)`, which exits the process. -/
  | fatal (msg : String) (err : Error)
  /-- A run-time panic `index out of range`. -/
  | panicked (index length : Nat)
  /-- The sequence completed with the logged sales and aggregates; the HTTP
  server starts. -/
  | completed (sales : List SalesData) (aggregated : List AggregatedData)
  deriving DecidableEq, Repr

/-- The state at the end of the ingestion sequence: the store, the arguments
of the calls of `insertSalesData` that were made, in order, and the outcome. -/
structure MainRun where
  db : DB
  inserted : List SalesData
  outcome : MainOutcome
  deriving DecidableEq, Repr

/-- The loop `for _, sale := range sales` of `main` (lines 211-216): one call
of `insertSalesData` per record, stopping at the first error. `calls` are the
calls already made. -/
def main.insertLoop (db : DB) (calls : List SalesData) :
    List SalesData → DB × List SalesData × Option Error
  | [] => (db, calls, none)
  | sale :: rest =>
    match insertSalesData db sale with
    | (db, some err) => (db, calls ++ [sale], some err)
    | (db, none) => main.insertLoop db (calls ++ [sale]) rest

/-- The function `main` up to the start of the HTTP server, run against the
files `fs` and the store `db` (`initDB` only builds the handle), the store
evaluating the aggregate query under `plan`. -/
def main (fs : FileSystem) (plan : Plan) (db : DB) : MainRun :=
  let db := createTable db
  match parseCSV fs "sales_data.csv" with
  | .panicked i n => ⟨db, [], .panicked i n⟩
  | .returned _ (some err) => ⟨db, [], .fatal "Error parsing CSV: %v" err⟩
  | .returned sales none =>
    match main.insertLoop db [] sales with
    | (db, calls, some err) => ⟨db, calls, .fatal "Error inserting sales data: %v" err⟩
    | (db, calls, none) =>
      match aggregateData plan db with
      | (_, some err) => ⟨db, calls, .fatal "Error aggregating data: %v" err⟩
      | (aggregated, none) => ⟨db, calls, .completed sales aggregated⟩

/-! ## Notions used to state the properties -/

/-- A file system whose only file is `sales_data.csv`, the path that `main`
passes to `parseCSV`. -/
def salesFile (file : File) : FileSystem := fun path =>
  if path = "sales_data.csv" then some file else none

/-- The binary64 nearest to a decimal literal (NaN for text that is none). -/
def f64 (s : String) : Float64 :=
  match strconv_ParseFloat s with
  | .ok f => f
  | .error _ => .nan

/-- The header row of the input format. -/
def headerRow : List String := ["id", "date", "amount", "product_id", "region"]

/-- The data rows of scenario A of the specification. -/
def scenarioA : File :=
  [["1", "2024-01-01", "100.50", "10", "east"],
   ["2", "2024-01-02", "50.25", "10", "east"],
   ["3", "2024-01-01", "75.00", "20", "west"]]

/-- The records of scenario A. -/
def scenarioARecords : List SalesData :=
  [⟨1, ⟨2024, 1, 1, 0, 0, 0, 0, .UTC⟩, f64 "100.50", 10, "east"⟩,
   ⟨2, ⟨2024, 1, 2, 0, 0, 0, 0, .UTC⟩, f64 "50.25", 10, "east"⟩,
   ⟨3, ⟨2024, 1, 1, 0, 0, 0, 0, .UTC⟩, f64 "75.00", 20, "west"⟩]

/-- The data rows of scenario B of the specification: an amount field `abc`,
here in the third row. -/
def scenarioB : File :=
  [["1", "2024-01-01", "100.50", "10", "east"],
   ["2", "2024-01-02", "50.25", "10", "east"],
   ["3", "2024-01-01", "abc", "20", "west"]]

/-- A store that holds one sales record. -/
def storedNorth : DB :=
  ⟨some ⟨[⟨1, ⟨2023, 12, 31, 0, 0, 0, 0, .UTC⟩, f64 "12.5", 7, "north"⟩], 1⟩⟩

/-- A table that holds the first two records of scenario A, written by
`insertSalesData`. -/
def storedTwo : Table :=
  ⟨[⟨1, ⟨2024, 1, 1, 0, 0, 0, 0, .UTC⟩, f64 "100.50", 10, "east"⟩,
    ⟨2, ⟨2024, 1, 2, 0, 0, 0, 0, .UTC⟩, f64 "50.25", 10, "east"⟩], 2⟩

/-- The conversion returned an error. -/
def failed {α : Type} : Except Error α → Bool
  | .error _ => true
  | .ok _ => false

/-- The data row has an id, date, amount or productId field (fields 0 to 3)
that fails its type conversion. -/
def conversionFails (row : List String) : Bool :=
  (match row[0]? with | some t => failed (strconv_Atoi t) | none => false) ||
  (match row[1]? with | some t => failed (time_Parse (t ++ "T00:00:00Z")) | none => false) ||
  (match row[2]? with | some t => failed (strconv_ParseFloat t) | none => false) ||
  (match row[3]? with | some t => failed (strconv_Atoi t) | none => false)

/-- The data row has exactly five fields, of which id, date, amount and
productId convert without error. -/
def convertsCleanly (row : List String) : Bool :=
  match row with
  | [f0, f1, f2, f3, _] =>
    !failed (strconv_Atoi f0) && !failed (time_Parse (f1 ++ "T00:00:00Z")) &&
    !failed (strconv_ParseFloat f2) && !failed (strconv_Atoi f3)
  | _ => false

/-- The record `s` is the data row converted field by field: `ID`, `Date`,
`Amount` and `ProductID` are the values of fields 0 to 3 under their
conversions and `Region` is field 4 unchanged. -/
def Converted (row : List String) (s : SalesData) : Prop :=
  ∃ f0 f1 f2 f3 f4 tail, row = f0 :: f1 :: f2 :: f3 :: f4 :: tail ∧
    strconv_Atoi f0 = .ok s.ID ∧ time_Parse (f1 ++ "T00:00:00Z") = .ok s.Date ∧
    strconv_ParseFloat f2 = .ok s.Amount ∧ strconv_Atoi f3 = .ok s.ProductID ∧
    s.Region = f4

/-- The grouping key of a stored row: its `(product_id, region)` pair. -/
def Row.key (r : Row) : Int × String := (r.product_id, r.region)

/-- The grouping key of an aggregate: its `(ProductID, Region)` pair. -/
def AggregatedData.key (a : AggregatedData) : Int × String := (a.ProductID, a.Region)

/-- The floating-point sum of a sequence of amounts, accumulated from the
first to the last; there is no sum of no amounts. -/
def sumAmounts : List Float64 → Option Float64
  | [] => none
  | a :: rest => some (rest.foldl Float64.add a)

/-- The amounts of the rows with the grouping key `k`, in the order of the rows. -/
def amountsOf (rows : List Row) (k : Int × String) : List Float64 :=
  (rows.filter fun r => r.key = k).map Row.amount

/-- The partial sums of the grouping key `k`: for every process that visits a
row with that key, the floating-point sum of the amounts of its rows with that
key in the order of its visit; the processes in the order of the plan. -/
def partialSums (chunks : List (List Row)) (k : Int × String) : List Float64 :=
  chunks.filterMap fun chunk => sumAmounts (amountsOf chunk k)

/-- The finite datum as a whole number of units `2^E`: `some z` when its value
is exactly `z * 2^E`, `none` when it is no such multiple or not finite. -/
def gridUnits (E : Int) : Float64 → Option Int
  | .finite neg m e =>
    if E ≤ e then some ((if neg then -1 else 1) * ((m * 2 ^ (e - E).toNat : Nat) : Int))
    else if m % 2 ^ (E - e).toNat = 0 then
      some ((if neg then -1 else 1) * ((m / 2 ^ (E - e).toNat : Nat) : Int))
    else none
  | _ => none

/-- The units `2^E` of an amount (zero for an amount that has none). -/
def unitsOf (E : Int) (x : Float64) : Int := (gridUnits E x).getD 0

/-- The exact sum of a sequence of amounts, in units `2^E`. -/
def unitSum (E : Int) (amounts : List Float64) : Int := (amounts.map (unitsOf E)).sum

/-- The sum of the magnitudes of a sequence of amounts, in units `2^E`. -/
def unitMass (E : Int) (amounts : List Float64) : Nat :=
  (amounts.map fun x => (unitsOf E x).natAbs).sum

/-- The table of scenario A after the ingestion into an empty store. -/
def scenarioATable : Table :=
  ⟨[⟨1, ⟨2024, 1, 1, 0, 0, 0, 0, .UTC⟩, f64 "100.50", 10, "east"⟩,
    ⟨2, ⟨2024, 1, 2, 0, 0, 0, 0, .UTC⟩, f64 "50.25", 10, "east"⟩,
    ⟨3, ⟨2024, 1, 1, 0, 0, 0, 0, .UTC⟩, f64 "75.00", 20, "west"⟩], 3⟩

/-- The largest finite `float64`, `1.7976931348623157e308`. -/
def maxFloat64 : Float64 := .finite false 9007199254740991 971

/-- A table of two records of one product and region whose amounts are both the
largest finite `float64`. -/
def overflowTable : Table :=
  ⟨[⟨1, ⟨2024, 1, 1, 0, 0, 0, 0, .UTC⟩, maxFloat64, 10, "east"⟩,
    ⟨2, ⟨2024, 1, 2, 0, 0, 0, 0, .UTC⟩, maxFloat64, 10, "east"⟩], 2⟩

/-- The data row with its region field (field 4) rewritten by `f`; a row
without a region field is left as it is. -/
def mapRegion (f : String → String) (row : List String) : List String :=
  match row with
  | f0 :: f1 :: f2 :: f3 :: f4 :: tail => f0 :: f1 :: f2 :: f3 :: f f4 :: tail
  | _ => row

/-- The record with its `Region` rewritten by `f`. -/
def SalesData.mapRegion (f : String → String) (s : SalesData) : SalesData :=
  { s with Region := f s.Region }

/-- The ASCII digit of a number below ten. -/
def digitChar (n : Nat) : Char := Char.ofNat (48 + n)

/-- The text `YYYY-MM-DD` of a calendar day: four digits of year, two of month,
two of day. -/
def formatDate (year month day : Nat) : String :=
  String.mk [digitChar (year / 1000 % 10), digitChar (year / 100 % 10),
    digitChar (year / 10 % 10), digitChar (year % 10), '-',
    digitChar (month / 10 % 10), digitChar (month % 10), '-',
    digitChar (day / 10 % 10), digitChar (day % 10)]

/-- A calendar day of the years 0 to 9999: the month is one of the twelve and
the day exists in that month of that year. -/
def validDate (year month day : Nat) : Bool :=
  decide (year ≤ 9999) && decide (1 ≤ month) && decide (month ≤ 12) &&
  decide (1 ≤ day) && decide (day ≤ daysIn month year)

/-! ## Auxiliary notions for the proofs -/

/-- The rounding step of `roundFloat64` at the exponent `e`: the quotient
`n / d` rounded to the nearest integer, ties to even, and renormalised. -/
def roundAt (neg : Bool) (e : Int) (n d : Nat) : Float64 :=
  let q := n / d
  let r := n % d
  let m := if d < 2 * r ∨ (2 * r = d ∧ q % 2 = 1) then q + 1 else q
  let m1 := if m = 2 ^ 53 then 2 ^ 52 else m
  let e1 := if m = 2 ^ 53 then e + 1 else e
  if 971 < e1 then .inf neg else .finite neg m1 e1

/-- The sums of the entries with the grouping key `k`, in the order of the
entries. -/
def valuesOf (entries : List AggregatedData) (k : Int × String) : List Float64 :=
  (entries.filter fun a => a.key = k).map AggregatedData.TotalSales

/-- The invariant of the grouping after the entries `seen`: the groups `gs`
have distinct keys, which are the keys of the entries seen, and each group holds
the floating-point sum of the sums of the entries seen that have its key. -/
def GroupInv (seen : List AggregatedData) (gs : List AggregatedData) : Prop :=
  (gs.map AggregatedData.key).Nodup ∧
  (∀ k, k ∈ gs.map AggregatedData.key ↔ k ∈ seen.map AggregatedData.key) ∧
  ∀ a ∈ gs, sumAmounts (valuesOf seen a.key) = some a.TotalSales

/-- The invariant of the grouping of entries that are whole numbers of units
`2^E`: each group holds the exact sum of the entries seen that have its key. -/
def ExactInv (E : Int) (seen : List AggregatedData) (gs : List AggregatedData) : Prop :=
  ∀ a ∈ gs, gridUnits E a.TotalSales = some (unitSum E (valuesOf seen a.key))

/-- Two stores that differ at most in the regions (and other data) of their
rows: the table exists in both or in neither, with the same sequence value and
the same ids in the same order. -/
def sameIds (db1 db2 : DB) : Prop :=
  match db1.sales_data, db2.sales_data with
  | none, none => True
  | some t1, some t2 => t1.seq = t2.seq ∧ t1.rows.map Row.id = t2.rows.map Row.id
  | _, _ => False

/-- The effect of one pass through the body of the loop of `parseCSV` (lines
82-108) on a record: the sale appended, the error returned, or the panic. -/
inductive RowResult
  | sale (s : SalesData)
  | fail (err : Error)
  | panic (index length : Nat)
  deriving DecidableEq, Repr

/-- The body of the loop of `parseCSV` (lines 82-108) as a function of the
record. -/
def rowResult (record : List String) : RowResult :=
  match record[0]? with
  | none => .panic 0 record.length
  | some f0 =>
  match strconv_Atoi f0 with
  | .error err => .fail err
  | .ok id =>
  match record[1]? with
  | none => .panic 1 record.length
  | some f1 =>
  match time_Parse (f1 ++ "T00:00:00Z") with
  | .error err => .fail err
  | .ok date =>
  match record[2]? with
  | none => .panic 2 record.length
  | some f2 =>
  match strconv_ParseFloat f2 with
  | .error err => .fail err
  | .ok amount =>
  match record[3]? with
  | none => .panic 3 record.length
  | some f3 =>
  match strconv_Atoi f3 with
  | .error err => .fail err
  | .ok productID =>
  match record[4]? with
  | none => .panic 4 record.length
  | some f4 =>
    .sale { ID := id, Date := date, Amount := amount, ProductID := productID, Region := f4 }

/-! ## The loop of `parseCSV`, one record at a time -/

theorem loop_nil (reader : Reader) (acc : List SalesData) :
    parseCSV.loop reader [] acc = .returned acc none := by
  simp [parseCSV.loop]

theorem loop_cons (reader : Reader) (line : List String) (rest : File) (acc : List SalesData) :
    parseCSV.loop reader (line :: rest) acc =
      match reader.Read line with
      | (.error err, _) => .returned [] (some err)
      | (.ok record, reader1) =>
        match rowResult record with
        | .sale s => parseCSV.loop reader1 rest (acc ++ [s])
        | .fail err => .returned [] (some err)
        | .panic i n => .panicked i n := by
  rw [parseCSV.loop]
  unfold rowResult
  repeat' split
  all_goals simp_all
  all_goals omega

theorem Read_cases (r : Reader) (line : List String) :
    (∃ r1, r.Read line = (.ok line, r1)) ∨ ∃ k r1, r.Read line = (.error (.ErrFieldCount k), r1) := by
  unfold Reader.Read
  split_ifs <;> simp

theorem Read_pos (n : Nat) (k : Nat) (line : List String) (hn : 0 < n) :
    Reader.Read ⟨(n : Int), k⟩ line =
      if line.length = n then (.ok line, ⟨(n : Int), k + 1⟩)
      else (.error (.ErrFieldCount (k + 1)), ⟨(n : Int), k + 1⟩) := by
  unfold Reader.Read
  have h0 : (0 : Int) < (n : Int) := by exact_mod_cast hn
  by_cases h : line.length = n
  · simp [h0, h]
  · have h1 : ¬ ((line.length : Int) = (n : Int)) := by exact_mod_cast h
    simp [h0, h, h1]

theorem rowResult_cons5 (f0 f1 f2 f3 f4 : String) (tail : List String) :
    rowResult (f0 :: f1 :: f2 :: f3 :: f4 :: tail) =
      match strconv_Atoi f0 with
      | .error err => .fail err
      | .ok id =>
      match time_Parse (f1 ++ "T00:00:00Z") with
      | .error err => .fail err
      | .ok date =>
      match strconv_ParseFloat f2 with
      | .error err => .fail err
      | .ok amount =>
      match strconv_Atoi f3 with
      | .error err => .fail err
      | .ok productID =>
        .sale { ID := id, Date := date, Amount := amount, ProductID := productID, Region := f4 } := by
  simp [rowResult]

theorem rowResult_short (record : List String) (h : record.length < 5) (s : SalesData) :
    rowResult record ≠ .sale s := by
  match record, h with
  | [], _ => simp [rowResult]
  | [f0], _ =>
    simp only [rowResult, List.getElem?_cons_zero, List.getElem?_cons_succ, List.getElem?_nil]
    cases strconv_Atoi f0 <;> simp
  | [f0, f1], _ =>
    simp only [rowResult, List.getElem?_cons_zero, List.getElem?_cons_succ, List.getElem?_nil]
    cases strconv_Atoi f0 <;> cases time_Parse (f1 ++ "T00:00:00Z") <;> simp
  | [f0, f1, f2], _ =>
    simp only [rowResult, List.getElem?_cons_zero, List.getElem?_cons_succ, List.getElem?_nil]
    cases strconv_Atoi f0 <;> cases time_Parse (f1 ++ "T00:00:00Z") <;>
      cases strconv_ParseFloat f2 <;> simp
  | [f0, f1, f2, f3], _ =>
    simp only [rowResult, List.getElem?_cons_zero, List.getElem?_cons_succ, List.getElem?_nil]
    cases strconv_Atoi f0 <;> cases time_Parse (f1 ++ "T00:00:00Z") <;>
      cases strconv_ParseFloat f2 <;> cases strconv_Atoi f3 <;> simp

theorem rowResult_no_panic (record : List String) (h : 5 ≤ record.length) (i n : Nat) :
    rowResult record ≠ .panic i n := by
  match record, h with
  | f0 :: f1 :: f2 :: f3 :: f4 :: tail, _ =>
    rw [rowResult_cons5]
    cases strconv_Atoi f0 <;> cases time_Parse (f1 ++ "T00:00:00Z") <;>
      cases strconv_ParseFloat f2 <;> cases strconv_Atoi f3 <;> simp

theorem rowResult_sale_iff (record : List String) (s : SalesData) :
    rowResult record = .sale s ↔
      ∃ f0 f1 f2 f3 f4 tail, record = f0 :: f1 :: f2 :: f3 :: f4 :: tail ∧
        strconv_Atoi f0 = .ok s.ID ∧ time_Parse (f1 ++ "T00:00:00Z") = .ok s.Date ∧
        strconv_ParseFloat f2 = .ok s.Amount ∧ strconv_Atoi f3 = .ok s.ProductID ∧
        s.Region = f4 := by
  constructor
  · intro h
    by_cases hlen : record.length < 5
    · exact absurd h (rowResult_short record hlen s)
    · have h5 : 5 ≤ record.length := by omega
      match record, h5 with
      | f0 :: f1 :: f2 :: f3 :: f4 :: tail, _ =>
        refine ⟨f0, f1, f2, f3, f4, tail, rfl, ?_⟩
        rw [rowResult_cons5] at h
        cases h0 : strconv_Atoi f0 <;> cases h1 : time_Parse (f1 ++ "T00:00:00Z") <;>
          cases h2 : strconv_ParseFloat f2 <;> cases h3 : strconv_Atoi f3 <;>
          simp [h0, h1, h2, h3] at h
        subst h
        simp
  · rintro ⟨f0, f1, f2, f3, f4, tail, rfl, h0, h1, h2, h3, h4⟩
    rw [rowResult_cons5, h0, h1, h2, h3, ← h4]

theorem rowResult_fail (record : List String) (e : Error) (h : rowResult record = .fail e) :
    (∃ t, record[0]? = some t ∧ strconv_Atoi t = .error e) ∨
    (∃ t, record[1]? = some t ∧ time_Parse (t ++ "T00:00:00Z") = .error e) ∨
    (∃ t, record[2]? = some t ∧ strconv_ParseFloat t = .error e) ∨
    (∃ t, record[3]? = some t ∧ strconv_Atoi t = .error e) := by
  unfold rowResult at h
  cases r0 : record[0]? with
  | none => simp [r0] at h
  | some f0 =>
  cases h0 : strconv_Atoi f0 with
  | error e0 => simp [r0, h0] at h; exact Or.inl ⟨f0, rfl, by rw [h0, h]⟩
  | ok id =>
  cases r1 : record[1]? with
  | none => simp [r0, h0, r1] at h
  | some f1 =>
  cases h1 : time_Parse (f1 ++ "T00:00:00Z") with
  | error e1 => simp [r0, h0, r1, h1] at h; exact Or.inr (Or.inl ⟨f1, rfl, by rw [h1, h]⟩)
  | ok date =>
  cases r2 : record[2]? with
  | none => simp [r0, h0, r1, h1, r2] at h
  | some f2 =>
  cases h2 : strconv_ParseFloat f2 with
  | error e2 =>
    simp [r0, h0, r1, h1, r2, h2] at h; exact Or.inr (Or.inr (Or.inl ⟨f2, rfl, by rw [h2, h]⟩))
  | ok amount =>
  cases r3 : record[3]? with
  | none => simp [r0, h0, r1, h1, r2, h2, r3] at h
  | some f3 =>
  cases h3 : strconv_Atoi f3 with
  | error e3 =>
    simp [r0, h0, r1, h1, r2, h2, r3, h3] at h
    exact Or.inr (Or.inr (Or.inr ⟨f3, rfl, by rw [h3, h]⟩))
  | ok pid =>
  cases r4 : record[4]? with
  | none => simp [r0, h0, r1, h1, r2, h2, r3, h3, r4] at h
  | some f4 => simp [r0, h0, r1, h1, r2, h2, r3, h3, r4] at h

/-! ## The loop of `parseCSV` over a whole file -/

theorem parseCSV_eq_loop (fs : FileSystem) (filePath : String) (header : List String)
    (rows : File) (hfile : fs filePath = some (header :: rows)) :
    parseCSV fs filePath = parseCSV.loop ⟨(header.length : Int), 1⟩ rows [] := by
  simp [parseCSV, os_Open, hfile, csv_NewReader, Reader.Read]

theorem loop_returned_ok (rows : File) :
    ∀ (reader : Reader) (acc recs : List SalesData),
      parseCSV.loop reader rows acc = .returned recs none →
      ∃ new, recs = acc ++ new ∧ List.Forall₂ (fun row s => rowResult row = .sale s) rows new := by
  induction rows with
  | nil =>
    intro reader acc recs h
    rw [loop_nil] at h
    exact ⟨[], by simp_all, List.Forall₂.nil⟩
  | cons line rest ih =>
    intro reader acc recs h
    rw [loop_cons] at h
    rcases Read_cases reader line with ⟨r1, hr⟩ | ⟨k, r1, hr⟩
    · rw [hr] at h
      cases hrow : rowResult line with
      | sale s =>
        simp only [hrow] at h
        obtain ⟨new, hnew, hall⟩ := ih r1 (acc ++ [s]) recs h
        exact ⟨s :: new, by simp [hnew], List.Forall₂.cons hrow hall⟩
      | fail e => simp [hrow] at h
      | panic i n => simp [hrow] at h
    · rw [hr] at h
      simp at h

theorem loop_returned_err (rows : File) :
    ∀ (reader : Reader) (acc recs : List SalesData) (e : Error),
      parseCSV.loop reader rows acc = .returned recs (some e) →
      recs = [] ∧ ((∃ k, e = .ErrFieldCount k) ∨ ∃ row ∈ rows, rowResult row = .fail e) := by
  induction rows with
  | nil =>
    intro reader acc recs e h
    rw [loop_nil] at h
    simp at h
  | cons line rest ih =>
    intro reader acc recs e h
    rw [loop_cons] at h
    rcases Read_cases reader line with ⟨r1, hr⟩ | ⟨k, r1, hr⟩
    · rw [hr] at h
      cases hrow : rowResult line with
      | sale s =>
        simp only [hrow] at h
        obtain ⟨h1, h2⟩ := ih r1 (acc ++ [s]) recs e h
        refine ⟨h1, ?_⟩
        rcases h2 with h2 | ⟨row, hmem, hfail⟩
        · exact Or.inl h2
        · exact Or.inr ⟨row, List.mem_cons_of_mem _ hmem, hfail⟩
      | fail e1 =>
        simp only [hrow, Outcome.returned.injEq, Option.some.injEq] at h
        refine ⟨h.1.symm, Or.inr ⟨line, List.mem_cons_self _ _, ?_⟩⟩
        rw [hrow, h.2]
      | panic i n => simp [hrow] at h
    · rw [hr] at h
      simp only [Outcome.returned.injEq, Option.some.injEq] at h
      exact ⟨h.1.symm, Or.inl ⟨k, h.2.symm⟩⟩

theorem loop_accepts (n : Nat) (hn : 0 < n) (rows : File) :
    ∀ (k : Nat) (acc new : List SalesData),
      (∀ row ∈ rows, row.length = n) →
      List.Forall₂ (fun row s => rowResult row = .sale s) rows new →
      parseCSV.loop ⟨(n : Int), k⟩ rows acc = .returned (acc ++ new) none := by
  induction rows with
  | nil =>
    intro k acc new _ hall
    cases hall
    simp [loop_nil]
  | cons line rest ih =>
    intro k acc new hlen hall
    cases hall with
    | cons hrow hrest =>
      rename_i s new1
      have hl : line.length = n := hlen line (List.mem_cons_self _ _)
      rw [loop_cons, Read_pos n k line hn]
      simp only [hl, if_true, hrow]
      rw [ih (k + 1) (acc ++ [s]) new1 (fun row hmem => hlen row (List.mem_cons_of_mem _ hmem)) hrest]
      simp

theorem loop_rejects (n : Nat) (hn : 5 ≤ n) (rows : File) :
    ∀ (k : Nat) (acc : List SalesData),
      (∃ row ∈ rows, row.length ≠ n ∨ ∃ e, rowResult row = .fail e) →
      ∃ e, parseCSV.loop ⟨(n : Int), k⟩ rows acc = .returned [] (some e) := by
  induction rows with
  | nil =>
    intro k acc h
    simp at h
  | cons line rest ih =>
    intro k acc h
    rw [loop_cons, Read_pos n k line (by omega)]
    by_cases hl : line.length = n
    · simp only [hl, if_true]
      cases hrow : rowResult line with
      | sale s =>
        simp only
        apply ih
        obtain ⟨row, hmem, hbad⟩ := h
        rcases List.mem_cons.mp hmem with rfl | hmem
        · rcases hbad with hbad | ⟨e, hbad⟩
          · exact absurd hl hbad
          · rw [hrow] at hbad
            cases hbad
        · exact ⟨row, hmem, hbad⟩
      | fail e => exact ⟨e, rfl⟩
      | panic i m => exact absurd hrow (rowResult_no_panic line (by omega) i m)
    · simp only [hl, if_false]
      exact ⟨_, rfl⟩

theorem rowResult_sale_iff_Converted (row : List String) (s : SalesData) :
    rowResult row = .sale s ↔ Converted row s := rowResult_sale_iff row s

theorem conversionFails_of_fail (row : List String) (e : Error) (h : rowResult row = .fail e) :
    conversionFails row = true := by
  unfold conversionFails
  rcases rowResult_fail row e h with ⟨t, h1, h2⟩ | ⟨t, h1, h2⟩ | ⟨t, h1, h2⟩ | ⟨t, h1, h2⟩ <;>
    simp [h1, h2, failed]

theorem not_conversionFails_of_sale (row : List String) (s : SalesData)
    (h : rowResult row = .sale s) : conversionFails row = false := by
  obtain ⟨f0, f1, f2, f3, f4, tail, rfl, h0, h1, h2, h3, _⟩ := (rowResult_sale_iff row s).mp h
  simp [conversionFails, h0, h1, h2, h3, failed]

theorem sale_of_convertsCleanly (row : List String) (h : convertsCleanly row = true) :
    row.length = 5 ∧ ∃ s, rowResult row = .sale s := by
  match row with
  | [f0, f1, f2, f3, f4] =>
    refine ⟨rfl, ?_⟩
    rw [rowResult_cons5]
    simp only [convertsCleanly, Bool.and_eq_true, Bool.not_eq_true'] at h
    obtain ⟨⟨⟨h0, h1⟩, h2⟩, h3⟩ := h
    cases r0 : strconv_Atoi f0 <;> cases r1 : time_Parse (f1 ++ "T00:00:00Z") <;>
      cases r2 : strconv_ParseFloat f2 <;> cases r3 : strconv_Atoi f3 <;>
      simp_all [failed]
  | [] => simp [convertsCleanly] at h
  | [_] => simp [convertsCleanly] at h
  | [_, _] => simp [convertsCleanly] at h
  | [_, _, _] => simp [convertsCleanly] at h
  | [_, _, _, _] => simp [convertsCleanly] at h
  | _ :: _ :: _ :: _ :: _ :: _ :: _ => simp [convertsCleanly] at h

theorem forall₂_of_forall_exists {α β : Type} (R : α → β → Prop) (l : List α)
    (h : ∀ a ∈ l, ∃ b, R a b) : ∃ l2, List.Forall₂ R l l2 := by
  induction l with
  | nil => exact ⟨[], List.Forall₂.nil⟩
  | cons a l ih =>
    obtain ⟨b, hb⟩ := h a (List.mem_cons_self _ _)
    obtain ⟨l2, hl2⟩ := ih (fun x hx => h x (List.mem_cons_of_mem _ hx))
    exact ⟨b :: l2, List.Forall₂.cons hb hl2⟩

/-! ## C1: atomic parse rejection -/

/-- C1 on a file of four columns: the second data row has an id field (`x`)
that fails its conversion, yet `parseCSV` returns neither an error nor
anything else: the first data row, whose four fields convert, makes it panic
on `record[4]`. -/
theorem parseCSV_narrow_file_panics :
    conversionFails ["x", "2024-01-02", "50.25", "10"] = true ∧
    parseCSV (salesFile [["id", "date", "amount", "product_id"],
                         ["1", "2024-01-01", "100.50", "10"],
                         ["x", "2024-01-02", "50.25", "10"]]) "sales_data.csv"
      = .panicked 4 4 := by
  decide

/-- Atomic parse rejection where no row is too short to index: for every input
whose header row has at least five fields, if at least one data row has an id,
date, amount or productId field that fails its type conversion, `parseCSV`
returns an error together with no records, however many valid rows precede the
offending row. -/
theorem parseCSV_atomic_rejection (fs : FileSystem) (filePath : String)
    (header : List String) (rows : File)
    (hfile : fs filePath = some (header :: rows))
    (hheader : 5 ≤ header.length)
    (hbad : ∃ row ∈ rows, conversionFails row = true) :
    ∃ err, parseCSV fs filePath = .returned [] (some err) := by
  rw [parseCSV_eq_loop fs filePath header rows hfile]
  apply loop_rejects header.length hheader
  obtain ⟨row, hmem, hrow⟩ := hbad
  refine ⟨row, hmem, ?_⟩
  by_cases hl : row.length = header.length
  · right
    cases hres : rowResult row with
    | sale s => rw [not_conversionFails_of_sale row s hres] at hrow; cases hrow
    | fail e => exact ⟨e, rfl⟩
    | panic i n => exact absurd hres (rowResult_no_panic row (by omega) i n)
  · exact Or.inl hl

/-- Atomic parse rejection in scenario B: two valid rows precede a row whose
amount is `abc`. -/
theorem parseCSV_atomic_rejection_witness :
    ∃ err, parseCSV (salesFile (headerRow :: scenarioB)) "sales_data.csv"
      = .returned [] (some err) :=
  parseCSV_atomic_rejection (salesFile (headerRow :: scenarioB)) "sales_data.csv" headerRow
    scenarioB rfl (by decide) (by decide)

/-! ## C2: parse round trip -/

/-- C2, as stated, fails when the header row does not have five fields: the
data row has five fields that convert cleanly, but the reader expects as many
fields as the header has and `parseCSV` returns its field-count error. -/
theorem parseCSV_header_width_mismatch :
    convertsCleanly ["1", "2024-01-01", "100.50", "10", "east"] = true ∧
    parseCSV (salesFile [["sales"], ["1", "2024-01-01", "100.50", "10", "east"]])
        "sales_data.csv"
      = .returned [] (some (.ErrFieldCount 2)) := by
  decide

/-- C2, amended: for every input consisting of one header row followed by
N ≥ 0 data rows that each have five fields converting cleanly, the header row
having five fields too unless N = 0, `parseCSV` returns no error and exactly N
records, in source order, record i being data row i converted field by field
(`ID`, `Amount`, `ProductID` the values of fields 0, 2, 3, `Date` the value of
field 1, `Region` field 4 unchanged); a header-only input yields zero records
and no error. -/
theorem parseCSV_round_trip (fs : FileSystem) (filePath : String)
    (header : List String) (rows : File)
    (hfile : fs filePath = some (header :: rows))
    (hheader : rows = [] ∨ header.length = 5)
    (hrows : ∀ row ∈ rows, convertsCleanly row = true) :
    ∃ recs, parseCSV fs filePath = .returned recs none ∧
      recs.length = rows.length ∧
      List.Forall₂ Converted rows recs ∧
      (rows = [] → recs = []) := by
  rw [parseCSV_eq_loop fs filePath header rows hfile]
  obtain ⟨recs, hrecs⟩ := forall₂_of_forall_exists (fun row s => rowResult row = .sale s) rows
    (fun row hmem => (sale_of_convertsCleanly row (hrows row hmem)).2)
  have hconv : List.Forall₂ Converted rows recs :=
    hrecs.imp (fun row s h => (rowResult_sale_iff_Converted row s).mp h)
  refine ⟨recs, ?_, hrecs.length_eq.symm, hconv, ?_⟩
  · rcases hheader with hnil | hlen
    · subst hnil
      cases hrecs
      exact loop_nil _ _
    · rw [hlen]
      have := loop_accepts 5 (by decide) rows 1 [] recs
        (fun row hmem => (sale_of_convertsCleanly row (hrows row hmem)).1) hrecs
      simpa using this
  · rintro rfl
    cases hrecs
    rfl

/-- Witness for C2: scenario A of the specification. -/
theorem parseCSV_round_trip_witness :
    ∃ recs, parseCSV (salesFile (headerRow :: scenarioA)) "sales_data.csv"
        = .returned recs none ∧
      recs.length = scenarioA.length ∧
      List.Forall₂ Converted scenarioA recs ∧
      (scenarioA = [] → recs = []) :=
  parseCSV_round_trip (salesFile (headerRow :: scenarioA)) "sales_data.csv" headerRow scenarioA
    rfl (Or.inr rfl) (by decide)

/-! ## C3: column-count rejection -/

/-- C3, as stated, fails for headers that do not have five fields: with a
six-field header a six-field data row is accepted (its sixth field ignored),
and with a two-field header a two-field data row runs into the out-of-range
access `record[2]`. -/
theorem parseCSV_column_count_unchecked :
    parseCSV (salesFile [["id", "date", "amount", "product_id", "region", "note"],
                         ["1", "2024-01-01", "100.50", "10", "east", "gift"]]) "sales_data.csv"
      = .returned [⟨1, ⟨2024, 1, 1, 0, 0, 0, 0, .UTC⟩, .finite false 7072058789855232 (-46),
                    10, "east"⟩] none ∧
    parseCSV (salesFile [["id", "date"], ["1", "2024-01-01"]]) "sales_data.csv"
      = .panicked 2 2 := by
  decide

/-- C3, amended: for every input whose header row has exactly five fields and
in which some data row has fewer or more than five fields, `parseCSV` fails the
whole batch by returning an error and no records; it neither accepts such a
row nor hits an out-of-range field access. -/
theorem parseCSV_column_count_rejection (fs : FileSystem) (filePath : String)
    (header : List String) (rows : File)
    (hfile : fs filePath = some (header :: rows))
    (hheader : header.length = 5)
    (hbad : ∃ row ∈ rows, row.length ≠ 5) :
    ∃ err, parseCSV fs filePath = .returned [] (some err) := by
  rw [parseCSV_eq_loop fs filePath header rows hfile, hheader]
  apply loop_rejects 5 (le_refl 5)
  obtain ⟨row, hmem, hrow⟩ := hbad
  exact ⟨row, hmem, Or.inl hrow⟩

/-- Witness for C3: a four-field row after a valid row, and a six-field row. -/
theorem parseCSV_column_count_rejection_witness :
    ∃ err, parseCSV (salesFile [headerRow,
                                ["1", "2024-01-01", "100.50", "10", "east"],
                                ["2", "2024-01-02", "50.25", "10"],
                                ["3", "2024-01-01", "75.00", "20", "west", "x"]]) "sales_data.csv"
      = .returned [] (some err) :=
  parseCSV_column_count_rejection
    (salesFile [headerRow,
                ["1", "2024-01-01", "100.50", "10", "east"],
                ["2", "2024-01-02", "50.25", "10"],
                ["3", "2024-01-01", "75.00", "20", "west", "x"]]) "sales_data.csv" headerRow
    [["1", "2024-01-01", "100.50", "10", "east"],
     ["2", "2024-01-02", "50.25", "10"],
     ["3", "2024-01-01", "75.00", "20", "west", "x"]] rfl rfl (by decide)

/-! ## C4: no persistence on a rejected batch -/

theorem createTable_records (db : DB) : (createTable db).records = db.records := by
  unfold createTable DB.records
  cases h : db.sales_data <;> simp [h]

/-- C4: in the ingestion sequence of `main`, whenever `parseCSV` returns an
error, the run ends in `log.Fatalf` with that error, no call of
`insertSalesData` is made, and the sales records in the store are exactly
those before the run. -/
theorem main_rejected_batch_persists_nothing (fs : FileSystem) (plan : Plan) (db : DB)
    (recs : List SalesData) (err : Error)
    (hparse : parseCSV fs "sales_data.csv" = .returned recs (some err)) :
    (main fs plan db).inserted = [] ∧
    (main fs plan db).db.records = db.records ∧
    (main fs plan db).outcome = .fatal "Error parsing CSV: %v" err := by
  simp only [main, hparse]
  exact ⟨trivial, createTable_records db, trivial⟩

/-- Witness for C4: the third data row of the file has the amount `abc`, and
the store already holds one record. -/
theorem main_rejected_batch_persists_nothing_witness :
    (main (salesFile (headerRow :: scenarioB)) Plan.stored storedNorth).inserted = [] ∧
    (main (salesFile (headerRow :: scenarioB)) Plan.stored storedNorth).db.records
      = storedNorth.records ∧
    (main (salesFile (headerRow :: scenarioB)) Plan.stored storedNorth).outcome
      = .fatal "Error parsing CSV: %v" (.NumError "ParseFloat" "abc" .ErrSyntax) :=
  main_rejected_batch_persists_nothing (salesFile (headerRow :: scenarioB)) Plan.stored
    storedNorth []
    (.NumError "ParseFloat" "abc" .ErrSyntax) (by decide)

/-! ## Sums of `float64` data that are exact -/

theorem bitLen_spec (fuel : Nat) : ∀ n, n ≤ fuel → 0 < n →
    1 ≤ bitLen fuel n ∧ 2 ^ (bitLen fuel n - 1) ≤ n ∧ n < 2 ^ bitLen fuel n := by
  induction fuel with
  | zero => intro n h1 h2; omega
  | succ f ih =>
    intro n h1 h2
    have hn : n ≠ 0 := by omega
    simp only [bitLen, hn, if_false]
    by_cases h0 : n / 2 = 0
    · have hb : bitLen f (n / 2) = 0 := by
        rw [h0]
        cases f <;> simp [bitLen]
      rw [hb]
      have : n = 1 := by omega
      subst this
      simp
    · obtain ⟨b1, b2, b3⟩ := ih (n / 2) (by omega) (by omega)
      refine ⟨by omega, ?_, ?_⟩
      · have e1 : bitLen f (n / 2) + 1 - 1 = (bitLen f (n / 2) - 1) + 1 := by omega
        rw [e1, pow_succ]
        omega
      · rw [pow_succ]
        omega

theorem zpow_toNat (e : Int) (h : 0 ≤ e) : ((2 ^ e.toNat : Nat) : ℚ) = (2 : ℚ) ^ e := by
  have : ((e.toNat : Nat) : Int) = e := Int.toNat_of_nonneg h
  rw [Nat.cast_pow, Nat.cast_ofNat, ← zpow_natCast, this]

theorem zpow_toNat' (e : Int) (h : 0 ≤ e) : ((2 : ℚ) ^ e.toNat) = (2 : ℚ) ^ e := by
  have : ((e.toNat : Nat) : Int) = e := Int.toNat_of_nonneg h
  rw [← zpow_natCast, this]

theorem floorLog2_pred_le (num den : Nat) (hn : 0 < num) (hd : 0 < den) :
    (2 : ℚ) ^ ((bitLen num num : Int) - (bitLen den den : Int) - 1) ≤ (num : ℚ) / den := by
  obtain ⟨a1, a2, -⟩ := bitLen_spec num num (le_refl _) hn
  obtain ⟨-, -, b3⟩ := bitLen_spec den den (le_refl _) hd
  have hk : (bitLen num num : Int) - (bitLen den den : Int) - 1
      = ((bitLen num num - 1 : Nat) : Int) - ((bitLen den den : Nat) : Int) := by
    omega
  rw [hk, zpow_sub₀ (by norm_num : (2 : ℚ) ≠ 0), zpow_natCast, zpow_natCast]
  have h1 : (2 : ℚ) ^ (bitLen num num - 1) ≤ (num : ℚ) := by exact_mod_cast a2
  have h2 : (den : ℚ) ≤ (2 : ℚ) ^ bitLen den den := by exact_mod_cast b3.le
  have h3 : (0 : ℚ) < den := by exact_mod_cast hd
  exact div_le_div₀ (by positivity) h1 h3 h2

theorem floorLog2_le (num den : Nat) (hn : 0 < num) (hd : 0 < den) :
    (2 : ℚ) ^ floorLog2 num den ≤ (num : ℚ) / den := by
  have hdq : (0 : ℚ) < den := by exact_mod_cast hd
  unfold floorLog2
  simp only
  by_cases hk : 0 ≤ (bitLen num num : Int) - (bitLen den den : Int)
  · rw [if_pos hk]
    by_cases ht : den * 2 ^ ((bitLen num num : Int) - (bitLen den den : Int)).toNat ≤ num
    · rw [if_pos ht, le_div_iff₀ hdq, ← zpow_toNat _ hk, mul_comm]
      exact_mod_cast ht
    · rw [if_neg ht]
      exact floorLog2_pred_le num den hn hd
  · rw [if_neg hk]
    by_cases ht : den ≤ num * 2 ^ (-((bitLen num num : Int) - (bitLen den den : Int))).toNat
    · rw [if_pos ht, le_div_iff₀ hdq]
      have hq : (den : ℚ) ≤ (num : ℚ) *
          (2 : ℚ) ^ (-((bitLen num num : Int) - (bitLen den den : Int))) := by
        rw [← zpow_toNat _ (by omega)]
        exact_mod_cast ht
      rw [zpow_neg] at hq
      have hp : (0 : ℚ) < (2 : ℚ) ^ ((bitLen num num : Int) - (bitLen den den : Int)) := by
        positivity
      rw [← div_eq_mul_inv, le_div_iff₀ hp] at hq
      linarith
    · rw [if_neg ht]
      exact floorLog2_pred_le num den hn hd

theorem roundFloat64_eq_roundAt (neg : Bool) (num den : Nat) :
    roundFloat64 neg num den =
      if num = 0 then .finite neg 0 (-1074)
      else
        let e : Int := max (floorLog2 num den - 52) (-1074)
        roundAt neg e (if 0 ≤ e then num else num * 2 ^ (-e).toNat)
          (if 0 ≤ e then den * 2 ^ e.toNat else den) := rfl

theorem roundAt_exact (neg : Bool) (e : Int) (K d : Nat) (hd : 0 < d) :
    roundAt neg e (K * d) d =
      if 971 < (if K = 2 ^ 53 then e + 1 else e) then .inf neg
      else .finite neg (if K = 2 ^ 53 then 2 ^ 52 else K) (if K = 2 ^ 53 then e + 1 else e) := by
  unfold roundAt
  have h1 : K * d / d = K := Nat.mul_div_cancel K hd
  have h2 : K * d % d = 0 := Nat.mul_mod_left K d
  have h3 : ¬ (d < 2 * 0 ∨ (2 * 0 = d ∧ K % 2 = 1)) := by omega
  simp only [h1, h2, if_neg h3]

theorem roundFloat64_exact (neg : Bool) (num den z : Nat) (E : Int) (hden : 0 < den)
    (hz : 0 < z) (hz53 : z < 2 ^ 53) (hE1 : -1074 ≤ E) (hE2 : E ≤ 971)
    (hv : (num : ℚ) / den = z * (2 : ℚ) ^ E) :
    ∃ m e, roundFloat64 neg num den = .finite neg m e ∧ (m : ℚ) * (2 : ℚ) ^ e = z * (2 : ℚ) ^ E := by
  have hdq : (0 : ℚ) < den := by exact_mod_cast hden
  have hzq : (0 : ℚ) < z := by exact_mod_cast hz
  have h2E : (0 : ℚ) < (2 : ℚ) ^ E := by positivity
  have hnumq : (num : ℚ) = z * (2 : ℚ) ^ E * den := by
    rw [← hv]; field_simp
  have hnum : 0 < num := by
    have : (0 : ℚ) < num := by rw [hnumq]; positivity
    exact_mod_cast this
  -- the exponent chosen by the rounding is at most `E`
  have hfl : floorLog2 num den < E + 53 := by
    have h1 := floorLog2_le num den hnum hden
    rw [hv] at h1
    have h2 : (z : ℚ) * (2 : ℚ) ^ E < (2 : ℚ) ^ (E + 53) := by
      rw [zpow_add₀ (by norm_num : (2 : ℚ) ≠ 0), mul_comm]
      have : (z : ℚ) < (2 : ℚ) ^ (53 : Int) := by
        have h53 : (z : ℚ) < ((2 ^ 53 : Nat) : ℚ) := by exact_mod_cast hz53
        have hc : ((2 ^ 53 : Nat) : ℚ) = (2 : ℚ) ^ (53 : Int) := by norm_num
        rw [hc] at h53
        exact h53
      exact mul_lt_mul_of_pos_left this h2E
    exact (zpow_lt_zpow_iff_right₀ (by norm_num : (1 : ℚ) < 2)).mp (lt_of_le_of_lt h1 h2)
  obtain ⟨e, he⟩ : ∃ e, e = max (floorLog2 num den - 52) (-1074) := ⟨_, rfl⟩
  have heE : e ≤ E := by rw [he]; omega
  have helo : -1074 ≤ e := by rw [he]; omega
  obtain ⟨K, hK⟩ : ∃ K, K = z * 2 ^ (E - e).toNat := ⟨_, rfl⟩
  have hKq : (K : ℚ) = z * (2 : ℚ) ^ (E - e) := by
    rw [hK, Nat.cast_mul, zpow_toNat _ (by omega)]
  have hsplit : (2 : ℚ) ^ E = (2 : ℚ) ^ (E - e) * (2 : ℚ) ^ e := by
    rw [← zpow_add₀ (by norm_num : (2 : ℚ) ≠ 0)]
    congr 1
    omega
  have hnd : (if 0 ≤ e then num else num * 2 ^ (-e).toNat)
      = K * (if 0 ≤ e then den * 2 ^ e.toNat else den) := by
    by_cases h0 : 0 ≤ e
    · rw [if_pos h0, if_pos h0]
      have : (num : ℚ) = ((K * (den * 2 ^ e.toNat) : Nat) : ℚ) := by
        rw [Nat.cast_mul, Nat.cast_mul, zpow_toNat _ h0, hKq, hnumq, hsplit]
        ring
      exact_mod_cast this
    · rw [if_neg h0, if_neg h0]
      have : ((num * 2 ^ (-e).toNat : Nat) : ℚ) = ((K * den : Nat) : ℚ) := by
        rw [Nat.cast_mul, Nat.cast_mul, zpow_toNat _ (by omega), hKq, hnumq, hsplit, zpow_neg]
        have : (2 : ℚ) ^ e ≠ 0 := by positivity
        field_simp
        ring
      exact_mod_cast this
  have hdpos : 0 < (if 0 ≤ e then den * 2 ^ e.toNat else den) := by
    split_ifs
    · positivity
    · exact hden
  rw [roundFloat64_eq_roundAt, if_neg (by omega : ¬ num = 0)]
  simp only
  rw [← he, hnd, roundAt_exact neg e K _ hdpos]
  by_cases hK53 : K = 2 ^ 53
  · -- the mantissa `2^53` is renormalised; `z < 2^53` leaves room in the exponent
    have hlt : e < E := by
      rcases lt_or_eq_of_le heE with h | h
      · exact h
      · exfalso
        rw [h] at hK
        simp at hK
        omega
    simp only [hK53, if_true]
    rw [if_neg (by omega)]
    refine ⟨2 ^ 52, e + 1, rfl, ?_⟩
    have : ((2 ^ 52 : Nat) : ℚ) * (2 : ℚ) ^ (e + 1) = (K : ℚ) * (2 : ℚ) ^ e := by
      rw [hK53, zpow_add₀ (by norm_num : (2 : ℚ) ≠ 0)]
      push_cast
      ring
    rw [this, hKq, hsplit]
    ring
  · simp only [hK53, if_false]
    rw [if_neg (by omega)]
    refine ⟨K, e, rfl, ?_⟩
    rw [hKq, hsplit]
    ring

theorem natMul_of_int_eq (m P : Nat) (c : Int) (hP : 0 < P) (h : (m : Int) = c * P) :
    m % P = 0 ∧ ((m / P : Nat) : Int) = c := by
  have hc : 0 ≤ c := by
    by_contra hneg
    have h1 : c * (P : Int) < 0 := mul_neg_of_neg_of_pos (by omega) (by exact_mod_cast hP)
    omega
  obtain ⟨w, rfl⟩ := Int.eq_ofNat_of_zero_le hc
  have hm : m = w * P := by exact_mod_cast h
  subst hm
  exact ⟨Nat.mul_mod_left w P, by rw [Nat.mul_div_cancel w hP]⟩

theorem gridUnits_finite_iff (E : Int) (neg : Bool) (m : Nat) (e : Int) (z : Int) :
    gridUnits E (.finite neg m e) = some z ↔
      ((if neg then -1 else 1 : Int) : ℚ) * m * (2 : ℚ) ^ e = z * (2 : ℚ) ^ E := by
  have h2 : (2 : ℚ) ≠ 0 := by norm_num
  have hE : (2 : ℚ) ^ E ≠ 0 := by positivity
  rw [gridUnits]
  by_cases hle : E ≤ e
  · rw [if_pos hle]
    have hsplit : (2 : ℚ) ^ e = (2 : ℚ) ^ (e - E) * (2 : ℚ) ^ E := by
      rw [← zpow_add₀ h2]; congr 1; omega
    have hcast : (((if neg then -1 else 1 : Int) * ((m * 2 ^ (e - E).toNat : Nat) : Int) : Int) : ℚ)
        = ((if neg then -1 else 1 : Int) : ℚ) * m * (2 : ℚ) ^ (e - E) := by
      push_cast
      rw [← zpow_toNat _ (by omega : 0 ≤ e - E)]
      push_cast
      ring
    constructor
    · intro h
      simp only [Option.some.injEq] at h
      rw [← h, hcast, hsplit]
      ring
    · intro h
      simp only [Option.some.injEq]
      have : (((if neg then -1 else 1 : Int) * ((m * 2 ^ (e - E).toNat : Nat) : Int) : Int) : ℚ)
          = (z : ℚ) := by
        rw [hcast]
        rw [hsplit] at h
        have := mul_right_cancel₀ hE (by rw [← h]; ring :
          ((if neg then -1 else 1 : Int) : ℚ) * m * (2 : ℚ) ^ (e - E) * (2 : ℚ) ^ E
            = z * (2 : ℚ) ^ E)
        exact this
      exact_mod_cast this
  · rw [if_neg hle]
    have hsplit : (2 : ℚ) ^ E = (2 : ℚ) ^ (E - e) * (2 : ℚ) ^ e := by
      rw [← zpow_add₀ h2]; congr 1; omega
    have he0 : (2 : ℚ) ^ e ≠ 0 := by positivity
    have hP : 0 < 2 ^ (E - e).toNat := by positivity
    have hPq : ((2 ^ (E - e).toNat : Nat) : ℚ) = (2 : ℚ) ^ (E - e) := zpow_toNat _ (by omega)
    constructor
    · intro h
      by_cases hdiv : m % 2 ^ (E - e).toNat = 0
      · rw [if_pos hdiv] at h
        simp only [Option.some.injEq] at h
        obtain ⟨w, hw⟩ : ∃ w, m = w * 2 ^ (E - e).toNat :=
          ⟨m / 2 ^ (E - e).toNat, by
            have := Nat.div_add_mod m (2 ^ (E - e).toNat)
            rw [hdiv, Nat.add_zero, Nat.mul_comm] at this
            exact this.symm⟩
        subst hw
        rw [Nat.mul_div_cancel w hP] at h
        rw [← h, hsplit, Nat.cast_mul, hPq]
        push_cast
        ring
      · rw [if_neg hdiv] at h
        cases h
    · intro h
      have hint : (m : Int) = ((if neg then -1 else 1 : Int) * z) * ((2 ^ (E - e).toNat : Nat) : Int) := by
        have hq : (m : ℚ) = ((if neg then -1 else 1 : Int) : ℚ) * z * (2 : ℚ) ^ (E - e) := by
          rw [hsplit] at h
          have h4 : ((if neg then -1 else 1 : Int) : ℚ) * m = z * (2 : ℚ) ^ (E - e) :=
            mul_right_cancel₀ he0 (by rw [h]; ring)
          have hs : ((if neg then -1 else 1 : Int) : ℚ) * ((if neg then -1 else 1 : Int) : ℚ) = 1 := by
            cases neg <;> norm_num
          calc (m : ℚ) = ((if neg then -1 else 1 : Int) : ℚ)
                * (((if neg then -1 else 1 : Int) : ℚ) * m) := by rw [← mul_assoc, hs, one_mul]
            _ = ((if neg then -1 else 1 : Int) : ℚ) * z * (2 : ℚ) ^ (E - e) := by
                rw [h4]; ring
        rw [← hPq] at hq
        exact_mod_cast hq
      obtain ⟨hmod, hdivq⟩ := natMul_of_int_eq m _ _ hP hint
      rw [if_pos hmod]
      simp only [Option.some.injEq]
      rw [hdivq]
      cases neg <;> simp

theorem add_gridUnits (E : Int) (hE1 : -1074 ≤ E) (hE2 : E ≤ 971) (x y : Float64) (z1 z2 : Int)
    (hx : gridUnits E x = some z1) (hy : gridUnits E y = some z2)
    (hb : (z1 + z2).natAbs < 2 ^ 53) :
    gridUnits E (x.add y) = some (z1 + z2) ∧ (x.add y).isInf = false := by
  have h2 : (2 : ℚ) ≠ 0 := by norm_num
  have hEpos : (0 : ℚ) < (2 : ℚ) ^ E := by positivity
  cases x with
  | inf _ => simp [gridUnits] at hx
  | nan => simp [gridUnits] at hx
  | finite n1 m1 e1 =>
  cases y with
  | inf _ => simp [gridUnits] at hy
  | nan => simp [gridUnits] at hy
  | finite n2 m2 e2 =>
  have v1 := (gridUnits_finite_iff E n1 m1 e1 z1).mp hx
  have v2 := (gridUnits_finite_iff E n2 m2 e2 z2).mp hy
  obtain ⟨e, he⟩ : ∃ e, e = min e1 e2 := ⟨_, rfl⟩
  have hepos : (0 : ℚ) < (2 : ℚ) ^ e := by positivity
  obtain ⟨s, hs⟩ : ∃ s : Int, s = (if n1 then -1 else 1) * ((m1 * 2 ^ (e1 - e).toNat : Nat) : Int)
      + (if n2 then -1 else 1) * ((m2 * 2 ^ (e2 - e).toNat : Nat) : Int) := ⟨_, rfl⟩
  have hadd : Float64.add (.finite n1 m1 e1) (.finite n2 m2 e2) =
      if s = 0 then .finite (n1 && n2) 0 (-1074)
      else if 0 ≤ e then roundFloat64 (decide (s < 0)) (s.natAbs * 2 ^ e.toNat) 1
      else roundFloat64 (decide (s < 0)) s.natAbs (2 ^ (-e).toNat) := by
    rw [Float64.add, hs, he]
  have hsq : (s : ℚ) * (2 : ℚ) ^ e = ((z1 + z2 : Int) : ℚ) * (2 : ℚ) ^ E := by
    have k1 : (2 : ℚ) ^ (e1 - e) * (2 : ℚ) ^ e = (2 : ℚ) ^ e1 := by
      rw [← zpow_add₀ h2]; congr 1; omega
    have k2 : (2 : ℚ) ^ (e2 - e) * (2 : ℚ) ^ e = (2 : ℚ) ^ e2 := by
      rw [← zpow_add₀ h2]; congr 1; omega
    rw [hs]
    push_cast
    rw [zpow_toNat' (e1 - e) (by omega), zpow_toNat' (e2 - e) (by omega)]
    have : ((if n1 then -1 else 1 : Int) : ℚ) * (m1 * (2 : ℚ) ^ (e1 - e)) * (2 : ℚ) ^ e
        + ((if n2 then -1 else 1 : Int) : ℚ) * (m2 * (2 : ℚ) ^ (e2 - e)) * (2 : ℚ) ^ e
        = z1 * (2 : ℚ) ^ E + z2 * (2 : ℚ) ^ E := by
      rw [← v1, ← v2, ← k1, ← k2]
      ring
    push_cast at this ⊢
    linarith
  rw [hadd]
  by_cases hs0 : s = 0
  · rw [if_pos hs0]
    have hz0 : z1 + z2 = 0 := by
      rw [hs0] at hsq
      simp only [Int.cast_zero, zero_mul] at hsq
      have : ((z1 + z2 : Int) : ℚ) = 0 := by
        rcases mul_eq_zero.mp hsq.symm with h | h
        · exact h
        · exact absurd h (ne_of_gt hEpos)
      exact_mod_cast this
    refine ⟨?_, rfl⟩
    rw [gridUnits_finite_iff, hz0]
    simp
  · rw [if_neg hs0]
    -- sign and magnitude of the exact sum
    have hsign : (s < 0 ↔ z1 + z2 < 0) ∧ ((s.natAbs : ℚ) * (2 : ℚ) ^ e
        = ((z1 + z2).natAbs : ℚ) * (2 : ℚ) ^ E) := by
      rcases lt_or_gt_of_ne hs0 with hneg | hpos
      · have hS : (s : ℚ) < 0 := by exact_mod_cast hneg
        have hZ : ((z1 + z2 : Int) : ℚ) < 0 := by
          have : ((z1 + z2 : Int) : ℚ) * (2 : ℚ) ^ E < 0 := by
            rw [← hsq]; exact mul_neg_of_neg_of_pos hS hepos
          by_contra hc
          push_neg at hc
          have := mul_nonneg hc hEpos.le
          linarith
        have hZi : z1 + z2 < 0 := by exact_mod_cast hZ
        refine ⟨⟨fun _ => hZi, fun _ => hneg⟩, ?_⟩
        have a1 : ((s.natAbs : Nat) : ℚ) = -(s : ℚ) := by
          have : ((s.natAbs : Nat) : Int) = -s := by omega
          rw [← Int.cast_natCast, this, Int.cast_neg]
        have a2 : (((z1 + z2).natAbs : Nat) : ℚ) = -((z1 + z2 : Int) : ℚ) := by
          have : (((z1 + z2).natAbs : Nat) : Int) = -(z1 + z2) := by omega
          rw [← Int.cast_natCast, this, Int.cast_neg]
        rw [a1, a2]
        linarith
      · have hS : (0 : ℚ) < (s : ℚ) := by exact_mod_cast hpos
        have hZ : (0 : ℚ) < ((z1 + z2 : Int) : ℚ) := by
          have : 0 < ((z1 + z2 : Int) : ℚ) * (2 : ℚ) ^ E := by
            rw [← hsq]; exact mul_pos hS hepos
          by_contra hc
          push_neg at hc
          have := mul_nonpos_of_nonpos_of_nonneg hc hEpos.le
          linarith
        have hZi : 0 < z1 + z2 := by exact_mod_cast hZ
        refine ⟨⟨fun h => absurd h (by omega), fun h => absurd h (by omega)⟩, ?_⟩
        have a1 : ((s.natAbs : Nat) : ℚ) = (s : ℚ) := by
          have : ((s.natAbs : Nat) : Int) = s := by omega
          rw [← Int.cast_natCast, this]
        have a2 : (((z1 + z2).natAbs : Nat) : ℚ) = ((z1 + z2 : Int) : ℚ) := by
          have : (((z1 + z2).natAbs : Nat) : Int) = z1 + z2 := by omega
          rw [← Int.cast_natCast, this]
        rw [a1, a2]
        exact hsq
    have hzpos : 0 < (z1 + z2).natAbs := by
      have : z1 + z2 ≠ 0 := by
        intro h0
        rw [h0] at hsq
        simp only [Int.cast_zero, zero_mul] at hsq
        rcases mul_eq_zero.mp hsq with h | h
        · exact hs0 (by exact_mod_cast h)
        · exact absurd h (ne_of_gt hepos)
      omega
    have hround : ∃ m e3, (if 0 ≤ e then roundFloat64 (decide (s < 0)) (s.natAbs * 2 ^ e.toNat) 1
        else roundFloat64 (decide (s < 0)) s.natAbs (2 ^ (-e).toNat))
          = .finite (decide (s < 0)) m e3 ∧
        (m : ℚ) * (2 : ℚ) ^ e3 = ((z1 + z2).natAbs : ℚ) * (2 : ℚ) ^ E := by
      by_cases h0 : 0 ≤ e
      · rw [if_pos h0]
        apply roundFloat64_exact _ _ _ _ E (by norm_num) hzpos hb hE1 hE2
        rw [Nat.cast_mul, zpow_toNat e h0, Nat.cast_one, div_one]
        exact hsign.2
      · rw [if_neg h0]
        apply roundFloat64_exact _ _ _ _ E (by positivity) hzpos hb hE1 hE2
        rw [zpow_toNat (-e) (by omega), zpow_neg, div_inv_eq_mul]
        exact hsign.2
    obtain ⟨m, e3, hres, hval⟩ := hround
    rw [hres]
    refine ⟨?_, rfl⟩
    rw [gridUnits_finite_iff]
    by_cases hneg : s < 0
    · have hZi : z1 + z2 < 0 := hsign.1.mp hneg
      have a2 : (((z1 + z2).natAbs : Nat) : ℚ) = -((z1 + z2 : Int) : ℚ) := by
        have : (((z1 + z2).natAbs : Nat) : Int) = -(z1 + z2) := by omega
        rw [← Int.cast_natCast, this, Int.cast_neg]
      simp only [hneg, decide_True, if_true]
      rw [a2] at hval
      push_cast at hval ⊢
      linarith
    · have hZi : ¬ z1 + z2 < 0 := fun h => hneg (hsign.1.mpr h)
      have a2 : (((z1 + z2).natAbs : Nat) : ℚ) = ((z1 + z2 : Int) : ℚ) := by
        have : (((z1 + z2).natAbs : Nat) : Int) = z1 + z2 := by omega
        rw [← Int.cast_natCast, this]
      simp only [hneg, decide_False, Bool.false_eq_true, if_false]
      rw [a2] at hval
      push_cast at hval ⊢
      linarith

/-! ## The grouping of `aggregateData` -/

theorem sumAmounts_append_singleton (l : List Float64) (x : Float64) :
    sumAmounts (l ++ [x]) =
      some (match sumAmounts l with
            | none => x
            | some total => total.add x) := by
  cases l with
  | nil => rfl
  | cons a rest => simp [sumAmounts, List.foldl_append]

theorem valuesOf_append (l1 l2 : List AggregatedData) (k : Int × String) :
    valuesOf (l1 ++ l2) k = valuesOf l1 k ++ valuesOf l2 k := by
  simp [valuesOf, List.filter_append]

theorem valuesOf_singleton (p : AggregatedData) (k : Int × String) :
    valuesOf [p] k = if p.key = k then [p.TotalSales] else [] := by
  unfold valuesOf
  by_cases h : p.key = k <;> simp [List.filter_cons, h]

theorem valuesOf_eq_nil (entries : List AggregatedData) (k : Int × String)
    (h : k ∉ entries.map AggregatedData.key) : valuesOf entries k = [] := by
  unfold valuesOf
  simp only [List.map_eq_nil_iff, List.filter_eq_nil_iff, decide_eq_true_eq]
  intro a ha hk
  exact h (hk ▸ List.mem_map_of_mem _ ha)

theorem valuesOf_map_entry (rows : List Row) (k : Int × String) :
    valuesOf (rows.map Row.entry) k = amountsOf rows k := by
  induction rows with
  | nil => rfl
  | cons r rest ih =>
    have hk : (Row.entry r).key = r.key := rfl
    have h1 : valuesOf (Row.entry r :: rest.map Row.entry) k =
        (if r.key = k then [r.amount] else []) ++ valuesOf (rest.map Row.entry) k := by
      have := valuesOf_append [Row.entry r] (rest.map Row.entry) k
      rw [valuesOf_singleton, hk] at this
      exact this
    have h2 : amountsOf (r :: rest) k =
        (if r.key = k then [r.amount] else []) ++ amountsOf rest k := by
      unfold amountsOf
      by_cases h : r.key = k <;> simp [List.filter_cons, h]
    rw [List.map_cons, h1, h2, ih]

theorem amountsOf_append (l1 l2 : List Row) (k : Int × String) :
    amountsOf (l1 ++ l2) k = amountsOf l1 k ++ amountsOf l2 k := by
  simp [amountsOf, List.filter_append]

theorem amountsOf_perm (l1 l2 : List Row) (k : Int × String) (h : l1.Perm l2) :
    (amountsOf l1 k).Perm (amountsOf l2 k) :=
  (h.filter _).map _

theorem float8pl_ok (a b c : Float64) (h : float8pl a b = .ok c) : c = a.add b := by
  unfold float8pl at h
  simp only at h
  by_cases hc : ((a.add b).isInf && !a.isInf && !b.isInf) = true
  · rw [if_pos hc] at h; cases h
  · rw [if_neg hc] at h
    simp only [Except.ok.injEq] at h
    exact h.symm

theorem float8pl_error (a b : Float64) (e : Error) (h : float8pl a b = .error e) :
    e = .PqError "22003" := by
  unfold float8pl at h
  simp only at h
  by_cases hc : ((a.add b).isInf && !a.isInf && !b.isInf) = true
  · rw [if_pos hc] at h
    simp only [Except.error.injEq] at h
    exact h.symm
  · rw [if_neg hc] at h; cases h

theorem float8pl_of_not_isInf (a b : Float64) (h : (a.add b).isInf = false) :
    float8pl a b = .ok (a.add b) := by
  unfold float8pl
  simp [h]

theorem groupStep_cons (g : AggregatedData) (gs : List AggregatedData) (p : AggregatedData) :
    groupStep (g :: gs) p =
      if g.key = p.key then
        match float8pl g.TotalSales p.TotalSales with
        | .error err => .error err
        | .ok total => .ok ({ g with TotalSales := total } :: gs)
      else
        match groupStep gs p with
        | .error err => .error err
        | .ok gs1 => .ok (g :: gs1) := by
  rw [groupStep]
  have hiff : (g.ProductID = p.ProductID ∧ g.Region = p.Region) ↔ g.key = p.key := by
    simp [AggregatedData.key]
  by_cases hk : g.key = p.key
  · rw [if_pos (hiff.mpr hk), if_pos hk]
  · rw [if_neg (fun h => hk (hiff.mp h)), if_neg hk]

theorem groupStep_error_cause (gs : List AggregatedData) (p : AggregatedData) (e : Error)
    (h : groupStep gs p = .error e) :
    ∃ g ∈ gs, g.key = p.key ∧ float8pl g.TotalSales p.TotalSales = .error e := by
  induction gs generalizing e with
  | nil => simp [groupStep] at h
  | cons g gs ih =>
    rw [groupStep_cons] at h
    by_cases hk : g.key = p.key
    · rw [if_pos hk] at h
      cases hf : float8pl g.TotalSales p.TotalSales with
      | error e1 =>
        rw [hf] at h
        simp only [Except.error.injEq] at h
        exact ⟨g, List.mem_cons_self _ _, hk, h ▸ hf⟩
      | ok v => rw [hf] at h; cases h
    · rw [if_neg hk] at h
      cases hs : groupStep gs p with
      | error e1 =>
        rw [hs] at h
        simp only [Except.error.injEq] at h
        obtain ⟨g1, hg1, h1, h2⟩ := ih e1 hs
        exact ⟨g1, List.mem_cons_of_mem _ hg1, h1, h ▸ h2⟩
      | ok v => rw [hs] at h; cases h

theorem groupStep_error (gs : List AggregatedData) (p : AggregatedData) (e : Error)
    (h : groupStep gs p = .error e) : e = .PqError "22003" := by
  obtain ⟨g, -, -, hf⟩ := groupStep_error_cause gs p e h
  exact float8pl_error _ _ _ hf

theorem groupStep_keys (gs : List AggregatedData) (p : AggregatedData)
    (out : List AggregatedData) (h : groupStep gs p = .ok out) :
    out.map AggregatedData.key =
      if p.key ∈ gs.map AggregatedData.key then gs.map AggregatedData.key
      else gs.map AggregatedData.key ++ [p.key] := by
  induction gs generalizing out with
  | nil =>
    simp only [groupStep, Except.ok.injEq] at h
    subst h
    simp
  | cons g gs ih =>
    rw [groupStep_cons] at h
    by_cases hk : g.key = p.key
    · rw [if_pos hk] at h
      cases hf : float8pl g.TotalSales p.TotalSales with
      | error e1 => rw [hf] at h; cases h
      | ok v =>
        rw [hf] at h
        simp only [Except.ok.injEq] at h
        subst h
        have hkey : AggregatedData.key { g with TotalSales := v } = g.key := rfl
        simp [hkey, hk]
    · rw [if_neg hk] at h
      cases hs : groupStep gs p with
      | error e1 => rw [hs] at h; cases h
      | ok v =>
        rw [hs] at h
        simp only [Except.ok.injEq] at h
        subst h
        have hne : ¬ p.key = g.key := fun h => hk h.symm
        simp only [List.map_cons, ih v hs, List.mem_cons, hne, false_or]
        split_ifs <;> simp

theorem groupStep_mem (gs : List AggregatedData) (p : AggregatedData)
    (out : List AggregatedData) (a : AggregatedData)
    (hnd : (gs.map AggregatedData.key).Nodup)
    (h : groupStep gs p = .ok out) (ha : a ∈ out) :
    (a ∈ gs ∧ a.key ≠ p.key) ∨
    (a.key = p.key ∧ ∃ g ∈ gs, g.key = p.key ∧ a.TotalSales = g.TotalSales.add p.TotalSales) ∨
    (a.key = p.key ∧ p.key ∉ gs.map AggregatedData.key ∧ a.TotalSales = p.TotalSales) := by
  induction gs generalizing out with
  | nil =>
    simp only [groupStep, Except.ok.injEq] at h
    subst h
    simp only [List.mem_singleton] at ha
    subst ha
    right; right
    simp
  | cons g gs ih =>
    rw [List.map_cons, List.nodup_cons] at hnd
    rw [groupStep_cons] at h
    by_cases hk : g.key = p.key
    · rw [if_pos hk] at h
      cases hf : float8pl g.TotalSales p.TotalSales with
      | error e1 => rw [hf] at h; cases h
      | ok v =>
        rw [hf] at h
        simp only [Except.ok.injEq] at h
        subst h
        rcases List.mem_cons.mp ha with rfl | ha
        · right; left
          exact ⟨hk, g, List.mem_cons_self _ _, hk, float8pl_ok _ _ _ hf⟩
        · left
          refine ⟨List.mem_cons_of_mem _ ha, fun hak => hnd.1 ?_⟩
          rw [hk, ← hak]
          exact List.mem_map_of_mem _ ha
    · rw [if_neg hk] at h
      cases hs : groupStep gs p with
      | error e1 => rw [hs] at h; cases h
      | ok v =>
        rw [hs] at h
        simp only [Except.ok.injEq] at h
        subst h
        rcases List.mem_cons.mp ha with rfl | ha
        · left
          exact ⟨List.mem_cons_self _ _, hk⟩
        · rcases ih v hnd.2 hs ha with ⟨h1, h2⟩ | ⟨h1, g1, hg1, h2, h3⟩ | ⟨h1, h2, h3⟩
          · left
            exact ⟨List.mem_cons_of_mem _ h1, h2⟩
          · right; left
            exact ⟨h1, g1, List.mem_cons_of_mem _ hg1, h2, h3⟩
          · right; right
            refine ⟨h1, ?_, h3⟩
            simp only [List.map_cons, List.mem_cons, not_or]
            exact ⟨fun h => hk h.symm, h2⟩

theorem GroupInv_step (seen gs out : List AggregatedData) (p : AggregatedData)
    (hinv : GroupInv seen gs) (h : groupStep gs p = .ok out) : GroupInv (seen ++ [p]) out := by
  obtain ⟨hnd, hkeys, hsum⟩ := hinv
  have hk := groupStep_keys gs p out h
  refine ⟨?_, ?_, ?_⟩
  · rw [hk]
    split_ifs with hmem
    · exact hnd
    · rw [List.nodup_append]
      refine ⟨hnd, List.nodup_singleton _, ?_⟩
      intro k hk1 hk2
      rw [List.mem_singleton] at hk2
      exact hmem (hk2 ▸ hk1)
  · intro k
    rw [hk]
    split_ifs with hmem
    · rw [hkeys, List.map_append, List.mem_append]
      constructor
      · exact Or.inl
      · rintro (h1 | h1)
        · exact h1
        · simp only [List.map_cons, List.map_nil, List.mem_singleton] at h1
          rw [h1, ← hkeys]
          exact hmem
    · rw [List.mem_append, hkeys, List.map_append, List.mem_append]
      simp
  · intro a ha
    rw [valuesOf_append, valuesOf_singleton]
    rcases groupStep_mem gs p out a hnd h ha with ⟨h1, h2⟩ | ⟨h1, g, hg, h2, h3⟩ | ⟨h1, h2, h3⟩
    · simp [Ne.symm h2, hsum a h1]
    · have := hsum g hg
      rw [h2] at this
      rw [h1, if_pos rfl, sumAmounts_append_singleton, this, h3]
    · have hnil : valuesOf seen p.key = [] :=
        valuesOf_eq_nil seen p.key (fun h => h2 ((hkeys _).mpr h))
      rw [h1, if_pos rfl, hnil, h3]
      rfl

theorem GroupInv_nil : GroupInv [] [] := by
  simp [GroupInv]

theorem groupBySum_invariant (rest : List AggregatedData) :
    ∀ (seen : List AggregatedData) (gs out : List AggregatedData),
      GroupInv seen gs → groupBySum gs rest = .ok out → GroupInv (seen ++ rest) out := by
  induction rest with
  | nil =>
    intro seen gs out hinv h
    simp only [groupBySum, Except.ok.injEq] at h
    subst h
    simpa using hinv
  | cons p rest ih =>
    intro seen gs out hinv h
    rw [groupBySum] at h
    cases hs : groupStep gs p with
    | error e => rw [hs] at h; cases h
    | ok gs1 =>
      rw [hs] at h
      have := ih (seen ++ [p]) gs1 out (GroupInv_step seen gs gs1 p hinv hs) h
      simpa using this

theorem groupBySum_error (rest : List AggregatedData) :
    ∀ (gs : List AggregatedData) (e : Error),
      groupBySum gs rest = .error e → e = .PqError "22003" := by
  induction rest with
  | nil =>
    intro gs e h
    simp [groupBySum] at h
  | cons p rest ih =>
    intro gs e h
    rw [groupBySum] at h
    cases hs : groupStep gs p with
    | error e1 =>
      rw [hs] at h
      simp only [Except.error.injEq] at h
      exact h ▸ groupStep_error gs p e1 hs
    | ok gs1 =>
      rw [hs] at h
      exact ih gs1 e h

theorem partialGroups_cons (chunk : List Row) (chunks : List (List Row)) :
    partialGroups (chunk :: chunks) =
      match groupBySum [] (chunk.map Row.entry) with
      | .error err => .error err
      | .ok gs =>
        match partialGroups chunks with
        | .error err => .error err
        | .ok parts => .ok (gs :: parts) := by
  rw [partialGroups]

theorem partialGroups_ok (chunks : List (List Row)) :
    ∀ parts, partialGroups chunks = .ok parts →
      List.Forall₂ (fun c p => GroupInv (c.map Row.entry) p) chunks parts := by
  induction chunks with
  | nil =>
    intro parts h
    simp only [partialGroups, Except.ok.injEq] at h
    subst h
    exact List.Forall₂.nil
  | cons c cs ih =>
    intro parts h
    rw [partialGroups_cons] at h
    cases hg : groupBySum [] (c.map Row.entry) with
    | error e => rw [hg] at h; cases h
    | ok gs =>
      rw [hg] at h
      cases hp : partialGroups cs with
      | error e => rw [hp] at h; cases h
      | ok ps =>
        rw [hp] at h
        simp only [Except.ok.injEq] at h
        subst h
        refine List.Forall₂.cons ?_ (ih ps hp)
        have := groupBySum_invariant (c.map Row.entry) [] [] gs GroupInv_nil hg
        simpa using this

theorem partialGroups_error (chunks : List (List Row)) :
    ∀ e, partialGroups chunks = .error e → e = .PqError "22003" := by
  induction chunks with
  | nil =>
    intro e h
    simp [partialGroups] at h
  | cons c cs ih =>
    intro e h
    rw [partialGroups_cons] at h
    cases hg : groupBySum [] (c.map Row.entry) with
    | error e1 =>
      rw [hg] at h
      simp only [Except.error.injEq] at h
      exact h ▸ groupBySum_error _ _ _ hg
    | ok gs =>
      rw [hg] at h
      cases hp : partialGroups cs with
      | error e1 =>
        rw [hp] at h
        simp only [Except.error.injEq] at h
        exact h ▸ ih e1 hp
      | ok ps => rw [hp] at h; cases h

theorem filter_key_eq_singleton (p : List AggregatedData)
    (hnd : (p.map AggregatedData.key).Nodup) (a : AggregatedData) (ha : a ∈ p) :
    p.filter (fun b => b.key = a.key) = [a] := by
  induction p with
  | nil => cases ha
  | cons b rest ih =>
    rw [List.map_cons, List.nodup_cons] at hnd
    rcases List.mem_cons.mp ha with rfl | ha1
    · have hrest : rest.filter (fun b => b.key = a.key) = [] := by
        rw [List.filter_eq_nil_iff]
        intro c hc hk
        simp only [decide_eq_true_eq] at hk
        exact hnd.1 (hk ▸ List.mem_map_of_mem _ hc)
      simp [List.filter_cons, hrest]
    · have hne : ¬ b.key = a.key := fun h => hnd.1 (h ▸ List.mem_map_of_mem _ ha1)
      simp [List.filter_cons, hne, ih hnd.2 ha1]

theorem valuesOf_of_mem (p : List AggregatedData) (hnd : (p.map AggregatedData.key).Nodup)
    (a : AggregatedData) (ha : a ∈ p) : valuesOf p a.key = [a.TotalSales] := by
  unfold valuesOf
  rw [filter_key_eq_singleton p hnd a ha]
  rfl

theorem part_values (entries p : List AggregatedData) (hinv : GroupInv entries p)
    (k : Int × String) : valuesOf p k = (sumAmounts (valuesOf entries k)).toList := by
  obtain ⟨hnd, hkeys, hsum⟩ := hinv
  by_cases hk : k ∈ p.map AggregatedData.key
  · obtain ⟨a, ha, rfl⟩ := List.mem_map.mp hk
    rw [valuesOf_of_mem p hnd a ha, hsum a ha]
    rfl
  · rw [valuesOf_eq_nil p k hk, valuesOf_eq_nil entries k (fun h => hk ((hkeys k).mpr h))]
    rfl

theorem parts_values (chunks : List (List Row)) (parts : List (List AggregatedData))
    (h : List.Forall₂ (fun c p => GroupInv (c.map Row.entry) p) chunks parts)
    (k : Int × String) : valuesOf parts.flatten k = partialSums chunks k := by
  induction h with
  | nil => rfl
  | @cons c p cs ps hcp _ ih =>
    rw [List.flatten_cons, valuesOf_append, ih, part_values _ p hcp k, valuesOf_map_entry]
    unfold partialSums
    rw [List.filterMap_cons]
    cases sumAmounts (amountsOf c k) <;> rfl

theorem parts_keys (chunks : List (List Row)) (parts : List (List AggregatedData))
    (h : List.Forall₂ (fun c p => GroupInv (c.map Row.entry) p) chunks parts)
    (k : Int × String) :
    k ∈ parts.flatten.map AggregatedData.key ↔ k ∈ chunks.flatten.map Row.key := by
  induction h with
  | nil => simp
  | @cons c p cs ps hcp _ ih =>
    rw [List.flatten_cons, List.flatten_cons, List.map_append, List.map_append,
      List.mem_append, List.mem_append, ih, hcp.2.1 k, List.map_map]
    rfl

theorem aggregateData_cases (plan : Plan) (t : Table) :
    aggregateData plan ⟨some t⟩ = ([], some (.PqError "22003")) ∨
    ∃ parts gs, partialGroups (plan.scan t.rows) = .ok parts ∧
      groupBySum [] parts.flatten = .ok gs ∧
      aggregateData plan ⟨some t⟩ = (plan.emit gs, none) := by
  cases hp : partialGroups (plan.scan t.rows) with
  | error e =>
    left
    simp only [aggregateData, hp]
    rw [partialGroups_error _ e hp]
  | ok parts =>
    cases hg : groupBySum [] parts.flatten with
    | error e =>
      left
      simp only [aggregateData, hp, hg]
      rw [groupBySum_error _ _ e hg]
    | ok gs =>
      right
      refine ⟨parts, gs, rfl, hg, ?_⟩
      simp only [aggregateData, hp, hg]

theorem aggregateData_groups (plan : Plan) (hplan : plan.valid) (t : Table)
    (parts : List (List AggregatedData)) (gs : List AggregatedData)
    (hp : partialGroups (plan.scan t.rows) = .ok parts)
    (hg : groupBySum [] parts.flatten = .ok gs) :
    ((plan.emit gs).map AggregatedData.key).Nodup ∧
    (∀ k, k ∈ (plan.emit gs).map AggregatedData.key ↔ k ∈ t.rows.map Row.key) ∧
    (plan.emit gs).length = (t.rows.map Row.key).dedup.length ∧
    (t.rows = [] → plan.emit gs = []) ∧
    ∀ a ∈ plan.emit gs, sumAmounts (partialSums (plan.scan t.rows) a.key) = some a.TotalSales := by
  have hF := partialGroups_ok _ parts hp
  have hinv := groupBySum_invariant parts.flatten [] [] gs GroupInv_nil hg
  rw [List.nil_append] at hinv
  obtain ⟨hnd, hkeys, hsum⟩ := hinv
  have hemit : (plan.emit gs).Perm gs := hplan.2 gs
  have hscan : (plan.scan t.rows).flatten.Perm t.rows := hplan.1 t.rows
  have hnd1 : ((plan.emit gs).map AggregatedData.key).Nodup :=
    ((hemit.map AggregatedData.key).nodup_iff).mpr hnd
  have hkeys1 : ∀ k, k ∈ (plan.emit gs).map AggregatedData.key ↔ k ∈ t.rows.map Row.key := by
    intro k
    rw [(hemit.map AggregatedData.key).mem_iff, hkeys k, parts_keys _ _ hF k,
      (hscan.map Row.key).mem_iff]
  have hlen : (plan.emit gs).length = (t.rows.map Row.key).dedup.length := by
    have hperm : List.Perm ((plan.emit gs).map AggregatedData.key)
        ((t.rows.map Row.key).dedup) :=
      (List.perm_ext_iff_of_nodup hnd1 (List.nodup_dedup _)).mpr
        (fun k => by rw [hkeys1, List.mem_dedup])
    simpa using hperm.length_eq
  refine ⟨hnd1, hkeys1, hlen, ?_, ?_⟩
  · intro h0
    rw [h0] at hlen
    simpa using hlen
  · intro a ha
    rw [← parts_values _ _ hF a.key]
    exact hsum a (hemit.mem_iff.mp ha)

/-! ## The grouping of amounts on a common grid -/

theorem unitsOf_of_gridUnits (E : Int) (x : Float64) (z : Int) (h : gridUnits E x = some z) :
    unitsOf E x = z := by
  simp [unitsOf, h]

theorem gridUnits_of_isSome (E : Int) (x : Float64) (h : (gridUnits E x).isSome) :
    gridUnits E x = some (unitsOf E x) := by
  obtain ⟨z, hz⟩ := Option.isSome_iff_exists.mp h
  rw [hz, unitsOf_of_gridUnits E x z hz]

theorem unitSum_append (E : Int) (l1 l2 : List Float64) :
    unitSum E (l1 ++ l2) = unitSum E l1 + unitSum E l2 := by
  simp [unitSum]

theorem unitMass_append (E : Int) (l1 l2 : List Float64) :
    unitMass E (l1 ++ l2) = unitMass E l1 + unitMass E l2 := by
  simp [unitMass]

theorem unitSum_perm (E : Int) (l1 l2 : List Float64) (h : l1.Perm l2) :
    unitSum E l1 = unitSum E l2 :=
  (h.map _).sum_eq

theorem unitMass_perm (E : Int) (l1 l2 : List Float64) (h : l1.Perm l2) :
    unitMass E l1 = unitMass E l2 :=
  (h.map _).sum_eq

theorem natAbs_unitSum_le (E : Int) (l : List Float64) :
    (unitSum E l).natAbs ≤ unitMass E l := by
  induction l with
  | nil => simp [unitSum, unitMass]
  | cons x rest ih =>
    have h1 : unitSum E (x :: rest) = unitsOf E x + unitSum E rest := by simp [unitSum]
    have h2 : unitMass E (x :: rest) = (unitsOf E x).natAbs + unitMass E rest := by
      simp [unitMass]
    rw [h1, h2]
    have := Int.natAbs_add_le (unitsOf E x) (unitSum E rest)
    omega

theorem ExactInv_step (E : Int) (hE1 : -1074 ≤ E) (hE2 : E ≤ 971)
    (seen gs : List AggregatedData) (p : AggregatedData)
    (hinv : GroupInv seen gs) (hex : ExactInv E seen gs)
    (hp : (gridUnits E p.TotalSales).isSome)
    (hb : unitMass E (valuesOf (seen ++ [p]) p.key) < 2 ^ 53) :
    ∃ out, groupStep gs p = .ok out ∧ ExactInv E (seen ++ [p]) out := by
  obtain ⟨hnd, hkeys, -⟩ := hinv
  have hpz := gridUnits_of_isSome E _ hp
  have hval : valuesOf (seen ++ [p]) p.key = valuesOf seen p.key ++ [p.TotalSales] := by
    rw [valuesOf_append, valuesOf_singleton, if_pos rfl]
  have hsum : unitSum E (valuesOf (seen ++ [p]) p.key)
      = unitSum E (valuesOf seen p.key) + unitsOf E p.TotalSales := by
    rw [hval, unitSum_append]
    simp [unitSum]
  have hF : ∀ g ∈ gs, g.key = p.key →
      gridUnits E (g.TotalSales.add p.TotalSales)
        = some (unitSum E (valuesOf (seen ++ [p]) p.key)) ∧
      (g.TotalSales.add p.TotalSales).isInf = false := by
    intro g hg hk
    have hgz := hex g hg
    rw [hk] at hgz
    rw [hsum]
    refine add_gridUnits E hE1 hE2 _ _ _ _ hgz hpz ?_
    rw [← hsum]
    exact lt_of_le_of_lt (natAbs_unitSum_le E _) hb
  cases hs : groupStep gs p with
  | error e =>
    exfalso
    obtain ⟨g, hg, hk, hf⟩ := groupStep_error_cause gs p e hs
    rw [float8pl_of_not_isInf _ _ (hF g hg hk).2] at hf
    cases hf
  | ok out =>
    refine ⟨out, rfl, ?_⟩
    intro a ha
    rcases groupStep_mem gs p out a hnd hs ha with ⟨h1, h2⟩ | ⟨h1, g, hg, h2, h3⟩ | ⟨h1, h2, h3⟩
    · rw [valuesOf_append, valuesOf_singleton, if_neg (Ne.symm h2), List.append_nil]
      exact hex a h1
    · rw [h1, h3]
      exact (hF g hg h2).1
    · have hnil : valuesOf seen p.key = [] :=
        valuesOf_eq_nil seen p.key (fun h => h2 ((hkeys _).mpr h))
      rw [h1, h3, hsum, hnil, hpz]
      simp [unitSum]

theorem ExactInv_nil (E : Int) : ExactInv E [] [] := by
  intro a ha
  cases ha

theorem groupBySum_exact (E : Int) (hE1 : -1074 ≤ E) (hE2 : E ≤ 971)
    (rest : List AggregatedData) :
    ∀ (seen gs : List AggregatedData), GroupInv seen gs → ExactInv E seen gs →
      (∀ p ∈ rest, (gridUnits E p.TotalSales).isSome) →
      (∀ k, unitMass E (valuesOf (seen ++ rest) k) < 2 ^ 53) →
      ∃ out, groupBySum gs rest = .ok out ∧ GroupInv (seen ++ rest) out ∧
        ExactInv E (seen ++ rest) out := by
  induction rest with
  | nil =>
    intro seen gs hinv hex _ _
    refine ⟨gs, rfl, ?_, ?_⟩
    · simpa using hinv
    · simpa using hex
  | cons p rest ih =>
    intro seen gs hinv hex hgrid hb
    have hassoc : seen ++ p :: rest = (seen ++ [p]) ++ rest := by simp
    have hb1 : unitMass E (valuesOf (seen ++ [p]) p.key) < 2 ^ 53 := by
      have := hb p.key
      rw [hassoc, valuesOf_append, unitMass_append] at this
      omega
    obtain ⟨out1, hs, hex1⟩ := ExactInv_step E hE1 hE2 seen gs p hinv hex
      (hgrid p (List.mem_cons_self _ _)) hb1
    have hinv1 := GroupInv_step seen gs out1 p hinv hs
    obtain ⟨out, hout, h1, h2⟩ := ih (seen ++ [p]) out1 hinv1 hex1
      (fun q hq => hgrid q (List.mem_cons_of_mem _ hq))
      (fun k => by rw [← hassoc]; exact hb k)
    refine ⟨out, ?_, ?_, ?_⟩
    · rw [groupBySum, hs]
      exact hout
    · rw [hassoc]; exact h1
    · rw [hassoc]; exact h2

theorem partialGroups_exact (E : Int) (hE1 : -1074 ≤ E) (hE2 : E ≤ 971)
    (chunks : List (List Row))
    (hgrid : ∀ r ∈ chunks.flatten, (gridUnits E r.amount).isSome)
    (hb : ∀ k, unitMass E (amountsOf chunks.flatten k) < 2 ^ 53) :
    ∃ parts, partialGroups chunks = .ok parts ∧
      List.Forall₂ (fun c p => GroupInv (c.map Row.entry) p ∧ ExactInv E (c.map Row.entry) p)
        chunks parts := by
  induction chunks with
  | nil => exact ⟨[], rfl, List.Forall₂.nil⟩
  | cons c cs ih =>
    rw [List.flatten_cons] at hgrid hb
    obtain ⟨gs, hg, hinv, hex⟩ := groupBySum_exact E hE1 hE2 (c.map Row.entry) [] []
      GroupInv_nil (ExactInv_nil E)
      (fun p hp => by
        obtain ⟨r, hr, rfl⟩ := List.mem_map.mp hp
        exact hgrid r (List.mem_append_left _ hr))
      (fun k => by
        have := hb k
        rw [amountsOf_append, unitMass_append] at this
        rw [List.nil_append, valuesOf_map_entry]
        omega)
    rw [List.nil_append] at hinv hex
    obtain ⟨ps, hps, hF⟩ := ih (fun r hr => hgrid r (List.mem_append_right _ hr))
      (fun k => by
        have := hb k
        rw [amountsOf_append, unitMass_append] at this
        omega)
    refine ⟨gs :: ps, ?_, List.Forall₂.cons ⟨hinv, hex⟩ hF⟩
    rw [partialGroups_cons, hg, hps]

theorem part_units (E : Int) (entries p : List AggregatedData) (hinv : GroupInv entries p)
    (hex : ExactInv E entries p) (k : Int × String) :
    unitSum E (valuesOf p k) = unitSum E (valuesOf entries k) ∧
    unitMass E (valuesOf p k) ≤ unitMass E (valuesOf entries k) := by
  obtain ⟨hnd, hkeys, -⟩ := hinv
  by_cases hk : k ∈ p.map AggregatedData.key
  · obtain ⟨a, ha, rfl⟩ := List.mem_map.mp hk
    have hu := unitsOf_of_gridUnits E _ _ (hex a ha)
    rw [valuesOf_of_mem p hnd a ha]
    have h1 : unitSum E [a.TotalSales] = unitsOf E a.TotalSales := by simp [unitSum]
    have h2 : unitMass E [a.TotalSales] = (unitsOf E a.TotalSales).natAbs := by simp [unitMass]
    rw [h1, h2, hu]
    exact ⟨rfl, natAbs_unitSum_le E _⟩
  · rw [valuesOf_eq_nil p k hk, valuesOf_eq_nil entries k (fun h => hk ((hkeys k).mpr h))]
    exact ⟨rfl, le_refl _⟩

theorem parts_units (E : Int) (chunks : List (List Row)) (parts : List (List AggregatedData))
    (h : List.Forall₂
      (fun c p => GroupInv (c.map Row.entry) p ∧ ExactInv E (c.map Row.entry) p) chunks parts) :
    (∀ a ∈ parts.flatten, (gridUnits E a.TotalSales).isSome) ∧
    ∀ k, unitSum E (valuesOf parts.flatten k) = unitSum E (amountsOf chunks.flatten k) ∧
      unitMass E (valuesOf parts.flatten k) ≤ unitMass E (amountsOf chunks.flatten k) := by
  induction h with
  | nil =>
    exact ⟨fun a ha => (by cases ha), fun k => ⟨rfl, le_refl _⟩⟩
  | @cons c p cs ps hcp _ ih =>
    obtain ⟨ih1, ih2⟩ := ih
    refine ⟨?_, ?_⟩
    · intro a ha
      rw [List.flatten_cons, List.mem_append] at ha
      rcases ha with ha | ha
      · rw [hcp.2 a ha]
        rfl
      · exact ih1 a ha
    · intro k
      obtain ⟨u1, u2⟩ := part_units E _ p hcp.1 hcp.2 k
      obtain ⟨v1, v2⟩ := ih2 k
      rw [valuesOf_map_entry] at u1 u2
      rw [List.flatten_cons, List.flatten_cons, valuesOf_append, amountsOf_append,
        unitSum_append, unitSum_append, unitMass_append, unitMass_append, u1, v1]
      exact ⟨rfl, by omega⟩

theorem aggregateData_exact (plan : Plan) (hplan : plan.valid) (t : Table) (E : Int)
    (hE1 : -1074 ≤ E) (hE2 : E ≤ 971)
    (hgrid : ∀ r ∈ t.rows, (gridUnits E r.amount).isSome)
    (hb : ∀ k, unitMass E (amountsOf t.rows k) < 2 ^ 53) :
    (aggregateData plan ⟨some t⟩).2 = none ∧
    ∀ a ∈ (aggregateData plan ⟨some t⟩).1,
      gridUnits E a.TotalSales = some (unitSum E (amountsOf t.rows a.key)) := by
  have hscan : (plan.scan t.rows).flatten.Perm t.rows := hplan.1 t.rows
  obtain ⟨parts, hp, hF⟩ := partialGroups_exact E hE1 hE2 (plan.scan t.rows)
    (fun r hr => hgrid r (hscan.mem_iff.mp hr))
    (fun k => by rw [unitMass_perm E _ _ (amountsOf_perm _ _ k hscan)]; exact hb k)
  obtain ⟨hsome, hunits⟩ := parts_units E _ _ hF
  obtain ⟨gs, hg, -, hex⟩ := groupBySum_exact E hE1 hE2 parts.flatten [] []
    GroupInv_nil (ExactInv_nil E) hsome
    (fun k => by
      rw [List.nil_append]
      have h1 := (hunits k).2
      have h2 := hb k
      rw [← unitMass_perm E _ _ (amountsOf_perm _ _ k hscan)] at h2
      omega)
  rw [List.nil_append] at hex
  have hagg : aggregateData plan ⟨some t⟩ = (plan.emit gs, none) := by
    simp only [aggregateData, hp, hg]
  rw [hagg]
  refine ⟨rfl, ?_⟩
  intro a ha
  have ha1 : a ∈ gs := (hplan.2 gs).mem_iff.mp ha
  rw [hex a ha1, (hunits a.key).1, unitSum_perm E _ _ (amountsOf_perm _ _ a.key hscan)]

/-! ## C5: aggregation correctness -/

theorem amountsOf_eq_nil (rows : List Row) (k : Int × String) (h : k ∉ rows.map Row.key) :
    amountsOf rows k = [] := by
  unfold amountsOf
  simp only [List.map_eq_nil_iff, List.filter_eq_nil_iff, decide_eq_true_eq]
  intro r hr hk
  exact h (hk ▸ List.mem_map_of_mem _ hr)

theorem unitMass_of_rows (E : Int) (rows : List Row)
    (h : ∀ r ∈ rows, unitMass E (amountsOf rows r.key) < 2 ^ 53) (k : Int × String) :
    unitMass E (amountsOf rows k) < 2 ^ 53 := by
  by_cases hk : k ∈ rows.map Row.key
  · obtain ⟨r, hr, rfl⟩ := List.mem_map.mp hk
    exact h r hr
  · rw [amountsOf_eq_nil rows k hk]
    simp [unitMass]

theorem Plan.stored_valid : Plan.stored.valid := by
  constructor
  · intro rows
    simp [Plan.stored]
  · intro gs
    exact List.Perm.refl _

set_option maxRecDepth 100000 in
set_option exponentiation.threshold 2000 in
theorem float8pl_maxFloat64 :
    float8pl maxFloat64 maxFloat64 = .error (.PqError "22003") := by
  decide

theorem groupBySum_maxFloat64 (entries gs : List AggregatedData)
    (hall : ∀ q ∈ entries, q = ⟨10, maxFloat64, "east"⟩)
    (h : groupBySum [] entries = .ok gs) : gs = entries ∧ entries.length ≤ 1 := by
  match entries, hall, h with
  | [], _, h =>
    simp only [groupBySum, Except.ok.injEq] at h
    exact ⟨h.symm, by simp⟩
  | [q], _, h =>
    simp only [groupBySum, groupStep, Except.ok.injEq] at h
    exact ⟨h.symm, by simp⟩
  | q1 :: q2 :: rest, hall, h =>
    exfalso
    have h1 := hall q1 (by simp)
    have h2 := hall q2 (by simp)
    subst h1
    subst h2
    have hstep : groupStep [⟨10, maxFloat64, "east"⟩] ⟨10, maxFloat64, "east"⟩
        = .error (.PqError "22003") := by
      rw [groupStep_cons, if_pos rfl]
      dsimp only
      rw [float8pl_maxFloat64]
    rw [groupBySum, groupStep] at h
    simp only at h
    rw [groupBySum, hstep] at h
    cases h

theorem partialGroups_maxFloat64 (chunks : List (List Row)) :
    ∀ parts, (∀ r ∈ chunks.flatten, r.entry = ⟨10, maxFloat64, "east"⟩) →
      partialGroups chunks = .ok parts → parts.flatten = chunks.flatten.map Row.entry := by
  induction chunks with
  | nil =>
    intro parts _ h
    simp only [partialGroups, Except.ok.injEq] at h
    subst h
    rfl
  | cons c cs ih =>
    intro parts hall h
    rw [List.flatten_cons] at hall
    rw [partialGroups_cons] at h
    cases hg : groupBySum [] (c.map Row.entry) with
    | error e => rw [hg] at h; cases h
    | ok gs =>
      rw [hg] at h
      cases hp : partialGroups cs with
      | error e => rw [hp] at h; cases h
      | ok ps =>
        rw [hp] at h
        simp only [Except.ok.injEq] at h
        subst h
        have hgs := (groupBySum_maxFloat64 (c.map Row.entry) gs (fun q hq => by
          obtain ⟨r, hr, rfl⟩ := List.mem_map.mp hq
          exact hall r (List.mem_append_left _ hr)) hg).1
        rw [List.flatten_cons, List.flatten_cons, List.map_append, hgs,
          ih ps (fun r hr => hall r (List.mem_append_right _ hr)) hp]

theorem aggregateData_overflowTable (plan : Plan) (hplan : plan.valid) :
    aggregateData plan ⟨some overflowTable⟩ = ([], some (.PqError "22003")) := by
  rcases aggregateData_cases plan overflowTable with h | ⟨parts, gs, hp, hg, -⟩
  · exact h
  · exfalso
    have hscan : (plan.scan overflowTable.rows).flatten.Perm overflowTable.rows :=
      hplan.1 overflowTable.rows
    have hrows : ∀ r ∈ overflowTable.rows, r.entry = ⟨10, maxFloat64, "east"⟩ := by
      intro r hr
      simp only [overflowTable, List.mem_cons, List.mem_singleton, List.not_mem_nil,
        or_false] at hr
      rcases hr with rfl | rfl <;> rfl
    have hall : ∀ r ∈ (plan.scan overflowTable.rows).flatten,
        r.entry = ⟨10, maxFloat64, "east"⟩ :=
      fun r hr => hrows r (hscan.mem_iff.mp hr)
    have hflat := partialGroups_maxFloat64 _ parts hall hp
    have hlen := (groupBySum_maxFloat64 parts.flatten gs (fun q hq => by
      rw [hflat] at hq
      obtain ⟨r, hr, rfl⟩ := List.mem_map.mp hq
      exact hall r hr) hg).2
    rw [hflat, List.length_map, hscan.length_eq] at hlen
    simp [overflowTable] at hlen

theorem partialSums_eq (chunks : List (List Row)) (k : Int × String) :
    partialSums chunks k = (chunks.map fun c => amountsOf c k).filterMap sumAmounts := by
  unfold partialSums
  rw [List.filterMap_map]
  rfl

theorem amountsOf_flatten (chunks : List (List Row)) (k : Int × String) :
    (chunks.map fun c => amountsOf c k).flatten = amountsOf chunks.flatten k := by
  induction chunks with
  | nil => rfl
  | cons c cs ih =>
    rw [List.map_cons, List.flatten_cons, List.flatten_cons, amountsOf_append, ih]

theorem filterMap_sumAmounts_nil (L : List (List Float64)) (h : L.flatten = []) :
    L.filterMap sumAmounts = [] := by
  induction L with
  | nil => rfl
  | cons c cs ih =>
    rw [List.flatten_cons, List.append_eq_nil] at h
    rw [h.1, List.filterMap_cons]
    exact ih h.2

theorem filterMap_sumAmounts_singleton (L : List (List Float64)) (b : Float64)
    (h : L.flatten = [b]) : L.filterMap sumAmounts = [b] := by
  induction L with
  | nil => cases h
  | cons c cs ih =>
    rw [List.flatten_cons] at h
    match c, h with
    | [], h =>
      rw [List.filterMap_cons]
      exact ih h
    | [a], h =>
      simp only [List.singleton_append, List.cons.injEq] at h
      rw [List.filterMap_cons, filterMap_sumAmounts_nil cs h.2, h.1]
      rfl
    | a :: a1 :: rest, h => simp at h

theorem sumAmounts_pair (L : List (List Float64)) (x y : Float64)
    (h : L.flatten = [x, y]) : sumAmounts (L.filterMap sumAmounts) = some (x.add y) := by
  induction L with
  | nil => cases h
  | cons c cs ih =>
    rw [List.flatten_cons] at h
    match c, h with
    | [], h =>
      rw [List.filterMap_cons]
      exact ih h
    | [a], h =>
      simp only [List.singleton_append, List.cons.injEq] at h
      rw [List.filterMap_cons, filterMap_sumAmounts_singleton cs y h.2, h.1]
      rfl
    | [a, b], h =>
      simp only [List.cons_append, List.nil_append, List.cons.injEq] at h
      obtain ⟨h1, h2, h3⟩ := h
      rw [List.filterMap_cons, filterMap_sumAmounts_nil cs h3, h1, h2]
      rfl
    | a :: b :: c :: rest, h => simp at h

theorem perm_pair {α : Type} (l : List α) (x y : α) (h : l.Perm [x, y]) :
    l = [x, y] ∨ l = [y, x] := by
  have hlen := h.length_eq
  match l, hlen, h with
  | [a, b], _, h =>
    have ha : a ∈ [x, y] := h.mem_iff.mp (by simp)
    have hb : b ∈ [x, y] := h.mem_iff.mp (by simp)
    have hx : x ∈ [a, b] := h.mem_iff.mpr (by simp)
    have hy : y ∈ [a, b] := h.mem_iff.mpr (by simp)
    simp only [List.mem_cons, List.mem_singleton, List.not_mem_nil, or_false] at ha hb hx hy
    rcases ha with rfl | rfl
    · rcases hb with rfl | rfl
      · rcases hy with rfl | rfl <;> exact Or.inl rfl
      · exact Or.inl rfl
    · rcases hb with rfl | rfl
      · exact Or.inr rfl
      · rcases hx with rfl | rfl <;> exact Or.inl rfl

theorem total_of_pair (chunks : List (List Row)) (rows : List Row) (k : Int × String)
    (x y : Float64) (hperm : chunks.flatten.Perm rows) (hk : amountsOf rows k = [x, y]) :
    sumAmounts (partialSums chunks k) = some (x.add y) ∨
    sumAmounts (partialSums chunks k) = some (y.add x) := by
  have h1 : ((chunks.map fun c => amountsOf c k).flatten).Perm [x, y] := by
    rw [amountsOf_flatten, ← hk]
    exact amountsOf_perm _ _ k hperm
  rw [partialSums_eq]
  rcases perm_pair _ x y h1 with h | h
  · exact Or.inl (sumAmounts_pair _ x y h)
  · exact Or.inr (sumAmounts_pair _ y x h)

theorem total_of_single (chunks : List (List Row)) (rows : List Row) (k : Int × String)
    (z : Float64) (hperm : chunks.flatten.Perm rows) (hk : amountsOf rows k = [z]) :
    sumAmounts (partialSums chunks k) = some z := by
  have h1 : ((chunks.map fun c => amountsOf c k).flatten).Perm [z] := by
    rw [amountsOf_flatten, ← hk]
    exact amountsOf_perm _ _ k hperm
  rw [partialSums_eq, filterMap_sumAmounts_singleton _ z (List.perm_singleton.mp h1)]
  rfl

theorem aggregateData_scenarioA (plan : Plan) (hplan : plan.valid) :
    (aggregateData plan ⟨some scenarioATable⟩).2 = none ∧
    (aggregateData plan ⟨some scenarioATable⟩).1.Perm
      [⟨10, .finite false 5304044092391424 (-45), "east"⟩,
       ⟨20, .finite false 5277655813324800 (-46), "west"⟩] := by
  have hnone := (aggregateData_exact plan hplan scenarioATable (-2) (by decide) (by decide)
    (by decide) (unitMass_of_rows (-2) scenarioATable.rows (by decide))).1
  refine ⟨hnone, ?_⟩
  rcases aggregateData_cases plan scenarioATable with h | ⟨parts, gs, hp, hg, h⟩
  · rw [h] at hnone
    cases hnone
  · rw [h]
    obtain ⟨hnd, hkeys, -, -, hsum⟩ := aggregateData_groups plan hplan scenarioATable parts gs hp hg
    have hscan := hplan.1 scenarioATable.rows
    have hval : ∀ a ∈ plan.emit gs,
        a = ⟨10, .finite false 5304044092391424 (-45), "east"⟩ ∨
        a = ⟨20, .finite false 5277655813324800 (-46), "west"⟩ := by
      intro a ha
      have hk : a.key ∈ scenarioATable.rows.map Row.key :=
        (hkeys a.key).mp (List.mem_map_of_mem _ ha)
      have hs := hsum a ha
      have hk1 : a.key = (10, "east") ∨ a.key = (20, "west") := by
        simp only [scenarioATable, Row.key, List.map_cons, List.map_nil, List.mem_cons,
          List.mem_singleton, List.not_mem_nil, or_false] at hk
        rcases hk with h1 | h1 | h1
        · exact Or.inl h1
        · exact Or.inl h1
        · exact Or.inr h1
      rcases hk1 with h1 | h1
      · left
        rw [h1] at hs
        have ht : a.TotalSales = .finite false 5304044092391424 (-45) := by
          rcases total_of_pair (plan.scan scenarioATable.rows) scenarioATable.rows (10, "east")
            (f64 "100.50") (f64 "50.25") hscan (by decide) with h2 | h2
          · rw [h2] at hs
            simp only [Option.some.injEq] at hs
            rw [← hs]
            decide
          · rw [h2] at hs
            simp only [Option.some.injEq] at hs
            rw [← hs]
            decide
        cases a
        simp only [AggregatedData.key, Prod.mk.injEq] at h1
        simp only at ht
        simp [h1.1, h1.2, ht]
      · right
        rw [h1] at hs
        have ht : a.TotalSales = .finite false 5277655813324800 (-46) := by
          rw [total_of_single (plan.scan scenarioATable.rows) scenarioATable.rows (20, "west")
            (f64 "75.00") hscan (by decide)] at hs
          simp only [Option.some.injEq] at hs
          rw [← hs]
          decide
        cases a
        simp only [AggregatedData.key, Prod.mk.injEq] at h1
        simp only at ht
        simp [h1.1, h1.2, ht]
    refine (List.perm_ext_iff_of_nodup (List.Nodup.of_map _ hnd) (by decide)).mpr ?_
    intro a
    constructor
    · intro ha
      rcases hval a ha with rfl | rfl <;> simp
    · intro ha
      simp only [List.mem_cons, List.mem_singleton, List.not_mem_nil, or_false] at ha
      have hmem : ∀ k, k ∈ scenarioATable.rows.map Row.key →
          ∃ b ∈ plan.emit gs, b.key = k := by
        intro k hk
        obtain ⟨b, hb, hbk⟩ := List.mem_map.mp ((hkeys k).mpr hk)
        exact ⟨b, hb, hbk⟩
      rcases ha with rfl | rfl
      · obtain ⟨b, hb, hbk⟩ := hmem (10, "east") (by decide)
        rcases hval b hb with rfl | rfl
        · exact hb
        · exact absurd hbk (by decide)
      · obtain ⟨b, hb, hbk⟩ := hmem (20, "west") (by decide)
        rcases hval b hb with rfl | rfl
        · exact absurd hbk (by decide)
        · exact hb

/-- C5, counterexample: two persisted records of one product and region whose
amounts are both the largest finite `float64` form one distinct pair, yet
`aggregateData` returns no entry for it: the sum overflows, the query fails
with `value out of range` (22003) under the plan of stored order, and under no
plan does `aggregateData` return without an error. -/
theorem aggregateData_overflow_fails :
    (overflowTable.rows.map Row.key).dedup.length = 1 ∧
    aggregateData Plan.stored ⟨some overflowTable⟩ = ([], some (.PqError "22003")) ∧
    ¬ ∃ plan : Plan, plan.valid ∧ (aggregateData plan ⟨some overflowTable⟩).2 = none := by
  refine ⟨by decide, aggregateData_overflowTable Plan.stored Plan.stored_valid, ?_⟩
  rintro ⟨plan, hplan, hnone⟩
  rw [aggregateData_overflowTable plan hplan] at hnone
  cases hnone

/-- C5, amended: whatever the plan of the store (how it shares the rows among
its processes, in which order each visits its rows, in which order the groups
are returned), `aggregateData` on a store with the table either fails with the
overflow error 22003 and returns no entries, or returns no error and exactly one
`AggregatedData` per distinct `(ProductID, Region)` pair of the persisted
records: the keys of the entries are distinct and are the pairs present, the
number of entries is the number of distinct pairs, and each `TotalSales` is the
floating-point sum, over the processes in turn, of each process's floating-point
sum of the amounts of its records with that pair, in the order of its visit.
An empty table gives no entries and no error.  When every amount is a whole
number of units `2^E` and the magnitudes of the amounts of each pair sum to less
than `2^53` units, there is no error and each `TotalSales` is the exact sum of
the amounts of its pair, whatever the plan.  The records `(10,east,100.50)`,
`(10,east,50.25)`, `(20,west,75.00)` of scenario A give, whatever the plan, no
error and the two entries `(10,east)` with `150.75 = 5304044092391424 * 2^-45`
and `(20,west)` with `75.00 = 5277655813324800 * 2^-46`, in some order; `main`,
ingesting them from the file into an empty store that evaluates in stored order,
logs them in this order. -/
theorem aggregateData_correct (plan : Plan) (hplan : plan.valid) (t : Table) :
    ((aggregateData plan ⟨some t⟩).2 = none ∨
      aggregateData plan ⟨some t⟩ = ([], some (.PqError "22003"))) ∧
    ((aggregateData plan ⟨some t⟩).2 = none →
      ((aggregateData plan ⟨some t⟩).1.map AggregatedData.key).Nodup ∧
      (∀ k, k ∈ (aggregateData plan ⟨some t⟩).1.map AggregatedData.key ↔
        k ∈ t.rows.map Row.key) ∧
      (aggregateData plan ⟨some t⟩).1.length = (t.rows.map Row.key).dedup.length ∧
      ∀ a ∈ (aggregateData plan ⟨some t⟩).1,
        sumAmounts (partialSums (plan.scan t.rows) a.key) = some a.TotalSales) ∧
    (t.rows = [] → aggregateData plan ⟨some t⟩ = ([], none)) ∧
    (∀ E : Int, -1074 ≤ E → E ≤ 971 →
      (∀ r ∈ t.rows, (gridUnits E r.amount).isSome) →
      (∀ r ∈ t.rows, unitMass E (amountsOf t.rows r.key) < 2 ^ 53) →
      (aggregateData plan ⟨some t⟩).2 = none ∧
      ∀ a ∈ (aggregateData plan ⟨some t⟩).1,
        gridUnits E a.TotalSales = some (unitSum E (amountsOf t.rows a.key))) ∧
    ((aggregateData plan ⟨some scenarioATable⟩).2 = none ∧
      (aggregateData plan ⟨some scenarioATable⟩).1.Perm
        [⟨10, .finite false 5304044092391424 (-45), "east"⟩,
         ⟨20, .finite false 5277655813324800 (-46), "west"⟩]) ∧
    (main (salesFile (headerRow :: scenarioA)) Plan.stored ⟨none⟩).outcome
      = .completed scenarioARecords
          [⟨10, .finite false 5304044092391424 (-45), "east"⟩,
           ⟨20, .finite false 5277655813324800 (-46), "west"⟩] := by
  have hexact : ∀ E : Int, -1074 ≤ E → E ≤ 971 →
      (∀ r ∈ t.rows, (gridUnits E r.amount).isSome) →
      (∀ r ∈ t.rows, unitMass E (amountsOf t.rows r.key) < 2 ^ 53) →
      (aggregateData plan ⟨some t⟩).2 = none ∧
      ∀ a ∈ (aggregateData plan ⟨some t⟩).1,
        gridUnits E a.TotalSales = some (unitSum E (amountsOf t.rows a.key)) :=
    fun E hE1 hE2 hgrid hb =>
      aggregateData_exact plan hplan t E hE1 hE2 hgrid (unitMass_of_rows E t.rows hb)
  have hgroups : (aggregateData plan ⟨some t⟩).2 = none →
      ((aggregateData plan ⟨some t⟩).1.map AggregatedData.key).Nodup ∧
      (∀ k, k ∈ (aggregateData plan ⟨some t⟩).1.map AggregatedData.key ↔
        k ∈ t.rows.map Row.key) ∧
      (aggregateData plan ⟨some t⟩).1.length = (t.rows.map Row.key).dedup.length ∧
      (t.rows = [] → (aggregateData plan ⟨some t⟩).1 = []) ∧
      ∀ a ∈ (aggregateData plan ⟨some t⟩).1,
        sumAmounts (partialSums (plan.scan t.rows) a.key) = some a.TotalSales := by
    intro hnone
    rcases aggregateData_cases plan t with h | ⟨parts, gs, hp, hg, h⟩
    · rw [h] at hnone
      cases hnone
    · rw [h]
      exact aggregateData_groups plan hplan t parts gs hp hg
  refine ⟨?_, ?_, ?_, hexact, aggregateData_scenarioA plan hplan, by decide⟩
  · rcases aggregateData_cases plan t with h | ⟨parts, gs, hp, hg, h⟩
    · exact Or.inr h
    · left
      rw [h]
  · intro hnone
    obtain ⟨h1, h2, h3, -, h5⟩ := hgroups hnone
    exact ⟨h1, h2, h3, h5⟩
  · intro h0
    have hnone := (hexact 0 (by decide) (by decide)
      (fun r hr => by rw [h0] at hr; cases hr)
      (fun r hr => by rw [h0] at hr; cases hr)).1
    have hnil := (hgroups hnone).2.2.2.1 h0
    exact Prod.ext hnil hnone

/-- Witness for C5: the table of scenario A under the plan of stored order; its
amounts are whole numbers of quarters (`E = -2`), `402`, `201` and `300` of
them. -/
theorem aggregateData_correct_witness :
    Plan.stored.valid ∧
    (aggregateData Plan.stored ⟨some scenarioATable⟩).2 = none ∧
    (∀ a ∈ (aggregateData Plan.stored ⟨some scenarioATable⟩).1,
      gridUnits (-2) a.TotalSales
        = some (unitSum (-2) (amountsOf scenarioATable.rows a.key))) ∧
    (aggregateData Plan.stored ⟨some scenarioATable⟩).1.map
      (fun a => (a.key, gridUnits (-2) a.TotalSales))
      = [((10, "east"), some 603), ((20, "west"), some 300)] :=
  ⟨Plan.stored_valid,
   ((aggregateData_correct Plan.stored Plan.stored_valid scenarioATable).2.2.2.1 (-2)
      (by decide) (by decide) (by decide) (by decide)).1,
   ((aggregateData_correct Plan.stored Plan.stored_valid scenarioATable).2.2.2.1 (-2)
      (by decide) (by decide) (by decide) (by decide)).2,
   by decide⟩

/-! ## The conversions: range of `strconv.Atoi`, form of the errors -/

theorem digitVal_le (c : Char) (h : isDigit c = true) : digitVal c ≤ 9 := by
  simp only [isDigit, Bool.and_eq_true, decide_eq_true_eq] at h
  unfold digitVal
  omega

theorem atoiLoop_bound (ds : List Char) :
    ∀ (acc m : Nat), atoiLoop ds acc = some m → m < (acc + 1) * 10 ^ ds.length := by
  induction ds with
  | nil =>
    intro acc m h
    simp only [atoiLoop, Option.some.injEq] at h
    simp
    omega
  | cons c rest ih =>
    intro acc m h
    unfold atoiLoop at h
    by_cases hc : isDigit c = true
    · simp only [hc, if_true] at h
      have h1 := ih _ _ h
      have h2 := digitVal_le c hc
      have h3 : (acc * 10 + digitVal c + 1) * 10 ^ rest.length
          ≤ ((acc + 1) * 10) * 10 ^ rest.length :=
        Nat.mul_le_mul_right _ (by omega)
      calc m < (acc * 10 + digitVal c + 1) * 10 ^ rest.length := h1
        _ ≤ ((acc + 1) * 10) * 10 ^ rest.length := h3
        _ = (acc + 1) * 10 ^ (c :: rest).length := by
          rw [List.length_cons, pow_succ]
          ring
    · simp [hc] at h

theorem length_le_utf8ByteSize_go (cs : List Char) : cs.length ≤ String.utf8ByteSize.go cs := by
  induction cs with
  | nil => simp [String.utf8ByteSize.go]
  | cons c cs ih =>
    have := Char.utf8Size_pos c
    simp only [String.utf8ByteSize.go, List.length_cons]
    omega

theorem length_le_utf8ByteSize (s : String) : s.data.length ≤ s.utf8ByteSize := by
  cases s with
  | mk cs => exact length_le_utf8ByteSize_go cs

theorem strconv_ParseInt_range (s : String) (n : Int) (h : strconv_ParseInt s = .ok n) :
    -(2 ^ 63) ≤ n ∧ n < 2 ^ 63 := by
  unfold strconv_ParseInt at h
  split at h
  · cases h
  · rename_i c rest _
    simp only at h
    split at h
    · cases h
    · cases h
    · rename_i un _
      split_ifs at h with h1 h2
      all_goals simp only [Except.ok.injEq] at h
      all_goals subst h
      all_goals simp only [Bool.and_eq_true, Bool.not_eq_true', decide_eq_true_eq,
        not_and, not_le, not_lt, beq_iff_eq, Bool.not_eq_false'] at *
      · rename_i hc
        have := h2 hc
        omega
      · rename_i hc
        have := h1 (by simpa using hc)
        omega

theorem strconv_Atoi_range (s : String) (n : Int) (h : strconv_Atoi s = .ok n) :
    -(2 ^ 63) ≤ n ∧ n < 2 ^ 63 := by
  unfold strconv_Atoi at h
  simp only at h
  by_cases hlen : 0 < s.utf8ByteSize ∧ s.utf8ByteSize < 19
  · rw [if_pos hlen] at h
    have hl := length_le_utf8ByteSize s
    cases hdata : s.data with
    | nil => rw [hdata] at h; cases h
    | cons c rest =>
      rw [hdata] at h hl
      simp only at h
      have hd : (if (c == '-' || c == '+') = true then rest else c :: rest).length ≤ 18 := by
        split <;> simp only [List.length_cons] at * <;> omega
      generalize (if (c == '-' || c == '+') = true then rest else c :: rest) = digits at h hd
      by_cases hshort : digits.length < 1
      · rw [if_pos hshort] at h; cases h
      · rw [if_neg hshort] at h
        cases hloop : atoiLoop digits 0 with
        | none => rw [hloop] at h; cases h
        | some m =>
          rw [hloop] at h
          simp only [Except.ok.injEq] at h
          have hb := atoiLoop_bound _ 0 m hloop
          have hp : 10 ^ digits.length ≤ 10 ^ 18 := Nat.pow_le_pow_right (by decide) hd
          have hm : (m : Int) < 10 ^ 18 := by
            have : m < 10 ^ 18 := by omega
            exact_mod_cast this
          subst h
          split <;> omega
  · rw [if_neg hlen] at h
    split at h
    · cases h
    · exact strconv_ParseInt_range s n h

theorem strconv_ParseInt_error (s : String) (e : Error) (h : strconv_ParseInt s = .error e) :
    ∃ kind, e = .NumError "ParseInt" s kind := by
  unfold strconv_ParseInt at h
  split at h
  · rename_i hdata
    have hs : s = "" := by
      cases s
      simp_all
    simp only [Except.error.injEq] at h
    exact ⟨.ErrSyntax, by rw [← h, hs]; rfl⟩
  · simp only at h
    split at h
    · simp only [Except.error.injEq] at h
      exact ⟨.ErrRange, h.symm⟩
    · simp only [Except.error.injEq] at h
      exact ⟨.ErrSyntax, h.symm⟩
    · split_ifs at h
      · simp only [Except.error.injEq] at h
        exact ⟨.ErrRange, h.symm⟩
      · simp only [Except.error.injEq] at h
        exact ⟨.ErrRange, h.symm⟩

theorem strconv_Atoi_error (s : String) (e : Error) (h : strconv_Atoi s = .error e) :
    ∃ kind, e = .NumError "Atoi" s kind := by
  unfold strconv_Atoi at h
  simp only at h
  by_cases hlen : 0 < s.utf8ByteSize ∧ s.utf8ByteSize < 19
  · rw [if_pos hlen] at h
    refine ⟨.ErrSyntax, ?_⟩
    cases hdata : s.data with
    | nil =>
      rw [hdata] at h
      simp only [Except.error.injEq] at h
      exact h.symm
    | cons c rest =>
      rw [hdata] at h
      simp only at h
      generalize (if (c == '-' || c == '+') = true then rest else c :: rest) = digits at h
      by_cases hshort : digits.length < 1
      · rw [if_pos hshort] at h
        simp only [Except.error.injEq] at h
        exact h.symm
      · rw [if_neg hshort] at h
        cases hloop : atoiLoop digits 0 with
        | none =>
          rw [hloop] at h
          simp only [Except.error.injEq] at h
          exact h.symm
        | some m => rw [hloop] at h; cases h
  · rw [if_neg hlen] at h
    split at h
    · rename_i fn num kind hp
      obtain ⟨k, hk⟩ := strconv_ParseInt_error s _ hp
      simp only [Error.NumError.injEq] at hk
      simp only [Except.error.injEq] at h
      exact ⟨kind, by rw [← h, hk.2.1]⟩
    · rename_i r hr
      obtain ⟨k, hk⟩ := strconv_ParseInt_error s _ h
      exact absurd (hk ▸ h) (hr _ _ _)

theorem strconv_ParseFloat_error (s : String) (e : Error) (h : strconv_ParseFloat s = .error e) :
    ∃ kind, e = .NumError "ParseFloat" s kind := by
  unfold strconv_ParseFloat at h
  split at h
  · split_ifs at h
    simp only [Except.error.injEq] at h
    exact ⟨.ErrSyntax, h.symm⟩
  · split at h
    · simp only [Except.error.injEq] at h
      exact ⟨.ErrSyntax, h.symm⟩
    · simp only at h
      split at h
      · simp only [Except.error.injEq] at h
        exact ⟨.ErrRange, h.symm⟩
      · cases h

theorem time_Parse_error (value : String) (e : Error) (h : time_Parse value = .error e) :
    e = .TimeParseError RFC3339 value := by
  unfold time_Parse at h
  split at h
  · simp only [Except.error.injEq] at h
    exact h.symm
  · split at h
    · simp only [Except.error.injEq] at h
      exact h.symm
    · split_ifs at h
      simp only [Except.error.injEq] at h
      exact h.symm

/-! ## C6: what a conversion error carries -/

/-- C6, as stated, fails: the bad text `abc` in the id column of data row 1, in
the id column of data row 2 and in the productId column of data row 1 yields
one and the same error value, which names neither a row nor a column; in the
amount column it yields the same error in data row 1 and in data row 2. -/
theorem parseCSV_errors_do_not_locate :
    parseCSV (salesFile [headerRow, ["abc", "2024-01-01", "100.50", "10", "east"]])
        "sales_data.csv"
      = .returned [] (some (.NumError "Atoi" "abc" .ErrSyntax)) ∧
    parseCSV (salesFile [headerRow, ["1", "2024-01-01", "100.50", "10", "east"],
                         ["abc", "2024-01-01", "100.50", "10", "east"]]) "sales_data.csv"
      = .returned [] (some (.NumError "Atoi" "abc" .ErrSyntax)) ∧
    parseCSV (salesFile [headerRow, ["1", "2024-01-01", "100.50", "abc", "east"]])
        "sales_data.csv"
      = .returned [] (some (.NumError "Atoi" "abc" .ErrSyntax)) ∧
    parseCSV (salesFile [headerRow, ["1", "2024-01-01", "abc", "10", "east"]])
        "sales_data.csv"
      = .returned [] (some (.NumError "ParseFloat" "abc" .ErrSyntax)) ∧
    parseCSV (salesFile [headerRow, ["1", "2024-01-01", "100.50", "10", "east"],
                         ["2", "2024-01-01", "abc", "10", "east"]]) "sales_data.csv"
      = .returned [] (some (.NumError "ParseFloat" "abc" .ErrSyntax)) := by
  decide

/-- C6, amended: whenever `parseCSV` rejects a batch because a column of a data
row failed its type conversion, the returned error is the error value of the
conversion function applied to the text `t` of that field, and is built from
that text alone: `NumError{"Atoi", t}` for the id and the productId column
alike, `NumError{"ParseFloat", t}` for the amount column, and the
`time.ParseError` for the layout and the value `t + "T00:00:00Z"` for the date
column.  It carries neither a row index nor a column name.  (The other error
of a batch with a header is the field-count error of the reader.) -/
theorem parseCSV_error_is_conversion_error (fs : FileSystem) (filePath : String)
    (header : List String) (rows : File) (recs : List SalesData) (err : Error)
    (hfile : fs filePath = some (header :: rows))
    (hparse : parseCSV fs filePath = .returned recs (some err)) :
    (∃ k, err = .ErrFieldCount k) ∨
    ∃ row ∈ rows, ∃ t,
      ((row[0]? = some t ∨ row[3]? = some t) ∧ strconv_Atoi t = .error err ∧
        ∃ kind, err = .NumError "Atoi" t kind) ∨
      (row[2]? = some t ∧ strconv_ParseFloat t = .error err ∧
        ∃ kind, err = .NumError "ParseFloat" t kind) ∨
      (row[1]? = some t ∧ time_Parse (t ++ "T00:00:00Z") = .error err ∧
        err = .TimeParseError RFC3339 (t ++ "T00:00:00Z")) := by
  rw [parseCSV_eq_loop fs filePath header rows hfile] at hparse
  rcases (loop_returned_err rows _ _ _ _ hparse).2 with hcount | ⟨row, hmem, hfail⟩
  · exact Or.inl hcount
  · refine Or.inr ⟨row, hmem, ?_⟩
    rcases rowResult_fail row err hfail with ⟨t, h1, h2⟩ | ⟨t, h1, h2⟩ | ⟨t, h1, h2⟩ | ⟨t, h1, h2⟩
    · exact ⟨t, Or.inl ⟨Or.inl h1, h2, strconv_Atoi_error t err h2⟩⟩
    · exact ⟨t, Or.inr (Or.inr ⟨h1, h2, time_Parse_error _ err h2⟩)⟩
    · exact ⟨t, Or.inr (Or.inl ⟨h1, h2, strconv_ParseFloat_error t err h2⟩)⟩
    · exact ⟨t, Or.inl ⟨Or.inr h1, h2, strconv_Atoi_error t err h2⟩⟩

/-- Witness for C6: the amount `abc` in the second data row. -/
theorem parseCSV_error_is_conversion_error_witness :
    (∃ k, Error.NumError "ParseFloat" "abc" .ErrSyntax = .ErrFieldCount k) ∨
    ∃ row ∈ ([["1", "2024-01-01", "100.50", "10", "east"],
              ["2", "2024-01-01", "abc", "10", "east"]] : File), ∃ t,
      ((row[0]? = some t ∨ row[3]? = some t) ∧
        strconv_Atoi t = .error (.NumError "ParseFloat" "abc" .ErrSyntax) ∧
        ∃ kind, Error.NumError "ParseFloat" "abc" .ErrSyntax = .NumError "Atoi" t kind) ∨
      (row[2]? = some t ∧
        strconv_ParseFloat t = .error (.NumError "ParseFloat" "abc" .ErrSyntax) ∧
        ∃ kind, Error.NumError "ParseFloat" "abc" .ErrSyntax = .NumError "ParseFloat" t kind) ∨
      (row[1]? = some t ∧
        time_Parse (t ++ "T00:00:00Z") = .error (.NumError "ParseFloat" "abc" .ErrSyntax) ∧
        Error.NumError "ParseFloat" "abc" .ErrSyntax
          = .TimeParseError RFC3339 (t ++ "T00:00:00Z")) :=
  parseCSV_error_is_conversion_error
    (salesFile [headerRow, ["1", "2024-01-01", "100.50", "10", "east"],
                ["2", "2024-01-01", "abc", "10", "east"]]) "sales_data.csv" headerRow
    [["1", "2024-01-01", "100.50", "10", "east"], ["2", "2024-01-01", "abc", "10", "east"]]
    [] (.NumError "ParseFloat" "abc" .ErrSyntax) rfl (by decide)

/-! ## C7: the region field -/

theorem Read_mapRegion (r : Reader) (f : String → String) (line : List String) :
    r.Read (mapRegion f line) =
      match r.Read line with
      | (.ok _, r1) => (.ok (mapRegion f line), r1)
      | (.error e, r1) => (.error e, r1) := by
  have hlen : (mapRegion f line).length = line.length := by
    unfold mapRegion
    split <;> simp
  unfold Reader.Read
  simp only [hlen]
  split_ifs <;> rfl

theorem rowResult_mapRegion (f : String → String) (line : List String) :
    rowResult (mapRegion f line) =
      match rowResult line with
      | .sale s => .sale (s.mapRegion f)
      | .fail e => .fail e
      | .panic i n => .panic i n := by
  by_cases hlen : line.length < 5
  · have hid : mapRegion f line = line := by
      match line, hlen with
      | [], _ => rfl
      | [_], _ => rfl
      | [_, _], _ => rfl
      | [_, _, _], _ => rfl
      | [_, _, _, _], _ => rfl
    rw [hid]
    cases h : rowResult line with
    | sale s => exact absurd h (rowResult_short line hlen s)
    | fail e => rfl
    | panic i n => rfl
  · have h5 : 5 ≤ line.length := by omega
    match line, h5 with
    | f0 :: f1 :: f2 :: f3 :: f4 :: tail, _ =>
      simp only [mapRegion, rowResult_cons5]
      cases strconv_Atoi f0 <;> cases time_Parse (f1 ++ "T00:00:00Z") <;>
        cases strconv_ParseFloat f2 <;> cases strconv_Atoi f3 <;> rfl

theorem loop_mapRegion (f : String → String) (rows : File) :
    ∀ (reader : Reader) (acc : List SalesData),
      parseCSV.loop reader (rows.map (mapRegion f)) (acc.map (SalesData.mapRegion f)) =
        match parseCSV.loop reader rows acc with
        | .returned recs err => .returned (recs.map (SalesData.mapRegion f)) err
        | .panicked i n => .panicked i n := by
  induction rows with
  | nil =>
    intro reader acc
    simp [loop_nil]
  | cons line rest ih =>
    intro reader acc
    rw [List.map_cons, loop_cons, loop_cons, Read_mapRegion]
    rcases Read_cases reader line with ⟨r1, hr⟩ | ⟨k, r1, hr⟩
    · rw [hr]
      simp only [rowResult_mapRegion]
      cases hrow : rowResult line with
      | sale s =>
        simp only
        have := ih r1 (acc ++ [s])
        simpa using this
      | fail e => simp
      | panic i n => simp
    · rw [hr]
      simp

theorem sameIds_refl (db : DB) : sameIds db db := by
  unfold sameIds
  cases db.sales_data <;> simp

theorem insertSalesData_sameIds (db1 db2 : DB) (s1 s2 : SalesData) (h : sameIds db1 db2)
    (hp : s1.ProductID = s2.ProductID)
    (hr : storableText s2.Region = storableText s1.Region) :
    (insertSalesData db1 s1).2 = (insertSalesData db2 s2).2 ∧
    sameIds (insertSalesData db1 s1).1 (insertSalesData db2 s2).1 := by
  unfold sameIds at h
  cases h1 : db1.sales_data with
  | none =>
    cases h2 : db2.sales_data with
    | none =>
      simp only [insertSalesData, h1, h2, true_and]
      simp [sameIds, h1, h2]
    | some t2 => simp [h1, h2] at h
  | some t1 =>
    cases h2 : db2.sales_data with
    | none => simp [h1, h2] at h
    | some t2 =>
      rw [h1, h2] at h
      obtain ⟨hseq, hids⟩ := h
      have hex : (∃ r ∈ t1.rows, r.id = ((t1.seq + 1 : Nat) : Int)) ↔
          (∃ r ∈ t2.rows, r.id = ((t1.seq + 1 : Nat) : Int)) := by
        have e1 : ∀ (t : Table) (n : Int), (∃ r ∈ t.rows, r.id = n) ↔ n ∈ t.rows.map Row.id := by
          intro t n
          simp [List.mem_map]
        rw [e1, e1, hids]
      simp only [insertSalesData, h1, h2]
      rw [← hp, ← hseq, hr]
      by_cases c1 : s1.ProductID < -(maxInt4 + 1) ∨ maxInt4 < s1.ProductID
      · rw [if_pos c1, if_pos c1]
        simp [sameIds, h1, h2, hseq, hids]
      · rw [if_neg c1, if_neg c1]
        by_cases c0 : storableText s1.Region = false
        · rw [if_pos c0, if_pos c0]
          simp [sameIds, h1, h2, hseq, hids]
        rw [if_neg c0, if_neg c0]
        by_cases c2 : maxInt4 ≤ (t1.seq : Int)
        · rw [if_pos c2, if_pos c2]
          simp [sameIds, h1, h2, hseq, hids]
        · rw [if_neg c2, if_neg c2]
          by_cases c3 : ∃ r ∈ t1.rows, r.id = ((t1.seq + 1 : Nat) : Int)
          · rw [if_pos c3, if_pos (hex.mp c3)]
            simp [sameIds, hids]
          · rw [if_neg c3, if_neg (fun h => c3 (hex.mpr h))]
            simp [sameIds, hids]

theorem insertLoop_cons (db : DB) (calls : List SalesData) (sale : SalesData)
    (rest : List SalesData) :
    main.insertLoop db calls (sale :: rest) =
      match (insertSalesData db sale).2 with
      | some err => ((insertSalesData db sale).1, calls ++ [sale], some err)
      | none => main.insertLoop (insertSalesData db sale).1 (calls ++ [sale]) rest := by
  rw [main.insertLoop]
  rcases h : insertSalesData db sale with ⟨db1, _ | err⟩ <;> rfl

theorem insertLoop_mapRegion (f : String → String) (sales : List SalesData) :
    ∀ (db1 db2 : DB) (calls : List SalesData), sameIds db1 db2 →
      (∀ s ∈ sales, storableText (f s.Region) = storableText s.Region) →
      (main.insertLoop db2 (calls.map (SalesData.mapRegion f))
          (sales.map (SalesData.mapRegion f))).2.1
        = (main.insertLoop db1 calls sales).2.1.map (SalesData.mapRegion f) := by
  induction sales with
  | nil =>
    intro db1 db2 calls _ _
    rfl
  | cons s rest ih =>
    intro db1 db2 calls h hf
    obtain ⟨herr, hsame⟩ := insertSalesData_sameIds db1 db2 s (s.mapRegion f) h rfl
      (hf s (List.mem_cons_self _ _))
    rw [List.map_cons, insertLoop_cons, insertLoop_cons, ← herr]
    cases hs : (insertSalesData db1 s).2 with
    | some err => simp
    | none =>
      have := ih _ _ (calls ++ [s]) hsame (fun q hq => hf q (List.mem_cons_of_mem _ hq))
      simpa using this

theorem insertLoop_prefix (sales : List SalesData) :
    ∀ (db : DB) (calls : List SalesData),
      ∃ l, l <+: sales ∧ (main.insertLoop db calls sales).2.1 = calls ++ l ∧
        ((main.insertLoop db calls sales).2.2 = none → l = sales) := by
  induction sales with
  | nil =>
    intro db calls
    exact ⟨[], List.prefix_refl _, by simp [main.insertLoop], fun _ => rfl⟩
  | cons s rest ih =>
    intro db calls
    rw [insertLoop_cons]
    cases hs : (insertSalesData db s).2 with
    | some err =>
      refine ⟨[s], ?_, rfl, fun h => by cases h⟩
      exact List.prefix_iff_eq_append.mpr (by simp)
    | none =>
      obtain ⟨l, hl, heq, hall⟩ := ih (insertSalesData db s).1 (calls ++ [s])
      refine ⟨s :: l, ?_, ?_, ?_⟩
      · obtain ⟨t, ht⟩ := hl
        exact ⟨t, by simp [ht]⟩
      · simp only
        rw [heq]
        simp
      · intro h
        simp only at h
        rw [hall h]

theorem main_inserted (fs : FileSystem) (plan : Plan) (db : DB) (recs : List SalesData)
    (hparse : parseCSV fs "sales_data.csv" = .returned recs none) :
    (main fs plan db).inserted = (main.insertLoop (createTable db) [] recs).2.1 ∧
    ((∃ sales aggregated, (main fs plan db).outcome = .completed sales aggregated) →
      (main.insertLoop (createTable db) [] recs).2.2 = none) := by
  simp only [main, hparse]
  rcases hl : main.insertLoop (createTable db) [] recs with ⟨db1, calls, _ | err⟩
  · simp only
    rcases ha : aggregateData plan db1 with ⟨agg, _ | err⟩ <;> simp
  · simp

/-- C7, as stated, fails: data rows whose region field is empty or consists
only of blanks are accepted by `parseCSV`, and `main` hands the records with
these regions to `insertSalesData`. -/
theorem parseCSV_accepts_blank_region :
    parseCSV (salesFile [headerRow, ["1", "2024-01-01", "100.50", "10", ""],
                         ["2", "2024-01-02", "50.25", "10", "   "]]) "sales_data.csv"
      = .returned [⟨1, ⟨2024, 1, 1, 0, 0, 0, 0, .UTC⟩, f64 "100.50", 10, ""⟩,
                   ⟨2, ⟨2024, 1, 2, 0, 0, 0, 0, .UTC⟩, f64 "50.25", 10, "   "⟩] none ∧
    (main (salesFile [headerRow, ["1", "2024-01-01", "100.50", "10", ""],
                      ["2", "2024-01-02", "50.25", "10", "   "]]) Plan.stored ⟨none⟩).inserted
      = [⟨1, ⟨2024, 1, 1, 0, 0, 0, 0, .UTC⟩, f64 "100.50", 10, ""⟩,
         ⟨2, ⟨2024, 1, 2, 0, 0, 0, 0, .UTC⟩, f64 "50.25", 10, "   "⟩] := by
  decide

/-- C7, amended: the region field is passed through without any check: every
record returned by `parseCSV` has as `Region` the region field of its data row,
unchanged, and an accepted batch stays accepted, with the same records up to
`Region`, when its region fields are replaced by any texts whatever (the empty
text and blank text included).  In `main`, the records handed to
`insertSalesData` are the returned records in order up to the first insert that
fails (all of them when the run completes), and they are the same records, up
to `Region`, when the region fields of the file are replaced by any texts that
the store accepts or refuses as it does the texts they replace (the empty text
and blank text are accepted): no record is withheld from `insertSalesData` for
an empty or blank region. -/
theorem parseCSV_region_pass_through (fs : FileSystem) (filePath : String)
    (header : List String) (rows : File) (recs : List SalesData)
    (hfile : fs filePath = some (header :: rows))
    (hparse : parseCSV fs filePath = .returned recs none) :
    List.Forall₂ (fun row s => row[4]? = some s.Region) rows recs ∧
    (∀ f : String → String,
      parseCSV (salesFile (header :: rows.map (mapRegion f))) "sales_data.csv"
        = .returned (recs.map (SalesData.mapRegion f)) none) ∧
    (∀ (plan : Plan) (db : DB),
      (main (salesFile (header :: rows)) plan db).inserted <+: recs ∧
      ((∃ sales aggregated,
          (main (salesFile (header :: rows)) plan db).outcome = .completed sales aggregated) →
        (main (salesFile (header :: rows)) plan db).inserted = recs)) ∧
    ∀ (f : String → String) (plan : Plan) (db : DB),
      (∀ s ∈ recs, storableText (f s.Region) = storableText s.Region) →
      (main (salesFile (header :: rows.map (mapRegion f))) plan db).inserted
        = (main (salesFile (header :: rows)) plan db).inserted.map (SalesData.mapRegion f) := by
  have hloop := hparse
  rw [parseCSV_eq_loop fs filePath header rows hfile] at hloop
  have hmap : ∀ f : String → String,
      parseCSV (salesFile (header :: rows.map (mapRegion f))) "sales_data.csv"
        = .returned (recs.map (SalesData.mapRegion f)) none := by
    intro f
    rw [parseCSV_eq_loop (salesFile (header :: rows.map (mapRegion f))) "sales_data.csv" header
      (rows.map (mapRegion f)) (by simp [salesFile])]
    have := loop_mapRegion f rows ⟨(header.length : Int), 1⟩ []
    rw [hloop] at this
    simpa using this
  have hsales : parseCSV (salesFile (header :: rows)) "sales_data.csv" = .returned recs none := by
    rw [parseCSV_eq_loop (salesFile (header :: rows)) "sales_data.csv" header rows
      (by simp [salesFile])]
    exact hloop
  refine ⟨?_, hmap, ?_, ?_⟩
  · obtain ⟨new, hnew, hall⟩ := loop_returned_ok rows _ _ _ hloop
    rw [List.nil_append] at hnew
    subst hnew
    refine hall.imp (fun row s h => ?_)
    obtain ⟨f0, f1, f2, f3, f4, tail, rfl, -, -, -, -, h4⟩ := (rowResult_sale_iff row s).mp h
    simp [h4]
  · intro plan db
    obtain ⟨hins, hdone⟩ := main_inserted _ plan db recs hsales
    obtain ⟨l, hl, heq, hall⟩ := insertLoop_prefix recs (createTable db) []
    rw [List.nil_append] at heq
    rw [hins, heq]
    exact ⟨hl, fun h => hall (hdone h)⟩
  · intro f plan db hf
    rw [(main_inserted _ plan db recs hsales).1,
      (main_inserted _ plan db _ (hmap f)).1]
    have := insertLoop_mapRegion f recs (createTable db) (createTable db) []
      (sameIds_refl _) hf
    simpa using this

/-- Witness for C7: scenario A, and its regions replaced by the empty text,
ingested into an empty store. -/
theorem parseCSV_region_pass_through_witness :
    List.Forall₂ (fun (row : List String) (s : SalesData) => row[4]? = some s.Region) scenarioA
      scenarioARecords ∧
    parseCSV (salesFile (headerRow :: scenarioA.map (mapRegion fun _ => ""))) "sales_data.csv"
      = .returned (scenarioARecords.map (SalesData.mapRegion fun _ => "")) none ∧
    (main (salesFile (headerRow :: scenarioA)) Plan.stored ⟨none⟩).inserted <+: scenarioARecords ∧
    (main (salesFile (headerRow :: scenarioA.map (mapRegion fun _ => ""))) Plan.stored
        ⟨none⟩).inserted
      = (main (salesFile (headerRow :: scenarioA)) Plan.stored ⟨none⟩).inserted.map
          (SalesData.mapRegion fun _ => "") :=
  ⟨(parseCSV_region_pass_through (salesFile (headerRow :: scenarioA)) "sales_data.csv" headerRow
      scenarioA scenarioARecords rfl (by decide)).1,
   (parseCSV_region_pass_through (salesFile (headerRow :: scenarioA)) "sales_data.csv" headerRow
      scenarioA scenarioARecords rfl (by decide)).2.1 (fun _ => ""),
   ((parseCSV_region_pass_through (salesFile (headerRow :: scenarioA)) "sales_data.csv" headerRow
      scenarioA scenarioARecords rfl (by decide)).2.2.1 Plan.stored ⟨none⟩).1,
   (parseCSV_region_pass_through (salesFile (headerRow :: scenarioA)) "sales_data.csv" headerRow
      scenarioA scenarioARecords rfl (by decide)).2.2.2 (fun _ => "") Plan.stored ⟨none⟩
      (by decide)⟩

/-! ## C8: sign of the identifiers -/

/-- C8, as stated, fails: a data row whose id is `0` and whose productId is
`-5` is accepted, with `ID = 0` and `ProductID = -5`. -/
theorem parseCSV_accepts_nonpositive_ids :
    parseCSV (salesFile [headerRow, ["0", "2024-01-01", "100.50", "-5", "east"]])
        "sales_data.csv"
      = .returned [⟨0, ⟨2024, 1, 1, 0, 0, 0, 0, .UTC⟩, f64 "100.50", -5, "east"⟩] none := by
  decide

/-- C8, amended: every record returned by a successful `parseCSV` has as `ID`
and `ProductID` the integers that `strconv.Atoi` reads from the id and
productId fields of its data row, which lie between `-2^63` and `2^63 - 1`;
their sign is not constrained: the texts `0` and `-5` are read as 0 and -5. -/
theorem parseCSV_ids_are_signed_integers (fs : FileSystem) (filePath : String)
    (header : List String) (rows : File) (recs : List SalesData)
    (hfile : fs filePath = some (header :: rows))
    (hparse : parseCSV fs filePath = .returned recs none) :
    List.Forall₂
      (fun row s => ∃ t0 t3, row[0]? = some t0 ∧ row[3]? = some t3 ∧
        strconv_Atoi t0 = .ok s.ID ∧ strconv_Atoi t3 = .ok s.ProductID ∧
        -(2 ^ 63) ≤ s.ID ∧ s.ID < 2 ^ 63 ∧ -(2 ^ 63) ≤ s.ProductID ∧ s.ProductID < 2 ^ 63)
      rows recs ∧
    strconv_Atoi "0" = .ok 0 ∧ strconv_Atoi "-5" = .ok (-5) := by
  rw [parseCSV_eq_loop fs filePath header rows hfile] at hparse
  obtain ⟨new, hnew, hall⟩ := loop_returned_ok rows _ _ _ hparse
  rw [List.nil_append] at hnew
  subst hnew
  refine ⟨hall.imp (fun row s h => ?_), by decide, by decide⟩
  obtain ⟨f0, f1, f2, f3, f4, tail, rfl, h0, -, -, h3, -⟩ := (rowResult_sale_iff row s).mp h
  have r0 := strconv_Atoi_range f0 _ h0
  have r3 := strconv_Atoi_range f3 _ h3
  exact ⟨f0, f3, by simp, by simp, h0, h3, r0.1, r0.2, r3.1, r3.2⟩

/-- Witness for C8: a batch with the ids 0 and -7 and the productIds -5 and 10. -/
theorem parseCSV_ids_are_signed_integers_witness :
    List.Forall₂
      (fun (row : List String) (s : SalesData) => ∃ t0 t3, row[0]? = some t0 ∧ row[3]? = some t3 ∧
        strconv_Atoi t0 = .ok s.ID ∧ strconv_Atoi t3 = .ok s.ProductID ∧
        -(2 ^ 63) ≤ s.ID ∧ s.ID < 2 ^ 63 ∧ -(2 ^ 63) ≤ s.ProductID ∧ s.ProductID < 2 ^ 63)
      [["0", "2024-01-01", "100.50", "-5", "east"], ["-7", "2024-01-02", "50.25", "10", "east"]]
      [⟨0, ⟨2024, 1, 1, 0, 0, 0, 0, .UTC⟩, f64 "100.50", -5, "east"⟩,
       ⟨-7, ⟨2024, 1, 2, 0, 0, 0, 0, .UTC⟩, f64 "50.25", 10, "east"⟩] ∧
    strconv_Atoi "0" = .ok 0 ∧ strconv_Atoi "-5" = .ok (-5) :=
  parseCSV_ids_are_signed_integers
    (salesFile [headerRow, ["0", "2024-01-01", "100.50", "-5", "east"],
                ["-7", "2024-01-02", "50.25", "10", "east"]]) "sales_data.csv" headerRow
    [["0", "2024-01-01", "100.50", "-5", "east"], ["-7", "2024-01-02", "50.25", "10", "east"]]
    _ rfl (by decide)

/-! ## C9: what `insertSalesData` writes -/

/-- C9, as stated, fails: a record with the source id 42, inserted into the
freshly created table, is written with the id 1 that the store generates, and
the scan of `getSalesData` reads it back with `ID = 1`. -/
theorem insertSalesData_drops_source_id :
    (insertSalesData (createTable ⟨none⟩)
        ⟨42, ⟨2024, 1, 1, 0, 0, 0, 0, .UTC⟩, f64 "100.50", 10, "east"⟩).1.records
      = [⟨1, ⟨2024, 1, 1, 0, 0, 0, 0, .UTC⟩, f64 "100.50", 10, "east"⟩] ∧
    getSalesData (insertSalesData (createTable ⟨none⟩)
        ⟨42, ⟨2024, 1, 1, 0, 0, 0, 0, .UTC⟩, f64 "100.50", 10, "east"⟩).1
      = ([⟨1, ⟨2024, 1, 1, 0, 0, 0, 0, .UTC⟩, f64 "100.50", 10, "east"⟩], none) := by
  decide

/-- C9, amended: for every `SalesData` record `s` handed to `insertSalesData`
whose `ProductID` fits the `INT` column and whose `Region` holds no character
NUL, the table existing, its sequence not being exhausted and no stored row
having the next value of the sequence as its id, the row written to the store
has the id generated by the store (that next value of the sequence of the
`SERIAL` column, whatever `s.ID` is) together with `s.Date`, `s.Amount`,
`s.ProductID` and `s.Region`, so that the record read back by the scan of
`getSalesData` equals `s` in every field but `ID`, which is the generated id. -/
theorem insertSalesData_writes_generated_id (t : Table) (s : SalesData)
    (hproduct : -(maxInt4 + 1) ≤ s.ProductID ∧ s.ProductID ≤ maxInt4)
    (hregion : storableText s.Region = true)
    (hseq : (t.seq : Int) < maxInt4)
    (hfresh : ∀ r ∈ t.rows, r.id ≠ ((t.seq + 1 : Nat) : Int)) :
    insertSalesData ⟨some t⟩ s
      = (⟨some ⟨t.rows ++ [⟨(t.seq + 1 : Nat), s.Date, s.Amount, s.ProductID, s.Region⟩],
               t.seq + 1⟩⟩, none) ∧
    getSalesData (insertSalesData ⟨some t⟩ s).1
      = ((getSalesData ⟨some t⟩).1 ++ [{ s with ID := (t.seq + 1 : Nat) }], none) := by
  have h1 : ¬ (s.ProductID < -(maxInt4 + 1) ∨ maxInt4 < s.ProductID) := by omega
  have h0 : ¬ (storableText s.Region = false) := by simp [hregion]
  have h2 : ¬ (maxInt4 ≤ (t.seq : Int)) := by omega
  have h3 : ¬ ∃ r ∈ t.rows, r.id = ((t.seq + 1 : Nat) : Int) := by
    rintro ⟨r, hr, hid⟩
    exact hfresh r hr hid
  have hins : insertSalesData ⟨some t⟩ s
      = (⟨some ⟨t.rows ++ [⟨(t.seq + 1 : Nat), s.Date, s.Amount, s.ProductID, s.Region⟩],
               t.seq + 1⟩⟩, none) := by
    unfold insertSalesData
    simp only [if_neg h1, if_neg h0, if_neg h2, if_neg h3]
  refine ⟨hins, ?_⟩
  rw [hins]
  simp [getSalesData]

/-- Witness for C9: the record with the source id 42 inserted after two rows. -/
theorem insertSalesData_writes_generated_id_witness :
    insertSalesData ⟨some storedTwo⟩
        ⟨42, ⟨2024, 1, 1, 0, 0, 0, 0, .UTC⟩, f64 "75.00", 20, "west"⟩
      = (⟨some ⟨storedTwo.rows ++
                [⟨(storedTwo.seq + 1 : Nat), ⟨2024, 1, 1, 0, 0, 0, 0, .UTC⟩, f64 "75.00", 20,
                  "west"⟩],
               storedTwo.seq + 1⟩⟩, none) ∧
    getSalesData (insertSalesData ⟨some storedTwo⟩
        ⟨42, ⟨2024, 1, 1, 0, 0, 0, 0, .UTC⟩, f64 "75.00", 20, "west"⟩).1
      = ((getSalesData ⟨some storedTwo⟩).1 ++
          [{ (⟨42, ⟨2024, 1, 1, 0, 0, 0, 0, .UTC⟩, f64 "75.00", 20, "west"⟩ : SalesData) with
             ID := (storedTwo.seq + 1 : Nat) }], none) :=
  insertSalesData_writes_generated_id storedTwo
    ⟨42, ⟨2024, 1, 1, 0, 0, 0, 0, .UTC⟩, f64 "75.00", 20, "west"⟩ (by decide) (by decide)
    (by decide) (by decide)

/-! ## C10: the date field -/

theorem isDigit_ne_T (c : Char) (h : isDigit c = true) : c ≠ 'T' := by
  rintro rfl
  exact absurd h (by decide)

theorem getnum_consumes (s : List Char) (fixed : Bool) (v : Nat) (rest : List Char)
    (h : getnum s fixed = some (v, rest)) :
    ∃ pre, s = pre ++ rest ∧ (∀ c ∈ pre, isDigit c = true) := by
  unfold getnum at h
  match s with
  | [] => simp at h
  | [c0] =>
    by_cases h0 : isDigit c0 = true <;> cases fixed <;> simp [h0] at h
    obtain ⟨-, rfl⟩ := h
    exact ⟨[c0], rfl, by simpa using h0⟩
  | c0 :: c1 :: rest1 =>
    by_cases h0 : isDigit c0 = true <;> by_cases h1 : isDigit c1 = true <;> cases fixed <;>
      simp [h0, h1] at h
    · obtain ⟨-, rfl⟩ := h
      exact ⟨[c0, c1], rfl, by simp [h0, h1]⟩
    · obtain ⟨-, rfl⟩ := h
      exact ⟨[c0, c1], rfl, by simp [h0, h1]⟩
    · obtain ⟨-, rfl⟩ := h
      exact ⟨[c0], rfl, by simpa using h0⟩

theorem skip_consumes (value : List Char) (lit : Char) (rest : List Char)
    (h : skip value lit = some rest) : value = lit :: rest := by
  unfold skip at h
  match value with
  | [] => simp at h
  | c :: tail =>
    by_cases hc : c = lit <;> simp [hc] at h
    rw [hc, h]

theorem getnum_fixed_digits (a b : Char) (v : Nat) (rest : List Char)
    (h : getnum [a, b] true = some (v, rest)) : isDigit a = true ∧ isDigit b = true := by
  unfold getnum at h
  by_cases ha : isDigit a = true <;> by_cases hb : isDigit b = true <;> simp [ha, hb] at h
  exact ⟨ha, hb⟩

theorem parseZone_consumes (value : List Char) (loc : Location) (rest : List Char)
    (h : parseZone value = some (loc, rest)) :
    ∃ pre, value = pre ++ rest ∧ 'T' ∉ pre := by
  unfold parseZone at h
  split at h
  · simp only [Option.some.injEq, Prod.mk.injEq] at h
    obtain ⟨-, rfl⟩ := h
    exact ⟨['Z'], rfl, by decide⟩
  · rename_i sign h0 h1 c m0 m1 tail _
    by_cases hc : c = ':'
    · simp only [hc, ne_eq, not_true_eq_false, if_false] at h
      cases hh : getnum [h0, h1] true with
      | none => simp [hh] at h
      | some p1 =>
      cases hm : getnum [m0, m1] true with
      | none => simp [hh, hm] at h
      | some p2 =>
        obtain ⟨hr, r1⟩ := p1
        obtain ⟨mm, r2⟩ := p2
        have e1 := getnum_fixed_digits _ _ _ _ hh
        have e2 := getnum_fixed_digits _ _ _ _ hm
        simp only [hh, hm] at h
        have hsign : sign ≠ 'T' ∧ rest = tail := by
          by_cases hrange : hr > 24 ∨ mm > 60
          · simp [hrange] at h
          · simp only [hrange, if_false] at h
            by_cases s1 : sign = '+'
            · simp only [s1, if_true, Option.some.injEq, Prod.mk.injEq] at h
              exact ⟨by rw [s1]; decide, h.2.symm⟩
            · by_cases s2 : sign = '-'
              · rw [if_neg s1, if_pos s2] at h
                simp only [Option.some.injEq, Prod.mk.injEq] at h
                exact ⟨by rw [s2]; decide, h.2.symm⟩
              · simp [s1, s2] at h
        refine ⟨[sign, h0, h1, c, m0, m1], by simp [hsign.2], ?_⟩
        simp only [List.mem_cons, List.mem_singleton, List.not_mem_nil, or_false, not_or]
        refine ⟨Ne.symm hsign.1, Ne.symm (isDigit_ne_T _ e1.1), Ne.symm (isDigit_ne_T _ e1.2),
          by rw [hc]; decide, Ne.symm (isDigit_ne_T _ e2.1), Ne.symm (isDigit_ne_T _ e2.2)⟩
    · simp [hc] at h
  · cases h

theorem parseFraction_consumes (value : List Char) :
    ∃ pre, value = pre ++ (parseFraction value).2 ∧ 'T' ∉ pre := by
  unfold parseFraction
  match value with
  | [] => exact ⟨[], rfl, by simp⟩
  | [_] => exact ⟨[], rfl, by simp⟩
  | p :: d :: rest =>
    by_cases hc : (p = '.' ∨ p = ',') ∧ isDigit d = true
    · simp only [hc, and_self, if_true]
      refine ⟨p :: (d :: rest).takeWhile isDigit, ?_, ?_⟩
      · rw [List.cons_append, List.takeWhile_append_dropWhile]
      · simp only [List.mem_cons, not_or]
        refine ⟨?_, fun hmem => isDigit_ne_T _ (List.mem_takeWhile_imp hmem) rfl⟩
        rcases hc.1 with rfl | rfl <;> decide
    · simp only [hc, if_false]
      exact ⟨[], rfl, by simp⟩

theorem parseClock_no_T (value : List Char) (r : Nat × Nat × Nat × Nat × Location)
    (h : parseClock value = some r) : 'T' ∉ value := by
  unfold parseClock at h
  cases h1 : getnum value false with
  | none => simp [h1] at h
  | some p1 =>
  obtain ⟨hour, v1⟩ := p1
  simp only [h1] at h
  by_cases c1 : 24 ≤ hour
  · simp [c1] at h
  rw [if_neg c1] at h
  cases h2 : skip v1 ':' with
  | none => simp [h2] at h
  | some v2 =>
  simp only [h2] at h
  cases h3 : getnum v2 true with
  | none => simp [h3] at h
  | some p3 =>
  obtain ⟨min, v3⟩ := p3
  simp only [h3] at h
  by_cases c3 : 60 ≤ min
  · simp [c3] at h
  rw [if_neg c3] at h
  cases h4 : skip v3 ':' with
  | none => simp [h4] at h
  | some v4 =>
  simp only [h4] at h
  cases h5 : getnum v4 true with
  | none => simp [h5] at h
  | some p5 =>
  obtain ⟨sec, v5⟩ := p5
  simp only [h5] at h
  by_cases c5 : 60 ≤ sec
  · simp [c5] at h
  rw [if_neg c5] at h
  obtain ⟨q6, e6, n6⟩ := parseFraction_consumes v5
  cases h7 : parseZone (parseFraction v5).2 with
  | none => simp [h7] at h
  | some p7 =>
  obtain ⟨loc, v7⟩ := p7
  obtain ⟨q7, e7, n7⟩ := parseZone_consumes _ _ _ h7
  simp only [h7] at h
  cases v7 with
  | cons c tail => simp at h
  | nil =>
  obtain ⟨q1, e1, d1⟩ := getnum_consumes _ _ _ _ h1
  obtain ⟨q3, e3, d3⟩ := getnum_consumes _ _ _ _ h3
  obtain ⟨q5, e5, d5⟩ := getnum_consumes _ _ _ _ h5
  have e2 := skip_consumes _ _ _ h2
  have e4 := skip_consumes _ _ _ h4
  rw [e1, e2, e3, e4, e5, e6, e7]
  simp only [List.mem_append, List.mem_cons, List.not_mem_nil, or_false, not_or]
  refine ⟨fun hm => isDigit_ne_T _ (d1 _ hm) rfl, by decide,
    fun hm => isDigit_ne_T _ (d3 _ hm) rfl, by decide,
    fun hm => isDigit_ne_T _ (d5 _ hm) rfl, n6, n7⟩

theorem getnum_fixed_spec (s : List Char) (v : Nat) (rest : List Char)
    (h : getnum s true = some (v, rest)) :
    ∃ a b, s = a :: b :: rest ∧ isDigit a = true ∧ isDigit b = true ∧
      v = digitVal a * 10 + digitVal b := by
  unfold getnum at h
  match s with
  | [] => simp at h
  | [c0] => by_cases h0 : isDigit c0 = true <;> simp [h0] at h
  | c0 :: c1 :: rest1 =>
    by_cases h0 : isDigit c0 = true <;> by_cases h1 : isDigit c1 = true <;> simp [h0, h1] at h
    obtain ⟨rfl, rfl⟩ := h
    exact ⟨c0, c1, rfl, h0, h1, rfl⟩

theorem parseDate_spec (value : List Char) (y m d : Nat) (rest : List Char)
    (h : parseDate value = some (y, m, d, rest)) :
    ∃ y0 y1 y2 y3 m0 m1 d0 d1,
      value = y0 :: y1 :: y2 :: y3 :: '-' :: m0 :: m1 :: '-' :: d0 :: d1 :: 'T' :: rest ∧
      (isDigit y0 = true ∧ isDigit y1 = true ∧ isDigit y2 = true ∧ isDigit y3 = true) ∧
      (isDigit m0 = true ∧ isDigit m1 = true ∧ isDigit d0 = true ∧ isDigit d1 = true) ∧
      y = digitsVal [y0, y1, y2, y3] ∧ m = digitVal m0 * 10 + digitVal m1 ∧
      d = digitVal d0 * 10 + digitVal d1 ∧ 1 ≤ m ∧ m ≤ 12 := by
  unfold parseDate at h
  split at h
  · rename_i y0 y1 y2 y3 v0
    by_cases hy : (isDigit y0 && isDigit y1 && isDigit y2 && isDigit y3) = true
    · simp only [hy, Bool.not_true, Bool.false_eq_true, if_false] at h
      simp only [Bool.and_eq_true] at hy
      cases h1 : skip v0 '-' with
      | none => simp [h1] at h
      | some v1 =>
      simp only [h1] at h
      cases h2 : getnum v1 true with
      | none => simp [h2] at h
      | some p2 =>
      obtain ⟨month, v2⟩ := p2
      simp only [h2] at h
      by_cases c2 : month = 0 ∨ 12 < month
      · simp [c2] at h
      rw [if_neg c2] at h
      cases h3 : skip v2 '-' with
      | none => simp [h3] at h
      | some v3 =>
      simp only [h3] at h
      cases h4 : getnum v3 true with
      | none => simp [h4] at h
      | some p4 =>
      obtain ⟨day, v4⟩ := p4
      simp only [h4] at h
      cases h5 : skip v4 'T' with
      | none => simp [h5] at h
      | some v5 =>
      simp only [h5, Option.some.injEq, Prod.mk.injEq] at h
      obtain ⟨rfl, rfl, rfl, rfl⟩ := h
      obtain ⟨m0, m1, e2, dm0, dm1, em⟩ := getnum_fixed_spec _ _ _ h2
      obtain ⟨d0, d1, e4, dd0, dd1, ed⟩ := getnum_fixed_spec _ _ _ h4
      have e1 := skip_consumes _ _ _ h1
      have e3 := skip_consumes _ _ _ h3
      have e5 := skip_consumes _ _ _ h5
      refine ⟨y0, y1, y2, y3, m0, m1, d0, d1, ?_, ⟨hy.1.1.1, hy.1.1.2, hy.1.2, hy.2⟩,
        ⟨dm0, dm1, dd0, dd1⟩, rfl, em, ed, by omega, by omega⟩
      rw [e1, e2, e3, e4, e5]
    · simp [hy] at h
  · cases h

theorem digitChar_digitVal (c : Char) (h : isDigit c = true) : digitChar (digitVal c) = c := by
  simp only [isDigit, Bool.and_eq_true, decide_eq_true_eq] at h
  unfold digitChar digitVal
  have : 48 + (c.toNat - 48) = c.toNat := by omega
  rw [this]
  exact Char.ofNat_toNat c

theorem digitChar_spec (n : Nat) (h : n < 10) :
    isDigit (digitChar n) = true ∧ digitVal (digitChar n) = n := by
  interval_cases n <;> decide

theorem append_cons_unique {α : Type} (t : α) (a : List α) :
    ∀ (a1 b b1 : List α), t ∉ a → t ∉ a1 → a ++ t :: b = a1 ++ t :: b1 → a = a1 ∧ b = b1 := by
  induction a with
  | nil =>
    intro a1 b b1 _ h1 h
    cases a1 with
    | nil => simpa using h
    | cons x a2 =>
      simp only [List.nil_append, List.cons_append, List.cons.injEq] at h
      exact absurd (h.1 ▸ List.mem_cons_self _ _) h1
  | cons x a ih =>
    intro a1 b b1 h0 h1 h
    cases a1 with
    | nil =>
      simp only [List.nil_append, List.cons_append, List.cons.injEq] at h
      exact absurd (h.1 ▸ List.mem_cons_self _ _) h0
    | cons x1 a2 =>
      simp only [List.cons_append, List.cons.injEq] at h
      obtain ⟨h2, h3⟩ := ih a2 b b1 (fun hm => h0 (List.mem_cons_of_mem _ hm))
        (fun hm => h1 (List.mem_cons_of_mem _ hm)) h.2
      exact ⟨by rw [h.1, h2], h3⟩

theorem append_cons_unique_of_count (t : Char) (a a1 b b1 : List Char)
    (ha : t ∉ a) (hb : t ∉ b) (hb1 : t ∉ b1) (h : a ++ t :: b = a1 ++ t :: b1) :
    a = a1 ∧ b = b1 := by
  have hcount := congrArg (List.count t) h
  simp only [List.count_append, List.count_cons_self, List.count_eq_zero_of_not_mem ha,
    List.count_eq_zero_of_not_mem hb, List.count_eq_zero_of_not_mem hb1] at hcount
  have ha1 : t ∉ a1 := by
    apply List.count_eq_zero.mp
    omega
  exact append_cons_unique t a a1 b b1 ha ha1 h

/-- What `parseCSV` makes of a date field: the parse of the field followed by
`T00:00:00Z` succeeds only for a field of the form `YYYY-MM-DD` that names a
calendar day, and gives midnight UTC of that day. -/
theorem time_Parse_date_field (d : String) (t : Time)
    (h : time_Parse (d ++ "T00:00:00Z") = .ok t) :
    ∃ y m dd, validDate y m dd = true ∧ d = formatDate y m dd ∧
      t = ⟨y, m, dd, 0, 0, 0, 0, .UTC⟩ := by
  unfold time_Parse at h
  have hdata : (d ++ "T00:00:00Z").data
      = d.data ++ 'T' :: ['0', '0', ':', '0', '0', ':', '0', '0', 'Z'] := by
    rw [String.data_append]
  rw [hdata] at h
  cases hd : parseDate (d.data ++ 'T' :: ['0', '0', ':', '0', '0', ':', '0', '0', 'Z']) with
  | none => simp [hd] at h
  | some pd =>
  obtain ⟨y, m, dd, rest⟩ := pd
  simp only [hd] at h
  cases hc : parseClock rest with
  | none => simp [hc] at h
  | some pc =>
  obtain ⟨hour, min, sec, nsec, loc⟩ := pc
  simp only [hc] at h
  split_ifs at h with hday
  simp only [Except.ok.injEq] at h
  obtain ⟨y0, y1, y2, y3, m0, m1, d0, d1, hval, ⟨hy0, hy1, hy2, hy3⟩, ⟨hm0, hm1, hd0, hd1⟩,
    ey, em, ed, hm_lo, hm_hi⟩ := parseDate_spec _ _ _ _ _ hd
  have hT : 'T' ∉ rest := parseClock_no_T rest _ hc
  have hten : 'T' ∉ [y0, y1, y2, y3, '-', m0, m1, '-', d0, d1] := by
    simp only [List.mem_cons, List.mem_singleton, List.not_mem_nil, or_false, not_or]
    exact ⟨Ne.symm (isDigit_ne_T _ hy0), Ne.symm (isDigit_ne_T _ hy1),
      Ne.symm (isDigit_ne_T _ hy2), Ne.symm (isDigit_ne_T _ hy3), by decide,
      Ne.symm (isDigit_ne_T _ hm0), Ne.symm (isDigit_ne_T _ hm1), by decide,
      Ne.symm (isDigit_ne_T _ hd0), Ne.symm (isDigit_ne_T _ hd1)⟩
  have hsplit : [y0, y1, y2, y3, '-', m0, m1, '-', d0, d1] ++ 'T' :: rest
      = d.data ++ 'T' :: ['0', '0', ':', '0', '0', ':', '0', '0', 'Z'] := by
    rw [hval]
    rfl
  obtain ⟨hfield, hrest⟩ := append_cons_unique_of_count 'T' _ _ _ _ hten hT (by decide) hsplit
  rw [hrest] at hc
  have hclock : parseClock ['0', '0', ':', '0', '0', ':', '0', '0', 'Z']
      = some (0, 0, 0, 0, .UTC) := by decide
  rw [hclock] at hc
  simp only [Option.some.injEq, Prod.mk.injEq] at hc
  obtain ⟨rfl, rfl, rfl, rfl, rfl⟩ := hc
  have b0 := digitVal_le _ hy0
  have b1 := digitVal_le _ hy1
  have b2 := digitVal_le _ hy2
  have b3 := digitVal_le _ hy3
  have c0 := digitVal_le _ hm0
  have c1 := digitVal_le _ hm1
  have c2 := digitVal_le _ hd0
  have c3 := digitVal_le _ hd1
  have ey1 : y = ((digitVal y0 * 10 + digitVal y1) * 10 + digitVal y2) * 10 + digitVal y3 := by
    rw [ey]
    simp [digitsVal]
  refine ⟨y, m, dd, ?_, ?_, h.symm⟩
  · simp only [validDate, Bool.and_eq_true, decide_eq_true_eq]
    refine ⟨⟨⟨⟨?_, hm_lo⟩, hm_hi⟩, ?_⟩, ?_⟩ <;> omega
  · have q0 : y / 1000 % 10 = digitVal y0 := by omega
    have q1 : y / 100 % 10 = digitVal y1 := by omega
    have q2 : y / 10 % 10 = digitVal y2 := by omega
    have q3 : y % 10 = digitVal y3 := by omega
    have q4 : m / 10 % 10 = digitVal m0 := by omega
    have q5 : m % 10 = digitVal m1 := by omega
    have q6 : dd / 10 % 10 = digitVal d0 := by omega
    have q7 : dd % 10 = digitVal d1 := by omega
    unfold formatDate
    rw [q0, q1, q2, q3, q4, q5, q6, q7, digitChar_digitVal _ hy0, digitChar_digitVal _ hy1,
      digitChar_digitVal _ hy2, digitChar_digitVal _ hy3, digitChar_digitVal _ hm0,
      digitChar_digitVal _ hm1, digitChar_digitVal _ hd0, digitChar_digitVal _ hd1, hfield]

theorem daysIn_le (m y : Nat) : daysIn m y ≤ 31 := by
  unfold daysIn
  split_ifs <;> omega

/-- Conversely, the text `YYYY-MM-DD` of every calendar day is accepted as a
date field and read as midnight UTC of that day. -/
theorem time_Parse_formatDate (y m dd : Nat) (h : validDate y m dd = true) :
    time_Parse (formatDate y m dd ++ "T00:00:00Z") = .ok ⟨y, m, dd, 0, 0, 0, 0, .UTC⟩ := by
  simp only [validDate, Bool.and_eq_true, decide_eq_true_eq] at h
  obtain ⟨⟨⟨⟨hy, hm1⟩, hm2⟩, hd1⟩, hd2⟩ := h
  have hd3 := daysIn_le m y
  obtain ⟨a0, b0⟩ := digitChar_spec (y / 1000 % 10) (Nat.mod_lt _ (by decide))
  obtain ⟨a1, b1⟩ := digitChar_spec (y / 100 % 10) (Nat.mod_lt _ (by decide))
  obtain ⟨a2, b2⟩ := digitChar_spec (y / 10 % 10) (Nat.mod_lt _ (by decide))
  obtain ⟨a3, b3⟩ := digitChar_spec (y % 10) (Nat.mod_lt _ (by decide))
  obtain ⟨a4, b4⟩ := digitChar_spec (m / 10 % 10) (Nat.mod_lt _ (by decide))
  obtain ⟨a5, b5⟩ := digitChar_spec (m % 10) (Nat.mod_lt _ (by decide))
  obtain ⟨a6, b6⟩ := digitChar_spec (dd / 10 % 10) (Nat.mod_lt _ (by decide))
  obtain ⟨a7, b7⟩ := digitChar_spec (dd % 10) (Nat.mod_lt _ (by decide))
  have ey : (((y / 1000 % 10) * 10 + y / 100 % 10) * 10 + y / 10 % 10) * 10 + y % 10 = y := by
    omega
  have em : m / 10 % 10 * 10 + m % 10 = m := by omega
  have ed : dd / 10 % 10 * 10 + dd % 10 = dd := by omega
  have hclock : parseClock ['0', '0', ':', '0', '0', ':', '0', '0', 'Z']
      = some (0, 0, 0, 0, .UTC) := by decide
  have hdate : parseDate ((formatDate y m dd ++ "T00:00:00Z").data)
      = some (y, m, dd, ['0', '0', ':', '0', '0', ':', '0', '0', 'Z']) := by
    rw [String.data_append]
    simp only [formatDate, parseDate, List.cons_append, List.nil_append, a0, a1, a2, a3,
      Bool.and_self, Bool.not_true, Bool.false_eq_true, if_false, skip, if_true, getnum, a4, a5,
      a6, a7, b4, b5, b6, b7, digitsVal, List.foldl, b0, b1, b2, b3, em, ed]
    have hm : ¬ (m = 0 ∨ 12 < m) := by omega
    simp [hm, ey]
  unfold time_Parse
  rw [hdate]
  simp only [hclock]
  have hday : ¬ (dd < 1 ∨ dd > daysIn m y) := by omega
  rw [if_neg hday]

theorem forall₂_exists_of_mem {α β : Type} (R : α → β → Prop) (l1 : List α) (l2 : List β)
    (h : List.Forall₂ R l1 l2) (a : α) (ha : a ∈ l1) : ∃ b ∈ l2, R a b := by
  induction h with
  | nil => simp at ha
  | cons hab _ ih =>
    rcases List.mem_cons.mp ha with rfl | hmem
    · exact ⟨_, List.mem_cons_self _ _, hab⟩
    · obtain ⟨b, hb, hr⟩ := ih hmem
      exact ⟨b, List.mem_cons_of_mem _ hb, hr⟩

/-- C10: for every data row that `parseCSV` accepts, the date field has the
form `YYYY-MM-DD` of a calendar day and the `Date` of the record is exactly
midnight (hour, minute, second and nanosecond zero) UTC of that day, so that
no accepted record has a time of day or an offset; a batch with a date field
that is not the `YYYY-MM-DD` text of a calendar day is not accepted; and the
`YYYY-MM-DD` text of every calendar day is read as midnight UTC of that day. -/
theorem parseCSV_date_is_midnight_utc (fs : FileSystem) (filePath : String)
    (header : List String) (rows : File)
    (hfile : fs filePath = some (header :: rows)) :
    (∀ recs, parseCSV fs filePath = .returned recs none →
      List.Forall₂
        (fun row s => ∃ y m d, validDate y m d = true ∧ row[1]? = some (formatDate y m d) ∧
          s.Date = ⟨y, m, d, 0, 0, 0, 0, .UTC⟩)
        rows recs) ∧
    ((∃ row ∈ rows, ∃ t, row[1]? = some t ∧
        ∀ y m d, validDate y m d = true → t ≠ formatDate y m d) →
      ∀ recs, parseCSV fs filePath ≠ .returned recs none) ∧
    (∀ y m d, validDate y m d = true →
      time_Parse (formatDate y m d ++ "T00:00:00Z") = .ok ⟨y, m, d, 0, 0, 0, 0, .UTC⟩) := by
  have hmain : ∀ recs, parseCSV fs filePath = .returned recs none →
      List.Forall₂
        (fun row s => ∃ y m d, validDate y m d = true ∧ row[1]? = some (formatDate y m d) ∧
          s.Date = ⟨y, m, d, 0, 0, 0, 0, .UTC⟩)
        rows recs := by
    intro recs hparse
    rw [parseCSV_eq_loop fs filePath header rows hfile] at hparse
    obtain ⟨new, hnew, hall⟩ := loop_returned_ok rows _ _ _ hparse
    rw [List.nil_append] at hnew
    subst hnew
    refine hall.imp (fun row s h => ?_)
    obtain ⟨f0, f1, f2, f3, f4, tail, rfl, -, h1, -, -, -⟩ := (rowResult_sale_iff row s).mp h
    obtain ⟨y, m, d, hv, hf, ht⟩ := time_Parse_date_field f1 s.Date h1
    exact ⟨y, m, d, hv, by simp [hf], ht⟩
  refine ⟨hmain, ?_, time_Parse_formatDate⟩
  rintro ⟨row, hmem, t, ht, hbad⟩ recs hparse
  obtain ⟨s, -, y, m, d, hv, hf, -⟩ := forall₂_exists_of_mem _ _ _ (hmain recs hparse) row hmem
  rw [ht] at hf
  exact hbad y m d hv (Option.some.inj hf)

/-- Witness for C10: the three records of scenario A, and the leap day of 2024. -/
theorem parseCSV_date_is_midnight_utc_witness :
    List.Forall₂
      (fun (row : List String) (s : SalesData) =>
        ∃ y m d, validDate y m d = true ∧ row[1]? = some (formatDate y m d) ∧
          s.Date = ⟨y, m, d, 0, 0, 0, 0, .UTC⟩)
      scenarioA scenarioARecords ∧
    time_Parse (formatDate 2024 2 29 ++ "T00:00:00Z") = .ok ⟨2024, 2, 29, 0, 0, 0, 0, .UTC⟩ :=
  ⟨(parseCSV_date_is_midnight_utc (salesFile (headerRow :: scenarioA)) "sales_data.csv"
      headerRow scenarioA rfl).1 scenarioARecords (by decide),
   (parseCSV_date_is_midnight_utc (salesFile (headerRow :: scenarioA)) "sales_data.csv"
      headerRow scenarioA rfl).2.2 2024 2 29 (by decide)⟩

end SalesApp
